import Mathlib

/-!
Verification development for the sheepcount web-analytics collector.

Strings of bytes (Go `[]byte` and `string`) are modelled as `List Nat` with
every element below 256.  The BLAKE2b-128 keyed MAC is kept abstract: the
codec definitions take an arbitrary `mac : key → message → tag` function,
and theorems assume only the properties the Go code guarantees for
`blake2b.New(16, key)` (a 16-byte digest of byte values).
-/

set_option maxRecDepth 10000

/-- Bytes are naturals below 256. -/
def ValidBytes (bs : List Nat) : Prop := ∀ b ∈ bs, b < 256

instance : DecidablePred ValidBytes := fun bs =>
  List.decidableBAll (fun b => b < 256) bs

/-- An abstract keyed MAC: key and message in, tag out
(stands for the BLAKE2b-128 MAC of `encoding.go`). -/
def MacFun : Type := List Nat → List Nat → List Nat

/-- What `encoding.go` relies on for `blake2b.New(blakeSize128, key)`:
digests are 16 bytes long and consist of bytes. -/
def MacProps (mac : MacFun) : Prop :=
  ∀ key msg, ValidBytes msg → (mac key msg).length = 16 ∧ ValidBytes (mac key msg)

/-! ### Base64 (Go `encoding/base64` StdEncoding, as used by the token codec)

`EncodeToString` emits the standard alphabet with `=` padding.
`DecodeString` skips `\r`/`\n`, rejects any other byte outside the alphabet,
requires padding to be terminal, and (being the default, non-Strict decoder)
ignores the unused trailing bits of a final partial quantum. -/

/-- The standard base64 alphabet: 6-bit value to ASCII byte. -/
def b64Char (v : Nat) : Nat :=
  if v < 26 then 65 + v
  else if v < 52 then 97 + (v - 26)
  else if v < 62 then 48 + (v - 52)
  else if v = 62 then 43
  else 47

/-- Inverse alphabet lookup (Go's `decodeMap`); `none` for bytes outside it. -/
def b64Val (c : Nat) : Option Nat :=
  if 65 ≤ c ∧ c ≤ 90 then some (c - 65)
  else if 97 ≤ c ∧ c ≤ 122 then some (26 + (c - 97))
  else if 48 ≤ c ∧ c ≤ 57 then some (52 + (c - 48))
  else if c = 43 then some 62
  else if c = 47 then some 63
  else none

/-- `base64.StdEncoding.EncodeToString`: three bytes at a time, `=` padding. -/
def base64Encode : List Nat → List Nat
  | [] => []
  | [b0] => [b64Char (b0 / 4), b64Char (b0 % 4 * 16), 61, 61]
  | [b0, b1] => [b64Char (b0 / 4), b64Char (b0 % 4 * 16 + b1 / 16), b64Char (b1 % 16 * 4), 61]
  | b0 :: b1 :: b2 :: rest =>
      b64Char (b0 / 4) :: b64Char (b0 % 4 * 16 + b1 / 16) ::
        b64Char (b1 % 16 * 4 + b2 / 64) :: b64Char (b2 % 64) :: base64Encode rest

/-- Quantum-by-quantum decoding of a newline-free stream
(the body of Go's `decodeQuantum` loop).  Padding may only close the final
quantum; a quantum with fewer than four symbols is an error.  In the padded
cases the low bits of the last symbol are ignored, as in Go's default
(non-Strict) decoder. -/
def base64DecodeQuanta : List Nat → Option (List Nat)
  | [] => some []
  | c0 :: c1 :: c2 :: c3 :: rest =>
    match b64Val c0, b64Val c1 with
    | some v0, some v1 =>
      if c2 = 61 then
        if c3 = 61 ∧ rest = [] then some [v0 * 4 + v1 / 16] else none
      else
        match b64Val c2 with
        | some v2 =>
          if c3 = 61 then
            if rest = [] then some [v0 * 4 + v1 / 16, v1 % 16 * 16 + v2 / 4] else none
          else
            match b64Val c3 with
            | some v3 =>
              match base64DecodeQuanta rest with
              | some ds =>
                some ((v0 * 4 + v1 / 16) :: (v1 % 16 * 16 + v2 / 4) :: (v2 % 4 * 64 + v3) :: ds)
              | none => none
            | none => none
        | none => none
    | _, _ => none
  | _ => none

/-- `base64.StdEncoding.DecodeString`: carriage returns and newlines are
skipped, then the stream is decoded quantum by quantum. -/
def base64Decode (s : List Nat) : Option (List Nat) :=
  base64DecodeQuanta (s.filter (fun c => c != 13 && c != 10))

/-! ### Hex (Go `encoding/hex`, as used by the ETag codec) -/

/-- `encoding/hex` digit table (lowercase output). -/
def hexChar (v : Nat) : Nat := if v < 10 then 48 + v else 87 + v

/-- Go's `fromHexChar`: digits, lowercase and uppercase letters. -/
def hexVal (c : Nat) : Option Nat :=
  if 48 ≤ c ∧ c ≤ 57 then some (c - 48)
  else if 97 ≤ c ∧ c ≤ 102 then some (c - 87)
  else if 65 ≤ c ∧ c ≤ 70 then some (c - 55)
  else none

/-- `hex.EncodeToString`. -/
def hexEncode : List Nat → List Nat
  | [] => []
  | b :: rest => hexChar (b / 16) :: hexChar (b % 16) :: hexEncode rest

/-- `hex.Decode`: strict pairs of hex digits; odd length or a non-hex byte
is an error. -/
def hexDecode : List Nat → Option (List Nat)
  | [] => some []
  | c0 :: c1 :: rest =>
    match hexVal c0, hexVal c1 with
    | some hi, some lo =>
      match hexDecode rest with
      | some ds => some ((hi * 16 + lo) :: ds)
      | none => none
    | _, _ => none
  | _ => none

/-! ### The token / ETag codec (`encoding.go`) -/

/-- The error outcomes of `decodeToken` / `decodeETag`. -/
inductive DecodeErr
  | notQuoted
  | invalidLength (n : Nat)
  | invalidEncoding
  | hmacFailed
deriving DecidableEq, Repr

/-- Go `subtle.ConstantTimeCompare`: 1 iff the slices have equal length and
contents. -/
def constantTimeCompare (x y : List Nat) : Nat := if x = y then 1 else 0

/-- `validHMAC(message, messageMAC, key)` from `encoding.go`. -/
def validHMAC (mac : MacFun) (message messageMAC key : List Nat) : Bool :=
  constantTimeCompare messageMAC (mac key message) == 1

/-- `encodeToken`: base64 of `MAC16(identifier) || identifier` (32 raw bytes). -/
def encodeToken (mac : MacFun) (key ident : List Nat) : List Nat :=
  base64Encode (mac key ident ++ ident)

/-- `decodeToken`: base64-decode, check the 32-byte length, verify the MAC
over the identifier, return the identifier. -/
def decodeToken (mac : MacFun) (token key : List Nat) : Except DecodeErr (List Nat) :=
  match base64Decode token with
  | none => .error .invalidEncoding
  | some decoded =>
    if decoded.length ≠ 32 then .error (.invalidLength decoded.length)
    else if validHMAC mac (decoded.drop 16) (decoded.take 16) key then .ok (decoded.drop 16)
    else .error .hmacFailed

/-- `encodeETag`: a quote, the hex of
`MAC16(identifier || jsHash) || identifier || jsHash` (48 raw bytes), a quote. -/
def encodeETag (mac : MacFun) (key ident jsHash : List Nat) : List Nat :=
  34 :: (hexEncode (mac key (ident ++ jsHash) ++ ident ++ jsHash) ++ [34])

/-- `decodeETag`: strip the surrounding quotes, check the hex length
(`hex.EncodedLen 48 = 96`), hex-decode, verify the MAC over
`identifier || jsHash`, return both parts.  (On the one-byte input `"`,
where the Go original would panic slicing `et[1:0]`, the model reports
`notQuoted`; no theorem below touches that input.) -/
def decodeETag (mac : MacFun) (etag key : List Nat) : Except DecodeErr (List Nat × List Nat) :=
  if 2 ≤ etag.length ∧ etag.take 1 = [34] ∧ etag.drop (etag.length - 1) = [34] then
    let et := (etag.drop 1).take (etag.length - 2)
    if et.length ≠ 96 then .error (.invalidLength et.length)
    else match hexDecode et with
      | none => .error .invalidEncoding
      | some decoded =>
        if validHMAC mac (decoded.drop 16) (decoded.take 16) key then
          .ok ((decoded.drop 16).take 16, decoded.drop 32)
        else .error .hmacFailed
  else .error .notQuoted

/-! ### Round-trip lemmas for the primitive codecs -/

theorem b64Val_b64Char : ∀ v, v < 64 → b64Val (b64Char v) = some v := by decide

theorem b64Char_ne_61 : ∀ v, v < 64 → b64Char v ≠ 61 := by decide

theorem b64Char_ne_newline : ∀ v, v < 64 → b64Char v ≠ 13 ∧ b64Char v ≠ 10 := by decide

theorem hexVal_hexChar : ∀ v, v < 16 → hexVal (hexChar v) = some v := by decide

theorem base64Encode_no_newline (bs : List Nat) (h : ValidBytes bs) :
    (base64Encode bs).filter (fun c => c != 13 && c != 10) = base64Encode bs := by
  rw [List.filter_eq_self]
  intro c hc
  suffices hne : c ≠ 13 ∧ c ≠ 10 by
    simp [hne.1, hne.2]
  induction bs using base64Encode.induct with
  | case1 => simp [base64Encode] at hc
  | case2 b0 =>
    have hb0 : b0 < 256 := h b0 (by simp)
    simp only [base64Encode, List.mem_cons, List.mem_singleton, List.not_mem_nil, or_false] at hc
    rcases hc with rfl | rfl | rfl | rfl
    · exact b64Char_ne_newline _ (by omega)
    · exact b64Char_ne_newline _ (by omega)
    · exact ⟨by omega, by omega⟩
    · exact ⟨by omega, by omega⟩
  | case3 b0 b1 =>
    have hb0 : b0 < 256 := h b0 (by simp)
    have hb1 : b1 < 256 := h b1 (by simp)
    simp only [base64Encode, List.mem_cons, List.not_mem_nil, or_false] at hc
    rcases hc with rfl | rfl | rfl | rfl
    · exact b64Char_ne_newline _ (by omega)
    · exact b64Char_ne_newline _ (by omega)
    · exact b64Char_ne_newline _ (by omega)
    · exact ⟨by omega, by omega⟩
  | case4 b0 b1 b2 rest ih =>
    have hb0 : b0 < 256 := h b0 (by simp)
    have hb1 : b1 < 256 := h b1 (by simp)
    have hb2 : b2 < 256 := h b2 (by simp)
    simp only [base64Encode, List.mem_cons] at hc
    rcases hc with rfl | rfl | rfl | rfl | hc
    · exact b64Char_ne_newline _ (by omega)
    · exact b64Char_ne_newline _ (by omega)
    · exact b64Char_ne_newline _ (by omega)
    · exact b64Char_ne_newline _ (by omega)
    · exact ih (fun b hb => h b (by simp [hb])) hc

theorem base64DecodeQuanta_encode (bs : List Nat) (h : ValidBytes bs) :
    base64DecodeQuanta (base64Encode bs) = some bs := by
  induction bs using base64Encode.induct with
  | case1 => rfl
  | case2 b0 =>
    have hb0 : b0 < 256 := h b0 (by simp)
    have h1 := b64Val_b64Char (b0 / 4) (by omega)
    have h2 := b64Val_b64Char (b0 % 4 * 16) (by omega)
    simp only [base64Encode, base64DecodeQuanta, h1, h2]
    norm_num
    omega
  | case3 b0 b1 =>
    have hb0 : b0 < 256 := h b0 (by simp)
    have hb1 : b1 < 256 := h b1 (by simp)
    have h1 := b64Val_b64Char (b0 / 4) (by omega)
    have h2 := b64Val_b64Char (b0 % 4 * 16 + b1 / 16) (by omega)
    have h3 := b64Val_b64Char (b1 % 16 * 4) (by omega)
    have hne := b64Char_ne_61 (b1 % 16 * 4) (by omega)
    simp only [base64Encode, base64DecodeQuanta, h1, h2, h3]
    rw [if_neg hne]
    norm_num
    constructor
    · omega
    · omega
  | case4 b0 b1 b2 rest ih =>
    have hb0 : b0 < 256 := h b0 (by simp)
    have hb1 : b1 < 256 := h b1 (by simp)
    have hb2 : b2 < 256 := h b2 (by simp)
    have h1 := b64Val_b64Char (b0 / 4) (by omega)
    have h2 := b64Val_b64Char (b0 % 4 * 16 + b1 / 16) (by omega)
    have h3 := b64Val_b64Char (b1 % 16 * 4 + b2 / 64) (by omega)
    have h4 := b64Val_b64Char (b2 % 64) (by omega)
    have hne3 := b64Char_ne_61 (b1 % 16 * 4 + b2 / 64) (by omega)
    have hne4 := b64Char_ne_61 (b2 % 64) (by omega)
    have ih' := ih (fun b hb => h b (by simp [hb]))
    simp only [base64Encode, base64DecodeQuanta, h1, h2, h3, h4]
    rw [if_neg hne3, if_neg hne4]
    simp only [ih', Option.some.injEq, List.cons.injEq]
    refine ⟨by omega, by omega, by omega, trivial⟩

theorem base64Decode_encode (bs : List Nat) (h : ValidBytes bs) :
    base64Decode (base64Encode bs) = some bs := by
  rw [base64Decode, base64Encode_no_newline bs h, base64DecodeQuanta_encode bs h]

theorem hexDecode_encode (bs : List Nat) (h : ValidBytes bs) :
    hexDecode (hexEncode bs) = some bs := by
  induction bs with
  | nil => rfl
  | cons b rest ih =>
    have hb : b < 256 := h b (by simp)
    have h1 := hexVal_hexChar (b / 16) (by omega)
    have h2 := hexVal_hexChar (b % 16) (by omega)
    have ih' := ih (fun x hx => h x (by simp [hx]))
    simp only [hexEncode, hexDecode, h1, h2, ih']
    congr 1
    congr 1
    omega

theorem hexEncode_length (bs : List Nat) : (hexEncode bs).length = 2 * bs.length := by
  induction bs with
  | nil => rfl
  | cons b rest ih => simp [hexEncode, ih]; omega

theorem decodeToken_encodeToken (mac : MacFun) (key ident : List Nat)
    (hmac : MacProps mac)
    (hidlen : ident.length = 16) (hidv : ValidBytes ident) :
    decodeToken mac (encodeToken mac key ident) key = .ok ident := by
  have hm := hmac key ident hidv
  have hval : ValidBytes (mac key ident ++ ident) := by
    intro b hb
    rcases List.mem_append.mp hb with hb | hb
    · exact hm.2 b hb
    · exact hidv b hb
  have hlen : (mac key ident ++ ident).length = 32 := by
    simp [List.length_append, hm.1, hidlen]
  rw [decodeToken, encodeToken, base64Decode_encode _ hval]
  simp only [hlen]
  have htake : (mac key ident ++ ident).take 16 = mac key ident := by
    rw [show (16 : Nat) = (mac key ident).length from hm.1.symm, List.take_left]
  have hdrop : (mac key ident ++ ident).drop 16 = ident := by
    rw [show (16 : Nat) = (mac key ident).length from hm.1.symm, List.drop_left]
  rw [htake, hdrop]
  simp [validHMAC, constantTimeCompare]

theorem decodeETag_encodeETag (mac : MacFun) (key ident jsHash : List Nat)
    (hmac : MacProps mac)
    (hidlen : ident.length = 16) (hidv : ValidBytes ident)
    (hjslen : jsHash.length = 16) (hjsv : ValidBytes jsHash) :
    decodeETag mac (encodeETag mac key ident jsHash) key = .ok (ident, jsHash) := by
  have hcat : ValidBytes (ident ++ jsHash) := by
    intro b hb
    rcases List.mem_append.mp hb with hb | hb
    · exact hidv b hb
    · exact hjsv b hb
  have hm := hmac key (ident ++ jsHash) hcat
  set t := mac key (ident ++ jsHash) with ht
  have hval : ValidBytes (t ++ ident ++ jsHash) := by
    intro b hb
    rcases List.mem_append.mp hb with hb | hb
    · rcases List.mem_append.mp hb with hb | hb
      · exact hm.2 b hb
      · exact hidv b hb
    · exact hjsv b hb
  have hlen48 : (t ++ ident ++ jsHash).length = 48 := by
    simp [List.length_append, hm.1, hidlen, hjslen]
  have hhexlen : (hexEncode (t ++ ident ++ jsHash)).length = 96 := by
    rw [hexEncode_length, hlen48]
  set hx := hexEncode (t ++ ident ++ jsHash) with hhx
  have hetaglen : (34 :: (hx ++ [34])).length = 98 := by
    simp [hhexlen]
  rw [decodeETag, encodeETag, ← hhx]
  rw [if_pos]
  · have hstrip : (((34 : Nat) :: (hx ++ [34])).drop 1).take ((34 :: (hx ++ [34])).length - 2)
        = hx := by
      rw [hetaglen]
      simp only [List.drop_succ_cons, List.drop_zero]
      rw [show (98 : Nat) - 2 = hx.length from by rw [hhexlen], List.take_left]
    simp only [hstrip, hhexlen]
    rw [if_neg (by omega)]
    rw [hhx, hexDecode_encode _ hval]
    have hassoc : t ++ ident ++ jsHash = t ++ (ident ++ jsHash) := by
      rw [List.append_assoc]
    have htake : (t ++ ident ++ jsHash).take 16 = t := by
      rw [hassoc, show (16 : Nat) = t.length from hm.1.symm, List.take_left]
    have hdrop : (t ++ ident ++ jsHash).drop 16 = ident ++ jsHash := by
      rw [hassoc, show (16 : Nat) = t.length from hm.1.symm, List.drop_left]
    simp only [htake, hdrop]
    rw [validHMAC, ← ht, constantTimeCompare, if_pos rfl]
    simp only [beq_self_eq_true, if_pos]
    have h1 : (ident ++ jsHash).take 16 = ident := by
      rw [show (16 : Nat) = ident.length from hidlen.symm, List.take_left]
    have h3 : (t ++ ident ++ jsHash).drop 32 = jsHash := by
      have hpair : t ++ ident ++ jsHash = (t ++ ident) ++ jsHash := rfl
      rw [hpair, show (32 : Nat) = (t ++ ident).length from by
        simp [List.length_append, hm.1, hidlen], List.drop_left]
    rw [h1, h3]
  · refine ⟨by omega, rfl, ?_⟩
    rw [hetaglen]
    show ((34 : Nat) :: (hx ++ [34])).drop 97 = [34]
    have : (34 : Nat) :: (hx ++ [34]) = (34 :: hx) ++ [34] := by simp
    rw [this]
    have hlen' : ((34 : Nat) :: hx).length = 97 := by simp [hhexlen]
    rw [show (97 : Nat) = ((34 : Nat) :: hx).length from hlen'.symm, List.drop_left]

/-- C1: for every key `k` and 16-byte identifier `id`,
`decodeToken (encodeToken k id) k` returns `id` with no error; and for every
key `k`, identifier `id` and 16-byte content hash `h`,
`decodeETag (encodeETag k id h) k` returns `(id, h)` with no error. -/
theorem c1_token_etag_roundtrip (mac : MacFun) (key ident jsHash : List Nat)
    (hmac : MacProps mac)
    (hidlen : ident.length = 16) (hidv : ValidBytes ident)
    (hjslen : jsHash.length = 16) (hjsv : ValidBytes jsHash) :
    decodeToken mac (encodeToken mac key ident) key = .ok ident ∧
    decodeETag mac (encodeETag mac key ident jsHash) key = .ok (ident, jsHash) :=
  ⟨decodeToken_encodeToken mac key ident hmac hidlen hidv,
    decodeETag_encodeETag mac key ident jsHash hmac hidlen hidv hjslen hjsv⟩

/-- A concrete MAC used by witnesses: constant 16-byte zero tag. -/
def macZero : MacFun := fun _ _ => List.replicate 16 0

theorem macZero_props : MacProps macZero := by
  intro key msg _
  constructor
  · simp [macZero]
  · intro b hb
    simp only [macZero, List.mem_replicate] at hb
    omega

/-- Witness for C1 at a concrete key, identifier, hash and MAC. -/
theorem c1_witness :
    decodeToken macZero (encodeToken macZero [1, 2] (List.replicate 16 0)) [1, 2]
        = .ok (List.replicate 16 0) ∧
    decodeETag macZero (encodeETag macZero [1, 2] (List.replicate 16 0) (List.replicate 16 7)) [1, 2]
        = .ok (List.replicate 16 0, List.replicate 16 7) := by
  have h := c1_token_etag_roundtrip macZero [1, 2] (List.replicate 16 0) (List.replicate 16 7)
    macZero_props (by simp) (by decide) (by simp) (by decide)
  simpa using h

/-! ### Tamper-analysis lemmas for the token codec (claim C2)

A single-byte alteration of a token or ETag is modelled as `List.set`:
`s.set p v` replaces the byte at position `p` by `v`. -/

theorem b64Val_61 : b64Val 61 = none := by decide

theorem b64Val_13 : b64Val 13 = none := by decide

theorem b64Val_10 : b64Val 10 = none := by decide

theorem b64Val_isSome_ne (v w : Nat) (h : b64Val v = some w) :
    v ≠ 61 ∧ v ≠ 13 ∧ v ≠ 10 := by
  refine ⟨?_, ?_, ?_⟩ <;> rintro rfl <;> simp [b64Val] at h



theorem b64Val_lt (c w : Nat) (h : b64Val c = some w) : w < 64 := by
  rw [b64Val] at h
  split at h
  all_goals try split at h
  all_goals try split at h
  all_goals try split at h
  all_goals try split at h
  all_goals simp_all
  all_goals omega

theorem hexVal_lt (c w : Nat) (h : hexVal c = some w) : w < 16 := by
  rw [hexVal] at h
  split at h
  all_goals try split at h
  all_goals try split at h
  all_goals simp_all
  all_goals omega

/-- Decoded base64 output consists of bytes. -/
theorem base64DecodeQuanta_validBytes (t ds : List Nat)
    (h : base64DecodeQuanta t = some ds) : ValidBytes ds := by
  induction t using base64DecodeQuanta.induct generalizing ds with
  | case1 =>
    simp only [base64DecodeQuanta, Option.some.injEq] at h
    intro b hb
    simp [← h] at hb
  | case2 c0 c1 c3 rest v0 v1 h1 h0 hcond =>
    obtain ⟨rfl, rfl⟩ := hcond
    have hv0 : v0 < 64 := b64Val_lt _ _ h0
    have hv1 : v1 < 64 := b64Val_lt _ _ h1
    rw [base64DecodeQuanta, h0, h1] at h
    simp at h
    subst h
    intro b hb
    simp at hb
    omega
  | case3 c0 c1 c3 rest v0 v1 h1 h0 hcond =>
    rw [base64DecodeQuanta, h0, h1] at h
    simp [hcond] at h
  | case4 c0 c1 c2 v0 v1 h1 h0 hc2 v2 h2 =>
    have hv0 : v0 < 64 := b64Val_lt _ _ h0
    have hv1 : v1 < 64 := b64Val_lt _ _ h1
    have hv2 : v2 < 64 := b64Val_lt _ _ h2
    rw [base64DecodeQuanta, h0, h1] at h
    simp [hc2, h2] at h
    subst h
    intro b hb
    simp at hb
    rcases hb with rfl | rfl <;> omega
  | case5 c0 c1 c2 rest v0 v1 h1 h0 hc2 v2 h2 hrest =>
    rw [base64DecodeQuanta, h0, h1] at h
    simp [hc2, h2, hrest] at h
  | case6 c0 c1 c2 c3 rest v0 v1 h1 h0 hc2 v2 h2 hc3 v3 h3 ds0 hds0 ih =>
    have hv0 : v0 < 64 := b64Val_lt _ _ h0
    have hv1 : v1 < 64 := b64Val_lt _ _ h1
    have hv2 : v2 < 64 := b64Val_lt _ _ h2
    have hv3 : v3 < 64 := b64Val_lt _ _ h3
    rw [base64DecodeQuanta, h0, h1] at h
    simp [hc2, h2, hc3, h3, hds0] at h
    subst h
    intro b hb
    simp at hb
    rcases hb with rfl | rfl | rfl | hb
    · omega
    · omega
    · omega
    · exact ih ds0 hds0 b hb
  | case7 c0 c1 c2 c3 rest v0 v1 h1 h0 hc2 v2 h2 hc3 v3 h3 hds0 ih =>
    rw [base64DecodeQuanta, h0, h1] at h
    simp [hc2, h2, hc3, h3, hds0] at h
  | case8 c0 c1 c2 c3 rest v0 v1 h1 h0 hc2 v2 h2 hc3 h3 =>
    rw [base64DecodeQuanta, h0, h1] at h
    simp [hc2, h2, hc3, h3] at h
  | case9 c0 c1 c2 c3 rest v0 v1 h1 h0 hc2 h2 =>
    rw [base64DecodeQuanta, h0, h1] at h
    simp [hc2, h2] at h
  | case10 c0 c1 c2 c3 rest hfail =>
    rw [base64DecodeQuanta] at h
    rcases hb0 : b64Val c0 with _ | v0 <;> rcases hb1 : b64Val c1 with _ | v1 <;>
      rw [hb0, hb1] at h <;> simp at h
    exact absurd (hfail v0 v1 hb0 hb1) not_false
  | case11 t hnil hbig =>
    rcases t with _ | ⟨a, _ | ⟨b, _ | ⟨c, _ | ⟨d, rest⟩⟩⟩⟩
    · exact absurd rfl hnil
    · simp [base64DecodeQuanta] at h
    · simp [base64DecodeQuanta] at h
    · simp [base64DecodeQuanta] at h
    · exact absurd rfl (hbig a b c d rest)

/-- A stream whose length is not a multiple of four never decodes
(Go: incomplete quantum / missing padding). -/
theorem base64DecodeQuanta_len_mod (t : List Nat) (hmod : t.length % 4 ≠ 0) :
    base64DecodeQuanta t = none := by
  induction t using base64DecodeQuanta.induct with
  | case1 => simp at hmod
  | case2 c0 c1 c3 rest v0 v1 h1 h0 hcond =>
    obtain ⟨rfl, rfl⟩ := hcond
    simp at hmod
  | case3 c0 c1 c3 rest v0 v1 h1 h0 hcond =>
    rw [base64DecodeQuanta, h0, h1]
    simp [hcond]
  | case4 c0 c1 c2 v0 v1 h1 h0 hc2 v2 h2 => simp at hmod
  | case5 c0 c1 c2 rest v0 v1 h1 h0 hc2 v2 h2 hrest =>
    rw [base64DecodeQuanta, h0, h1]
    simp [hc2, h2, hrest]
  | case6 c0 c1 c2 c3 rest v0 v1 h1 h0 hc2 v2 h2 hc3 v3 h3 ds0 hds0 ih =>
    have hmod' : rest.length % 4 ≠ 0 := by
      simp only [List.length_cons] at hmod
      omega
    rw [ih hmod'] at hds0
    exact absurd hds0 (by simp)
  | case7 c0 c1 c2 c3 rest v0 v1 h1 h0 hc2 v2 h2 hc3 v3 h3 hds0 ih =>
    rw [base64DecodeQuanta, h0, h1]
    simp [hc2, h2, hc3, h3, hds0]
  | case8 c0 c1 c2 c3 rest v0 v1 h1 h0 hc2 v2 h2 hc3 h3 =>
    rw [base64DecodeQuanta, h0, h1]
    simp [hc2, h2, hc3, h3]
  | case9 c0 c1 c2 c3 rest v0 v1 h1 h0 hc2 h2 =>
    rw [base64DecodeQuanta, h0, h1]
    simp [hc2, h2]
  | case10 c0 c1 c2 c3 rest hfail =>
    rw [base64DecodeQuanta]
    rcases hb0 : b64Val c0 with _ | v0 <;> rcases hb1 : b64Val c1 with _ | v1 <;> simp
    exact absurd (hfail v0 v1 hb0 hb1) not_false
  | case11 t hnil hbig =>
    rcases t with _ | ⟨a, _ | ⟨b, _ | ⟨c, _ | ⟨d, rest⟩⟩⟩⟩
    · exact absurd rfl hnil
    · rfl
    · rfl
    · rfl
    · exact absurd rfl (hbig a b c d rest)

/-- A byte that is neither in the alphabet nor `=` poisons the whole decode. -/
theorem base64DecodeQuanta_bad_char (t : List Nat) (c : Nat) (hc : c ∈ t)
    (hval : b64Val c = none) (hne : c ≠ 61) : base64DecodeQuanta t = none := by
  induction t using base64DecodeQuanta.induct with
  | case1 => simp at hc
  | case2 c0 c1 c3 rest v0 v1 h1 h0 hcond =>
    obtain ⟨rfl, rfl⟩ := hcond
    simp only [List.mem_cons, List.not_mem_nil, or_false] at hc
    rcases hc with rfl | rfl | rfl | rfl
    · rw [h0] at hval; exact absurd hval (by simp)
    · rw [h1] at hval; exact absurd hval (by simp)
    · exact absurd rfl hne
    · exact absurd rfl hne
  | case3 c0 c1 c3 rest v0 v1 h1 h0 hcond =>
    rw [base64DecodeQuanta, h0, h1]
    simp [hcond]
  | case4 c0 c1 c2 v0 v1 h1 h0 hc2 v2 h2 =>
    simp only [List.mem_cons, List.not_mem_nil, or_false] at hc
    rcases hc with rfl | rfl | rfl | rfl
    · rw [h0] at hval; exact absurd hval (by simp)
    · rw [h1] at hval; exact absurd hval (by simp)
    · rw [h2] at hval; exact absurd hval (by simp)
    · exact absurd rfl hne
  | case5 c0 c1 c2 rest v0 v1 h1 h0 hc2 v2 h2 hrest =>
    rw [base64DecodeQuanta, h0, h1]
    simp [hc2, h2, hrest]
  | case6 c0 c1 c2 c3 rest v0 v1 h1 h0 hc2 v2 h2 hc3 v3 h3 ds0 hds0 ih =>
    simp only [List.mem_cons] at hc
    rcases hc with rfl | rfl | rfl | rfl | hcr
    · rw [h0] at hval; exact absurd hval (by simp)
    · rw [h1] at hval; exact absurd hval (by simp)
    · rw [h2] at hval; exact absurd hval (by simp)
    · rw [h3] at hval; exact absurd hval (by simp)
    · rw [ih hcr] at hds0; exact absurd hds0 (by simp)
  | case7 c0 c1 c2 c3 rest v0 v1 h1 h0 hc2 v2 h2 hc3 v3 h3 hds0 ih =>
    rw [base64DecodeQuanta, h0, h1]
    simp [hc2, h2, hc3, h3, hds0]
  | case8 c0 c1 c2 c3 rest v0 v1 h1 h0 hc2 v2 h2 hc3 h3 =>
    rw [base64DecodeQuanta, h0, h1]
    simp [hc2, h2, hc3, h3]
  | case9 c0 c1 c2 c3 rest v0 v1 h1 h0 hc2 h2 =>
    rw [base64DecodeQuanta, h0, h1]
    simp [hc2, h2]
  | case10 c0 c1 c2 c3 rest hfail =>
    rw [base64DecodeQuanta]
    rcases hb0 : b64Val c0 with _ | v0 <;> rcases hb1 : b64Val c1 with _ | v1 <;> simp
    exact absurd (hfail v0 v1 hb0 hb1) not_false
  | case11 t hnil hbig =>
    rcases t with _ | ⟨a, _ | ⟨b, _ | ⟨c', _ | ⟨d, rest⟩⟩⟩⟩
    · exact absurd rfl hnil
    · rfl
    · rfl
    · rfl
    · exact absurd rfl (hbig a b c' d rest)

/-- Length of a base64 encoding. -/
theorem base64Encode_length (bs : List Nat) :
    (base64Encode bs).length = 4 * ((bs.length + 2) / 3) := by
  induction bs using base64Encode.induct with
  | case1 => rfl
  | case2 b0 => simp [base64Encode]
  | case3 b0 b1 => simp [base64Encode]
  | case4 b0 b1 b2 rest ih =>
    simp only [base64Encode, List.length_cons, ih]
    omega

theorem validHMAC_iff (mac : MacFun) (msg msgMAC key : List Nat) :
    validHMAC mac msg msgMAC key = true ↔ msgMAC = mac key msg := by
  rw [validHMAC, constantTimeCompare]
  by_cases h : msgMAC = mac key msg <;> simp [h]

theorem mem_set_self (l : List Nat) (p v : Nat) (hp : p < l.length) : v ∈ l.set p v := by
  rw [List.set_eq_take_append_cons_drop, if_pos hp]
  simp

theorem base64DecodeQuanta_cons (c0 c1 c2 c3 : Nat) (rest : List Nat)
    (v0 v1 v2 v3 : Nat) (h0 : b64Val c0 = some v0) (h1 : b64Val c1 = some v1)
    (h2 : b64Val c2 = some v2) (h3 : b64Val c3 = some v3)
    (hc2 : c2 ≠ 61) (hc3 : c3 ≠ 61) :
    base64DecodeQuanta (c0 :: c1 :: c2 :: c3 :: rest) =
      (base64DecodeQuanta rest).map
        (fun ds => (v0 * 4 + v1 / 16) :: (v1 % 16 * 16 + v2 / 4) :: (v2 % 4 * 64 + v3) :: ds) := by
  rw [base64DecodeQuanta, h0, h1]
  simp only [if_neg hc2, h2, if_neg hc3, h3]
  rcases base64DecodeQuanta rest with _ | ds <;> simp

theorem base64DecodeQuanta_pad1 (c0 c1 c2 : Nat) (v0 v1 v2 : Nat)
    (h0 : b64Val c0 = some v0) (h1 : b64Val c1 = some v1) (h2 : b64Val c2 = some v2)
    (hc2 : c2 ≠ 61) :
    base64DecodeQuanta [c0, c1, c2, 61] = some [v0 * 4 + v1 / 16, v1 % 16 * 16 + v2 / 4] := by
  rw [base64DecodeQuanta, h0, h1]
  simp [hc2, h2]

theorem base64DecodeQuanta_pad2 (c0 c1 : Nat) (v0 v1 : Nat)
    (h0 : b64Val c0 = some v0) (h1 : b64Val c1 = some v1) :
    base64DecodeQuanta [c0, c1, 61, 61] = some [v0 * 4 + v1 / 16] := by
  rw [base64DecodeQuanta, h0, h1]
  simp

theorem base64DecodeQuanta_c0_none (c0 c1 c2 c3 : Nat) (rest : List Nat)
    (h0 : b64Val c0 = none) :
    base64DecodeQuanta (c0 :: c1 :: c2 :: c3 :: rest) = none := by
  rw [base64DecodeQuanta, h0]

theorem base64DecodeQuanta_c1_none (c0 c1 c2 c3 : Nat) (rest : List Nat)
    (h1 : b64Val c1 = none) :
    base64DecodeQuanta (c0 :: c1 :: c2 :: c3 :: rest) = none := by
  rw [base64DecodeQuanta, h1]
  rcases b64Val c0 with _ | v0 <;> simp

theorem base64DecodeQuanta_eq61_c2 (c0 c1 c3 : Nat) (rest : List Nat)
    (hcond : ¬(c3 = 61 ∧ rest = [])) :
    base64DecodeQuanta (c0 :: c1 :: 61 :: c3 :: rest) = none := by
  rw [base64DecodeQuanta]
  rcases b64Val c0 with _ | v0 <;> rcases b64Val c1 with _ | v1 <;> simp [hcond]

theorem base64DecodeQuanta_eq61_c3 (c0 c1 c2 : Nat) (rest : List Nat)
    (hc2 : c2 ≠ 61) (hrest : rest ≠ []) :
    base64DecodeQuanta (c0 :: c1 :: c2 :: 61 :: rest) = none := by
  rw [base64DecodeQuanta]
  rcases b64Val c0 with _ | v0 <;> rcases b64Val c1 with _ | v1 <;>
    rcases h2 : b64Val c2 with _ | v2 <;> simp [hc2, h2, hrest]

theorem base64Decode_validBytes (s ds : List Nat) (h : base64Decode s = some ds) :
    ValidBytes ds :=
  base64DecodeQuanta_validBytes _ ds h

/-- The final byte of the encoding of a `3*k+2`-byte string is `=`, so
"altering" it to `=` changes nothing. -/
theorem base64Encode_set_last (k : Nat) : ∀ (bs : List Nat), bs.length = 3 * k + 2 →
    (base64Encode bs).set (4 * k + 3) 61 = base64Encode bs := by
  induction k with
  | zero =>
    intro bs hlen
    rcases bs with _ | ⟨b0, _ | ⟨b1, _ | ⟨b2, tl⟩⟩⟩
    · simp at hlen
    · simp at hlen
    · rfl
    · simp at hlen
  | succ k ih =>
    intro bs hlen
    rcases bs with _ | ⟨b0, _ | ⟨b1, _ | ⟨b2, tl⟩⟩⟩
    · simp at hlen
    · simp at hlen
    · simp at hlen
    · simp only [List.length_cons] at hlen
      have harith : 4 * (k + 1) + 3 = (4 * k + 3) + 1 + 1 + 1 + 1 := by omega
      rw [base64Encode, harith, List.set_cons_succ, List.set_cons_succ, List.set_cons_succ,
        List.set_cons_succ, ih tl (by omega)]

/-- Replacing one symbol of a base64 encoding (of a `3*k+2`-byte string) by
another alphabet symbol still decodes, to a string of the same length that
agrees with the original outside the three-byte window of the altered
quantum. -/
theorem base64_set_valid (k : Nat) : ∀ (bs : List Nat), bs.length = 3 * k + 2 →
    ValidBytes bs → ∀ p v w, p < 4 * k + 3 → b64Val v = some w →
    ∃ ds, base64DecodeQuanta ((base64Encode bs).set p v) = some ds ∧
      ds.length = 3 * k + 2 ∧
      ds.take (3 * (p / 4)) = bs.take (3 * (p / 4)) ∧
      ds.drop (3 * (p / 4) + 3) = bs.drop (3 * (p / 4) + 3) := by
  induction k with
  | zero =>
    intro bs hlen hv p v w hp hw
    rcases bs with _ | ⟨b0, _ | ⟨b1, _ | ⟨b2, tl⟩⟩⟩
    · simp at hlen
    · simp at hlen
    · have hb0 : b0 < 256 := hv b0 (by simp)
      have hb1 : b1 < 256 := hv b1 (by simp)
      have hC0 := b64Val_b64Char (b0 / 4) (by omega)
      have hC1 := b64Val_b64Char (b0 % 4 * 16 + b1 / 16) (by omega)
      have hC2 := b64Val_b64Char (b1 % 16 * 4) (by omega)
      have hne2 := b64Char_ne_61 (b1 % 16 * 4) (by omega)
      have hnev := (b64Val_isSome_ne v w hw).1
      rw [base64Encode]
      interval_cases p
      · rw [List.set_cons_zero, base64DecodeQuanta_pad1 _ _ _ _ _ _ hw hC1 hC2 hne2]
        exact ⟨_, rfl, rfl, rfl, rfl⟩
      · rw [List.set_cons_succ, List.set_cons_zero,
          base64DecodeQuanta_pad1 _ _ _ _ _ _ hC0 hw hC2 hne2]
        exact ⟨_, rfl, rfl, rfl, rfl⟩
      · rw [List.set_cons_succ, List.set_cons_succ, List.set_cons_zero,
          base64DecodeQuanta_pad1 _ _ _ _ _ _ hC0 hC1 hw hnev]
        exact ⟨_, rfl, rfl, rfl, rfl⟩
    · simp at hlen
  | succ k ih =>
    intro bs hlen hv p v w hp hw
    rcases bs with _ | ⟨b0, _ | ⟨b1, _ | ⟨b2, tl⟩⟩⟩
    · simp at hlen
    · simp at hlen
    · simp at hlen
    · simp only [List.length_cons] at hlen
      have htl : tl.length = 3 * k + 2 := by omega
      have hvtl : ValidBytes tl := fun b hb => hv b (by simp [hb])
      have hb0 : b0 < 256 := hv b0 (by simp)
      have hb1 : b1 < 256 := hv b1 (by simp)
      have hb2 : b2 < 256 := hv b2 (by simp)
      have hC0 := b64Val_b64Char (b0 / 4) (by omega)
      have hC1 := b64Val_b64Char (b0 % 4 * 16 + b1 / 16) (by omega)
      have hC2 := b64Val_b64Char (b1 % 16 * 4 + b2 / 64) (by omega)
      have hC3 := b64Val_b64Char (b2 % 64) (by omega)
      have hne1 := b64Char_ne_61 (b0 % 4 * 16 + b1 / 16) (by omega)
      have hne2 := b64Char_ne_61 (b1 % 16 * 4 + b2 / 64) (by omega)
      have hne3 := b64Char_ne_61 (b2 % 64) (by omega)
      have hnev := (b64Val_isSome_ne v w hw).1
      have hroundtl := base64DecodeQuanta_encode tl hvtl
      rcases Nat.lt_or_ge p 4 with hp4 | hp4
      · rw [base64Encode]
        interval_cases p
        · rw [List.set_cons_zero,
            base64DecodeQuanta_cons _ _ _ _ _ _ _ _ _ hw hC1 hC2 hC3 hne2 hne3,
            hroundtl, Option.map_some']
          refine ⟨_, rfl, ?_, rfl, rfl⟩
          simp only [List.length_cons, htl]
          omega
        · rw [List.set_cons_succ, List.set_cons_zero,
            base64DecodeQuanta_cons _ _ _ _ _ _ _ _ _ hC0 hw hC2 hC3 hne2 hne3,
            hroundtl, Option.map_some']
          refine ⟨_, rfl, ?_, rfl, rfl⟩
          simp only [List.length_cons, htl]
          omega
        · rw [List.set_cons_succ, List.set_cons_succ, List.set_cons_zero,
            base64DecodeQuanta_cons _ _ _ _ _ _ _ _ _ hC0 hC1 hw hC3 hnev hne3,
            hroundtl, Option.map_some']
          refine ⟨_, rfl, ?_, rfl, rfl⟩
          simp only [List.length_cons, htl]
          omega
        · rw [List.set_cons_succ, List.set_cons_succ, List.set_cons_succ, List.set_cons_zero,
            base64DecodeQuanta_cons _ _ _ _ _ _ _ _ _ hC0 hC1 hC2 hw hne2 hnev,
            hroundtl, Option.map_some']
          refine ⟨_, rfl, ?_, rfl, rfl⟩
          simp only [List.length_cons, htl]
          omega
      · obtain ⟨q, rfl⟩ : ∃ q, p = q + 4 := ⟨p - 4, by omega⟩
        obtain ⟨ds', hdec', hlen', htake', hdrop'⟩ :=
          ih tl htl hvtl q v w (by omega) hw
        rw [base64Encode, List.set_cons_succ, List.set_cons_succ, List.set_cons_succ,
          List.set_cons_succ,
          base64DecodeQuanta_cons _ _ _ _ _ _ _ _ _ hC0 hC1 hC2 hC3 hne2 hne3,
          hdec', Option.map_some']
        refine ⟨_, rfl, ?_, ?_, ?_⟩
        · simp only [List.length_cons, hlen']
          omega
        · have hq : 3 * ((q + 4) / 4) = 3 * (q / 4) + 1 + 1 + 1 := by omega
          rw [hq]
          simp only [List.take_succ_cons, List.cons.injEq]
          exact ⟨by omega, by omega, by omega, htake'⟩
        · have hq : 3 * ((q + 4) / 4) + 3 = (3 * (q / 4) + 3) + 1 + 1 + 1 := by omega
          rw [hq]
          simp only [List.drop_succ_cons]
          exact hdrop'

/-- Replacing a non-final symbol by `=` either fails to decode or decodes to
a string one byte shorter than the original. -/
theorem base64_set_eq61 (k : Nat) : ∀ (bs : List Nat), bs.length = 3 * k + 2 →
    ValidBytes bs → ∀ p, p < 4 * k + 3 →
    base64DecodeQuanta ((base64Encode bs).set p 61) = none ∨
    ∃ ds, base64DecodeQuanta ((base64Encode bs).set p 61) = some ds ∧
      ds.length = 3 * k + 1 := by
  induction k with
  | zero =>
    intro bs hlen hv p hp
    rcases bs with _ | ⟨b0, _ | ⟨b1, _ | ⟨b2, tl⟩⟩⟩
    · simp at hlen
    · simp at hlen
    · have hb0 : b0 < 256 := hv b0 (by simp)
      have hb1 : b1 < 256 := hv b1 (by simp)
      have hC0 := b64Val_b64Char (b0 / 4) (by omega)
      have hC1 := b64Val_b64Char (b0 % 4 * 16 + b1 / 16) (by omega)
      rw [base64Encode]
      interval_cases p
      · rw [List.set_cons_zero]
        exact Or.inl (base64DecodeQuanta_c0_none _ _ _ _ _ b64Val_61)
      · rw [List.set_cons_succ, List.set_cons_zero]
        exact Or.inl (base64DecodeQuanta_c1_none _ _ _ _ _ b64Val_61)
      · rw [List.set_cons_succ, List.set_cons_succ, List.set_cons_zero]
        exact Or.inr ⟨_, base64DecodeQuanta_pad2 _ _ _ _ hC0 hC1, rfl⟩
    · simp at hlen
  | succ k ih =>
    intro bs hlen hv p hp
    rcases bs with _ | ⟨b0, _ | ⟨b1, _ | ⟨b2, tl⟩⟩⟩
    · simp at hlen
    · simp at hlen
    · simp at hlen
    · simp only [List.length_cons] at hlen
      have htl : tl.length = 3 * k + 2 := by omega
      have hvtl : ValidBytes tl := fun b hb => hv b (by simp [hb])
      have hb0 : b0 < 256 := hv b0 (by simp)
      have hb1 : b1 < 256 := hv b1 (by simp)
      have hb2 : b2 < 256 := hv b2 (by simp)
      have hC0 := b64Val_b64Char (b0 / 4) (by omega)
      have hC1 := b64Val_b64Char (b0 % 4 * 16 + b1 / 16) (by omega)
      have hC2 := b64Val_b64Char (b1 % 16 * 4 + b2 / 64) (by omega)
      have hC3 := b64Val_b64Char (b2 % 64) (by omega)
      have hne2 := b64Char_ne_61 (b1 % 16 * 4 + b2 / 64) (by omega)
      have hne3 := b64Char_ne_61 (b2 % 64) (by omega)
      have hencne : base64Encode tl ≠ [] := by
        have := base64Encode_length tl
        intro hc
        rw [hc] at this
        simp [htl] at this
        omega
      rcases Nat.lt_or_ge p 4 with hp4 | hp4
      · rw [base64Encode]
        interval_cases p
        · rw [List.set_cons_zero]
          exact Or.inl (base64DecodeQuanta_c0_none _ _ _ _ _ b64Val_61)
        · rw [List.set_cons_succ, List.set_cons_zero]
          exact Or.inl (base64DecodeQuanta_c1_none _ _ _ _ _ b64Val_61)
        · rw [List.set_cons_succ, List.set_cons_succ, List.set_cons_zero]
          exact Or.inl (base64DecodeQuanta_eq61_c2 _ _ _ _ (by
            rintro ⟨hc, -⟩
            exact hne3 hc))
        · rw [List.set_cons_succ, List.set_cons_succ, List.set_cons_succ, List.set_cons_zero]
          exact Or.inl (base64DecodeQuanta_eq61_c3 _ _ _ _ hne2 hencne)
      · obtain ⟨q, rfl⟩ : ∃ q, p = q + 4 := ⟨p - 4, by omega⟩
        rcases ih tl htl hvtl q (by omega) with hnone | ⟨ds', hdec', hlen'⟩
        · rw [base64Encode, List.set_cons_succ, List.set_cons_succ, List.set_cons_succ,
            List.set_cons_succ,
            base64DecodeQuanta_cons _ _ _ _ _ _ _ _ _ hC0 hC1 hC2 hC3 hne2 hne3,
            hnone]
          exact Or.inl rfl
        · rw [base64Encode, List.set_cons_succ, List.set_cons_succ, List.set_cons_succ,
            List.set_cons_succ,
            base64DecodeQuanta_cons _ _ _ _ _ _ _ _ _ hC0 hC1 hC2 hC3 hne2 hne3,
            hdec', Option.map_some']
          refine Or.inr ⟨_, rfl, ?_⟩
          simp only [List.length_cons, hlen']
          omega

/-- Replacing the final `=` by an alphabet symbol decodes to a string one
byte longer than the original. -/
theorem base64_set_last_valid (k : Nat) : ∀ (bs : List Nat), bs.length = 3 * k + 2 →
    ValidBytes bs → ∀ v w, b64Val v = some w →
    ∃ ds, base64DecodeQuanta ((base64Encode bs).set (4 * k + 3) v) = some ds ∧
      ds.length = 3 * k + 3 := by
  induction k with
  | zero =>
    intro bs hlen hv v w hw
    rcases bs with _ | ⟨b0, _ | ⟨b1, _ | ⟨b2, tl⟩⟩⟩
    · simp at hlen
    · simp at hlen
    · have hb0 : b0 < 256 := hv b0 (by simp)
      have hb1 : b1 < 256 := hv b1 (by simp)
      have hC0 := b64Val_b64Char (b0 / 4) (by omega)
      have hC1 := b64Val_b64Char (b0 % 4 * 16 + b1 / 16) (by omega)
      have hC2 := b64Val_b64Char (b1 % 16 * 4) (by omega)
      have hne1 := b64Char_ne_61 (b0 % 4 * 16 + b1 / 16) (by omega)
      have hne2 := b64Char_ne_61 (b1 % 16 * 4) (by omega)
      have hnev := (b64Val_isSome_ne v w hw).1
      rw [base64Encode]
      rw [show (4 * 0 + 3 : Nat) = 3 from rfl, List.set_cons_succ, List.set_cons_succ,
        List.set_cons_succ, List.set_cons_zero,
        base64DecodeQuanta_cons _ _ _ _ _ _ _ _ _ hC0 hC1 hC2 hw hne2 hnev]
      exact ⟨_, rfl, rfl⟩
    · simp at hlen
  | succ k ih =>
    intro bs hlen hv v w hw
    rcases bs with _ | ⟨b0, _ | ⟨b1, _ | ⟨b2, tl⟩⟩⟩
    · simp at hlen
    · simp at hlen
    · simp at hlen
    · simp only [List.length_cons] at hlen
      have htl : tl.length = 3 * k + 2 := by omega
      have hvtl : ValidBytes tl := fun b hb => hv b (by simp [hb])
      have hb0 : b0 < 256 := hv b0 (by simp)
      have hb1 : b1 < 256 := hv b1 (by simp)
      have hb2 : b2 < 256 := hv b2 (by simp)
      have hC0 := b64Val_b64Char (b0 / 4) (by omega)
      have hC1 := b64Val_b64Char (b0 % 4 * 16 + b1 / 16) (by omega)
      have hC2 := b64Val_b64Char (b1 % 16 * 4 + b2 / 64) (by omega)
      have hC3 := b64Val_b64Char (b2 % 64) (by omega)
      have hne2 := b64Char_ne_61 (b1 % 16 * 4 + b2 / 64) (by omega)
      have hne3 := b64Char_ne_61 (b2 % 64) (by omega)
      obtain ⟨ds', hdec', hlen'⟩ := ih tl htl hvtl v w hw
      rw [base64Encode,
        show 4 * (k + 1) + 3 = (4 * k + 3) + 1 + 1 + 1 + 1 from by omega,
        List.set_cons_succ, List.set_cons_succ, List.set_cons_succ, List.set_cons_succ,
        base64DecodeQuanta_cons _ _ _ _ _ _ _ _ _ hC0 hC1 hC2 hC3 hne2 hne3,
        hdec', Option.map_some']
      refine ⟨_, rfl, ?_⟩
      simp only [List.length_cons, hlen']
      omega

/-- Every way a single-byte alteration of a base64 encoding can decode:
it errors, or it decodes to the wrong length, or it decodes to the right
length agreeing with the original outside the altered quantum's window. -/
theorem base64Decode_set_cases (k : Nat) (bs : List Nat) (hlen : bs.length = 3 * k + 2)
    (hv : ValidBytes bs) (p u : Nat) (hp : p < 4 * k + 4) :
    base64Decode ((base64Encode bs).set p u) = none ∨
    (∃ ds, base64Decode ((base64Encode bs).set p u) = some ds ∧ ds.length ≠ 3 * k + 2) ∨
    (∃ ds, base64Decode ((base64Encode bs).set p u) = some ds ∧ ds.length = 3 * k + 2 ∧
      ds.take (3 * (p / 4)) = bs.take (3 * (p / 4)) ∧
      ds.drop (3 * (p / 4) + 3) = bs.drop (3 * (p / 4) + 3)) := by
  have hencmem : ∀ c ∈ base64Encode bs, (c != 13 && c != 10) = true :=
    List.filter_eq_self.mp (base64Encode_no_newline bs hv)
  have henclen : (base64Encode bs).length = 4 * k + 4 := by
    rw [base64Encode_length, hlen]
    omega
  by_cases hnl : u = 13 ∨ u = 10
  · -- the altered byte is CR/LF: it is skipped, leaving 4k+3 symbols
    left
    rw [base64Decode]
    have hrep : (base64Encode bs).set p u =
        (base64Encode bs).take p ++ u :: (base64Encode bs).drop (p + 1) := by
      rw [List.set_eq_take_append_cons_drop, if_pos (by omega)]
    have hfu : (u != 13 && u != 10) = false := by
      rcases hnl with rfl | rfl <;> rfl
    have hfilter : ((base64Encode bs).set p u).filter (fun c => c != 13 && c != 10) =
        (base64Encode bs).take p ++ (base64Encode bs).drop (p + 1) := by
      rw [hrep, List.filter_append]
      have h1 : ((base64Encode bs).take p).filter (fun c => c != 13 && c != 10) =
          (base64Encode bs).take p :=
        List.filter_eq_self.mpr (fun c hc => hencmem c (List.mem_of_mem_take hc))
      have h2 : (u :: (base64Encode bs).drop (p + 1)).filter (fun c => c != 13 && c != 10) =
          (base64Encode bs).drop (p + 1) := by
        rw [List.filter_cons]
        rw [if_neg (by simp [hfu])]
        exact List.filter_eq_self.mpr (fun c hc => hencmem c (List.mem_of_mem_drop hc))
      rw [h1, h2]
    rw [hfilter]
    apply base64DecodeQuanta_len_mod
    rw [List.length_append, List.length_take, List.length_drop, henclen]
    omega
  · push_neg at hnl
    have hfilter : ((base64Encode bs).set p u).filter (fun c => c != 13 && c != 10) =
        (base64Encode bs).set p u := by
      apply List.filter_eq_self.mpr
      intro c hc
      rcases List.mem_or_eq_of_mem_set hc with hc | rfl
      · exact hencmem c hc
      · simp [hnl.1, hnl.2]
    rw [base64Decode, hfilter]
    rcases hval : b64Val u with _ | w
    · by_cases h61 : u = 61
      · subst h61
        by_cases hlast : p = 4 * k + 3
        · subst hlast
          rw [base64Encode_set_last k bs hlen, base64DecodeQuanta_encode bs hv]
          exact Or.inr (Or.inr ⟨bs, rfl, hlen, rfl, rfl⟩)
        · rcases base64_set_eq61 k bs hlen hv p (by omega) with hnone | ⟨ds, hds, hdslen⟩
          · exact Or.inl hnone
          · exact Or.inr (Or.inl ⟨ds, hds, by omega⟩)
      · left
        exact base64DecodeQuanta_bad_char _ u
          (mem_set_self _ _ _ (by omega)) hval h61
    · by_cases hlast : p = 4 * k + 3
      · subst hlast
        obtain ⟨ds, hds, hdslen⟩ := base64_set_last_valid k bs hlen hv u w hval
        exact Or.inr (Or.inl ⟨ds, hds, by omega⟩)
      · obtain ⟨ds, hds, h1, h2, h3⟩ := base64_set_valid k bs hlen hv p u w (by omega) hval
        exact Or.inr (Or.inr ⟨ds, hds, h1, h2, h3⟩)

/-! ### Tamper-analysis lemmas for the hex codec -/

theorem hexDecode_cons (c0 c1 : Nat) (rest : List Nat) (hi lo : Nat)
    (h0 : hexVal c0 = some hi) (h1 : hexVal c1 = some lo) :
    hexDecode (c0 :: c1 :: rest) = (hexDecode rest).map (fun ds => (hi * 16 + lo) :: ds) := by
  rw [hexDecode, h0, h1]
  rcases hexDecode rest with _ | ds <;> simp

/-- Decoded hex output consists of bytes. -/
theorem hexDecode_validBytes (t ds : List Nat) (h : hexDecode t = some ds) :
    ValidBytes ds := by
  induction t using hexDecode.induct generalizing ds with
  | case1 =>
    simp only [hexDecode, Option.some.injEq] at h
    intro b hb
    simp [← h] at hb
  | case2 c0 c1 rest v0 v1 h1 h0 ds0 hds0 ih =>
    have hv0 : v0 < 16 := hexVal_lt _ _ h0
    have hv1 : v1 < 16 := hexVal_lt _ _ h1
    rw [hexDecode_cons _ _ _ _ _ h0 h1, hds0, Option.map_some'] at h
    simp only [Option.some.injEq] at h
    subst h
    intro b hb
    simp only [List.mem_cons] at hb
    rcases hb with rfl | hb
    · omega
    · exact ih ds0 hds0 b hb
  | case3 c0 c1 rest v0 v1 h1 h0 hds0 ih =>
    rw [hexDecode_cons _ _ _ _ _ h0 h1, hds0] at h
    simp at h
  | case4 c0 c1 rest hfail =>
    rw [hexDecode] at h
    rcases hb0 : hexVal c0 with _ | v0 <;> rcases hb1 : hexVal c1 with _ | v1 <;>
      rw [hb0, hb1] at h <;> simp at h
    exact absurd (hfail v0 v1 hb0 hb1) not_false
  | case5 t hnil hbig =>
    rcases t with _ | ⟨a, _ | ⟨b, rest⟩⟩
    · exact absurd rfl hnil
    · simp [hexDecode] at h
    · exact absurd rfl (hbig a b rest)

/-- A non-hex byte anywhere poisons the whole hex decode. -/
theorem hexDecode_bad_char (t : List Nat) (c : Nat) (hc : c ∈ t)
    (hval : hexVal c = none) : hexDecode t = none := by
  induction t using hexDecode.induct with
  | case1 => simp at hc
  | case2 c0 c1 rest v0 v1 h1 h0 ds0 hds0 ih =>
    simp only [List.mem_cons] at hc
    rcases hc with rfl | rfl | hcr
    · rw [h0] at hval; exact absurd hval (by simp)
    · rw [h1] at hval; exact absurd hval (by simp)
    · rw [ih hcr] at hds0; exact absurd hds0 (by simp)
  | case3 c0 c1 rest v0 v1 h1 h0 hds0 ih =>
    rw [hexDecode_cons _ _ _ _ _ h0 h1, hds0]
    rfl
  | case4 c0 c1 rest hfail =>
    rw [hexDecode]
    rcases hb0 : hexVal c0 with _ | v0 <;> rcases hb1 : hexVal c1 with _ | v1 <;> simp
    exact absurd (hfail v0 v1 hb0 hb1) not_false
  | case5 t hnil hbig =>
    rcases t with _ | ⟨a, _ | ⟨b, rest⟩⟩
    · exact absurd rfl hnil
    · rfl
    · exact absurd rfl (hbig a b rest)

/-- Replacing one symbol of a hex encoding by another hex digit still
decodes, to a string of the same length agreeing with the original outside
the altered byte. -/
theorem hex_set_valid : ∀ (bs : List Nat), ValidBytes bs → ∀ j u w, j < 2 * bs.length →
    hexVal u = some w →
    ∃ ds, hexDecode ((hexEncode bs).set j u) = some ds ∧
      ds.length = bs.length ∧
      ds.take (j / 2) = bs.take (j / 2) ∧
      ds.drop (j / 2 + 1) = bs.drop (j / 2 + 1) := by
  intro bs
  induction bs with
  | nil =>
    intro _ j u w hj _
    simp at hj
  | cons b tl ih =>
    intro hv j u w hj hw
    have hb : b < 256 := hv b (by simp)
    have htlv : ValidBytes tl := fun x hx => hv x (by simp [hx])
    have hH := hexVal_hexChar (b / 16) (by omega)
    have hL := hexVal_hexChar (b % 16) (by omega)
    have hround := hexDecode_encode tl htlv
    rcases Nat.lt_or_ge j 2 with hj2 | hj2
    · interval_cases j
      · rw [hexEncode, List.set_cons_zero, hexDecode_cons _ _ _ _ _ hw hL,
          hround, Option.map_some']
        exact ⟨_, rfl, by simp, rfl, rfl⟩
      · rw [hexEncode, List.set_cons_succ, List.set_cons_zero,
          hexDecode_cons _ _ _ _ _ hH hw, hround, Option.map_some']
        exact ⟨_, rfl, by simp, rfl, rfl⟩
    · obtain ⟨j', rfl⟩ : ∃ j', j = j' + 2 := ⟨j - 2, by omega⟩
      obtain ⟨ds', hdec', hlen', htake', hdrop'⟩ :=
        ih htlv j' u w (by simp at hj; omega) hw
      rw [hexEncode, List.set_cons_succ, List.set_cons_succ,
        hexDecode_cons _ _ _ _ _ hH hL, hdec', Option.map_some']
      refine ⟨_, rfl, by simp [hlen'], ?_, ?_⟩
      · have hq : (j' + 2) / 2 = j' / 2 + 1 := by omega
        rw [hq]
        simp only [List.take_succ_cons, List.cons.injEq]
        exact ⟨by omega, htake'⟩
      · have hq : (j' + 2) / 2 + 1 = (j' / 2 + 1) + 1 := by omega
        rw [hq]
        simp only [List.drop_succ_cons]
        exact hdrop'

theorem take_eq_of_take_eq (m n : Nat) (l1 l2 : List Nat) (hmn : m ≤ n)
    (h : l1.take n = l2.take n) : l1.take m = l2.take m := by
  have h2 := congrArg (List.take m) h
  rwa [List.take_take, List.take_take, inf_eq_min, min_eq_left hmn] at h2

theorem drop_eq_of_drop_eq (m n : Nat) (l1 l2 : List Nat) (hmn : n ≤ m)
    (h : l1.drop n = l2.drop n) : l1.drop m = l2.drop m := by
  have h2 := congrArg (List.drop (m - n)) h
  rwa [List.drop_drop, List.drop_drop, Nat.add_sub_cancel' hmn] at h2

/-- How `decodeToken` behaves on any single-byte alteration of a valid
token, assuming the MAC has no 16-byte second preimage agreeing with
`mac key ident` on its first 15 bytes: it errors, or it returns the
original identifier. -/
theorem decodeToken_set (mac : MacFun) (key ident : List Nat)
    (hmac : MacProps mac)
    (hidlen : ident.length = 16) (hidv : ValidBytes ident)
    (H1 : ∀ m, m.length = 16 → ValidBytes m →
      (mac key m).take 15 = (mac key ident).take 15 → m = ident)
    (p u : Nat) (hp : p < 44) :
    (∃ e, decodeToken mac ((encodeToken mac key ident).set p u) key = .error e) ∨
    decodeToken mac ((encodeToken mac key ident).set p u) key = .ok ident := by
  have hm := hmac key ident hidv
  have hbslen : (mac key ident ++ ident).length = 3 * 10 + 2 := by
    simp [List.length_append, hm.1, hidlen]
  have hbsv : ValidBytes (mac key ident ++ ident) := by
    intro b hb
    rcases List.mem_append.mp hb with hb | hb
    · exact hm.2 b hb
    · exact hidv b hb
  have henc : encodeToken mac key ident = base64Encode (mac key ident ++ ident) := rfl
  set bs := mac key ident ++ ident with hbs
  have hbstake : bs.take 16 = mac key ident := by
    rw [hbs, show (16 : Nat) = (mac key ident).length from hm.1.symm, List.take_left]
  have hbsdrop : bs.drop 16 = ident := by
    rw [hbs, show (16 : Nat) = (mac key ident).length from hm.1.symm, List.drop_left]
  rw [henc]
  rcases base64Decode_set_cases 10 bs hbslen hbsv p u (by omega) with
    hnone | ⟨ds, hds, hnel⟩ | ⟨ds, hds, hdl, htake, hdrop⟩
  · left
    exact ⟨.invalidEncoding, by simp [decodeToken, hnone]⟩
  · left
    have hne32 : ds.length ≠ 32 := by omega
    exact ⟨.invalidLength ds.length, by simp [decodeToken, hds, hne32]⟩
  · have hdl32 : ds.length = 32 := by omega
    by_cases hidm : ds.drop 16 = ident
    · rcases hvb : validHMAC mac (ds.drop 16) (ds.take 16) key with _ | _
      · left
        exact ⟨.hmacFailed, by simp [decodeToken, hds, hdl32, hvb]⟩
      · right
        have hvb2 : validHMAC mac ident (ds.take 16) key = true := by
          rw [← hidm]
          exact hvb
        simp [decodeToken, hds, hdl32, hvb2, hidm]
    · -- the identifier bytes changed, so the altered quantum lies beyond
      -- byte 15 and the MAC check cannot pass
      have hp20 : 20 ≤ p := by
        by_contra hlt
        push_neg at hlt
        apply hidm
        have h16 : ds.drop 16 = bs.drop 16 :=
          drop_eq_of_drop_eq 16 (3 * (p / 4) + 3) ds bs (by omega) hdrop
        rw [h16, hbsdrop]
      have htake15 : ds.take 15 = bs.take 15 :=
        take_eq_of_take_eq 15 (3 * (p / 4)) ds bs (by omega) htake
      have hvb : validHMAC mac (ds.drop 16) (ds.take 16) key = false := by
        by_contra hcb
        have hvt : validHMAC mac (ds.drop 16) (ds.take 16) key = true :=
          eq_true_of_ne_false hcb
        have heq : ds.take 16 = mac key (ds.drop 16) := (validHMAC_iff _ _ _ _).mp hvt
        have hlends : (ds.drop 16).length = 16 := by
          rw [List.length_drop, hdl32]
        have hdsv : ValidBytes ds := base64Decode_validBytes _ _ hds
        have hdropv : ValidBytes (ds.drop 16) := fun b hb => hdsv b (List.mem_of_mem_drop hb)
        have ht15 : (mac key (ds.drop 16)).take 15 = (mac key ident).take 15 := by
          have e1 : (mac key (ds.drop 16)).take 15 = ds.take 15 := by
            rw [← heq, List.take_take, inf_eq_min, min_eq_left (by omega)]
          have e2 : bs.take 15 = (mac key ident).take 15 := by
            rw [← hbstake, List.take_take, inf_eq_min, min_eq_left (by omega)]
          rw [e1, htake15, e2]
        exact hidm (H1 (ds.drop 16) hlends hdropv ht15)
      left
      exact ⟨.hmacFailed, by simp [decodeToken, hds, hdl32, hvb]⟩

/-- Evaluation of `decodeETag` on a correctly quoted 96-symbol body. -/
theorem decodeETag_quoted_body (mac : MacFun) (key hx : List Nat) (hlen : hx.length = 96) :
    decodeETag mac (34 :: (hx ++ [34])) key =
      match hexDecode hx with
      | none => .error .invalidEncoding
      | some decoded =>
        if validHMAC mac (decoded.drop 16) (decoded.take 16) key then
          .ok ((decoded.drop 16).take 16, decoded.drop 32)
        else .error .hmacFailed := by
  have hetaglen : ((34 : Nat) :: (hx ++ [34])).length = 98 := by
    simp [hlen]
  rw [decodeETag, if_pos]
  · have hstrip : (((34 : Nat) :: (hx ++ [34])).drop 1).take ((34 :: (hx ++ [34])).length - 2)
        = hx := by
      rw [hetaglen]
      simp only [List.drop_succ_cons, List.drop_zero]
      rw [show (98 : Nat) - 2 = hx.length from by rw [hlen], List.take_left]
    simp only [hstrip, hlen]
    rw [if_neg (by omega)]
  · refine ⟨by omega, rfl, ?_⟩
    rw [hetaglen]
    show ((34 : Nat) :: (hx ++ [34])).drop 97 = [34]
    have hsplit : (34 : Nat) :: (hx ++ [34]) = (34 :: hx) ++ [34] := by simp
    rw [hsplit]
    have hlen' : ((34 : Nat) :: hx).length = 97 := by simp [hlen]
    rw [show (97 : Nat) = ((34 : Nat) :: hx).length from hlen'.symm, List.drop_left]

/-- How `decodeETag` behaves on any single-byte alteration of a valid ETag,
assuming the MAC has no 32-byte second preimage of `mac key (ident ++ jsHash)`:
it errors, or it returns the original identity and hash. -/
theorem decodeETag_set (mac : MacFun) (key ident jsHash : List Nat)
    (hmac : MacProps mac)
    (hidlen : ident.length = 16) (hidv : ValidBytes ident)
    (hjslen : jsHash.length = 16) (hjsv : ValidBytes jsHash)
    (H2 : ∀ m, m.length = 32 → ValidBytes m →
      mac key m = mac key (ident ++ jsHash) → m = ident ++ jsHash)
    (p u : Nat) (hp : p < 98) :
    (∃ e, decodeETag mac ((encodeETag mac key ident jsHash).set p u) key = .error e) ∨
    decodeETag mac ((encodeETag mac key ident jsHash).set p u) key = .ok (ident, jsHash) := by
  have hcat : ValidBytes (ident ++ jsHash) := by
    intro b hb
    rcases List.mem_append.mp hb with hb | hb
    · exact hidv b hb
    · exact hjsv b hb
  have hm := hmac key (ident ++ jsHash) hcat
  set t2 := mac key (ident ++ jsHash) with ht2
  have hds0len : (t2 ++ ident ++ jsHash).length = 48 := by
    simp [List.length_append, hm.1, hidlen, hjslen]
  have hds0v : ValidBytes (t2 ++ ident ++ jsHash) := by
    intro b hb
    rcases List.mem_append.mp hb with hb | hb
    · rcases List.mem_append.mp hb with hb | hb
      · exact hm.2 b hb
      · exact hidv b hb
    · exact hjsv b hb
  set ds0 := t2 ++ ident ++ jsHash with hds0
  have hds0take : ds0.take 16 = t2 := by
    rw [hds0, List.append_assoc, show (16 : Nat) = t2.length from hm.1.symm, List.take_left]
  have hds0drop : ds0.drop 16 = ident ++ jsHash := by
    rw [hds0, List.append_assoc, show (16 : Nat) = t2.length from hm.1.symm, List.drop_left]
  set hx := hexEncode ds0 with hhx
  have hhxlen : hx.length = 96 := by
    rw [hhx, hexEncode_length, hds0len]
  have henc : encodeETag mac key ident jsHash = 34 :: (hx ++ [34]) := rfl
  have hround : decodeETag mac (encodeETag mac key ident jsHash) key = .ok (ident, jsHash) :=
    decodeETag_encodeETag mac key ident jsHash hmac hidlen hidv hjslen hjsv
  rw [henc]
  rcases Nat.eq_zero_or_pos p with rfl | hppos
  · -- altering the opening quote
    rw [List.set_cons_zero]
    by_cases hu : u = 34
    · subst hu
      right
      rw [← henc]
      exact hround
    · left
      refine ⟨.notQuoted, ?_⟩
      rw [decodeETag, if_neg]
      rintro ⟨-, htk, -⟩
      simp only [List.take_succ_cons, List.take_zero] at htk
      exact hu (by injection htk)
  · by_cases hlast : p = 97
    · -- altering the closing quote
      subst hlast
      rw [show (97 : Nat) = 96 + 1 from rfl, List.set_cons_succ, List.set_append,
        if_neg (by omega)]
      rw [show (96 : Nat) - hx.length = 0 from by omega, List.set_cons_zero]
      by_cases hu : u = 34
      · subst hu
        right
        rw [← henc]
        exact hround
      · left
        refine ⟨.notQuoted, ?_⟩
        rw [decodeETag, if_neg]
        rintro ⟨-, -, hdk⟩
        have hlen98 : ((34 : Nat) :: (hx ++ [u])).length = 98 := by simp [hhxlen]
        rw [hlen98] at hdk
        have hsplit : (34 : Nat) :: (hx ++ [u]) = (34 :: hx) ++ [u] := by simp
        rw [hsplit, show (98 : Nat) - 1 = ((34 : Nat) :: hx).length from by simp [hhxlen],
          List.drop_left] at hdk
        exact hu (by injection hdk)
    · -- altering a body symbol
      obtain ⟨j, rfl⟩ : ∃ j, p = j + 1 := ⟨p - 1, by omega⟩
      have hj96 : j < 96 := by omega
      rw [List.set_cons_succ, List.set_append, if_pos (by omega)]
      have hsetlen : (hx.set j u).length = 96 := by simp [hhxlen]
      rw [decodeETag_quoted_body mac key _ hsetlen]
      rcases hval : hexVal u with _ | w
      · left
        refine ⟨.invalidEncoding, ?_⟩
        rw [hexDecode_bad_char _ u (mem_set_self _ _ _ (by omega)) hval]
      · obtain ⟨ds, hds, hdlen, htake, hdrop⟩ :=
          hex_set_valid ds0 hds0v j u w (by omega) hval
        rw [← hhx] at hds
        rw [hds]
        have hdlen48 : ds.length = 48 := by rw [hdlen, hds0len]
        by_cases hmm : ds.drop 16 = ident ++ jsHash
        · rcases hvb : validHMAC mac (ds.drop 16) (ds.take 16) key with _ | _
          · left
            exact ⟨.hmacFailed, by simp [hvb]⟩
          · right
            simp only [hvb, if_true]
            rw [hmm, show (16 : Nat) = ident.length from hidlen.symm, List.take_left]
            have hd32 : ds.drop 32 = jsHash := by
              have hdd : (ds.drop 16).drop 16 = ds.drop 32 := by
                rw [List.drop_drop]
              rw [← hdd, hmm, show (16 : Nat) = ident.length from hidlen.symm, List.drop_left]
            rw [hd32]
        · have hj16 : 16 ≤ j / 2 := by
            by_contra hlt
            push_neg at hlt
            apply hmm
            have h16 : ds.drop 16 = ds0.drop 16 :=
              drop_eq_of_drop_eq 16 (j / 2 + 1) ds ds0 (by omega) hdrop
            rw [h16, hds0drop]
          have htk16 : ds.take 16 = t2 := by
            have h16 : ds.take 16 = ds0.take 16 :=
              take_eq_of_take_eq 16 (j / 2) ds ds0 (by omega) htake
            rw [h16, hds0take]
          have hvb : validHMAC mac (ds.drop 16) (ds.take 16) key = false := by
            by_contra hcb
            have hvt := eq_true_of_ne_false hcb
            have heq : ds.take 16 = mac key (ds.drop 16) := (validHMAC_iff _ _ _ _).mp hvt
            have hlends : (ds.drop 16).length = 32 := by
              rw [List.length_drop, hdlen48]
            have hdsv : ValidBytes ds := hexDecode_validBytes _ _ hds
            have hdropv : ValidBytes (ds.drop 16) := fun b hb => hdsv b (List.mem_of_mem_drop hb)
            apply hmm
            apply H2 (ds.drop 16) hlends hdropv
            rw [← heq, htk16, ht2]
          left
          exact ⟨.hmacFailed, by simp [hvb]⟩

/-- C2 counterexample: the token codec's base64 decoder is Go's default
(non-strict) one, which ignores the two unused trailing bits of the final
symbol.  Altering byte 42 of this token from `A` (65) to `B` (66) yields a
*different* string that decodes *successfully* to the original identifier —
not an authentication error. -/
theorem c2_counterexample :
    (encodeToken macZero [] (List.replicate 16 0))[42]? = some 65 ∧
    (66 : Nat) ≠ 65 ∧
    decodeToken macZero ((encodeToken macZero [] (List.replicate 16 0)).set 42 66) []
      = .ok (List.replicate 16 0) := by
  refine ⟨by decide, by decide, ?_⟩
  rfl

/-- C2 (amended): for every key, identifier (and hash), and single-byte
alteration of the token (resp. ETag), decoding with the same key either
returns an error or returns the original identity — never a different one,
and never a panic (decoding is total).  The hypotheses `H1`/`H2` express
that the MAC admits no second preimage for the encoded tag (for the token,
agreement on the tag's first 15 bytes already pins the message, because the
final base64 symbol lets an altered tag byte 15 coexist with an unaltered
identifier).  Alterations confined to the unused bits of the final base64
symbol (or the letter case of a hex digit) decode successfully to the
original identity, so "always an authentication error" is false. -/
theorem c2_tamper_amended (mac : MacFun) (key ident jsHash : List Nat)
    (hmac : MacProps mac)
    (hidlen : ident.length = 16) (hidv : ValidBytes ident)
    (hjslen : jsHash.length = 16) (hjsv : ValidBytes jsHash)
    (H1 : ∀ m, m.length = 16 → ValidBytes m →
      (mac key m).take 15 = (mac key ident).take 15 → m = ident)
    (H2 : ∀ m, m.length = 32 → ValidBytes m →
      mac key m = mac key (ident ++ jsHash) → m = ident ++ jsHash)
    (p u : Nat) (hp : p < (encodeToken mac key ident).length)
    (q r : Nat) (hq : q < (encodeETag mac key ident jsHash).length) :
    ((∃ e, decodeToken mac ((encodeToken mac key ident).set p u) key = .error e) ∨
      decodeToken mac ((encodeToken mac key ident).set p u) key = .ok ident) ∧
    ((∃ e, decodeETag mac ((encodeETag mac key ident jsHash).set q r) key = .error e) ∨
      decodeETag mac ((encodeETag mac key ident jsHash).set q r) key = .ok (ident, jsHash)) := by
  have hm := hmac key ident hidv
  have hcat : ValidBytes (ident ++ jsHash) := by
    intro b hb
    rcases List.mem_append.mp hb with hb | hb
    · exact hidv b hb
    · exact hjsv b hb
  have hm2 := hmac key (ident ++ jsHash) hcat
  have htlen : (encodeToken mac key ident).length = 44 := by
    rw [encodeToken, base64Encode_length]
    simp [List.length_append, hm.1, hidlen]
  have helen : (encodeETag mac key ident jsHash).length = 98 := by
    rw [encodeETag]
    simp only [List.length_cons, List.length_append, hexEncode_length,
      List.length_singleton, hm2.1, hidlen, hjslen]
    simp [List.length_append, hm2.1, hidlen, hjslen]
  constructor
  · exact decodeToken_set mac key ident hmac hidlen hidv H1 p u (by omega)
  · exact decodeETag_set mac key ident jsHash hmac hidlen hidv hjslen hjsv H2 q r (by omega)

/-- A concrete MAC used by the C2 witness: it separates the witness
identifier, the witness ETag message, and everything else. -/
def macW : MacFun := fun _ m =>
  if m = List.replicate 16 3 then List.replicate 16 0
  else if m = List.replicate 16 3 ++ List.replicate 16 5 then List.replicate 16 2
  else List.replicate 16 1

theorem macW_props : MacProps macW := by
  intro key msg _
  rw [macW]
  split
  · constructor
    · simp
    · intro b hb
      simp only [List.mem_replicate] at hb
      omega
  · split
    · constructor
      · simp
      · intro b hb
        simp only [List.mem_replicate] at hb
        omega
    · constructor
      · simp
      · intro b hb
        simp only [List.mem_replicate] at hb
        omega

theorem macW_H1 : ∀ m : List Nat, m.length = 16 → ValidBytes m →
    (macW [] m).take 15 = (macW [] (List.replicate 16 3)).take 15 →
    m = List.replicate 16 3 := by
  intro m hlen _ htk
  by_cases hm : m = List.replicate 16 3
  · exact hm
  · exfalso
    have hm2 : m ≠ List.replicate 16 3 ++ List.replicate 16 5 := by
      intro hc
      rw [hc] at hlen
      simp at hlen
    rw [macW] at htk
    simp only [if_neg hm, if_neg hm2] at htk
    rw [macW] at htk
    simp only [if_pos rfl] at htk
    exact absurd htk (by decide)

theorem macW_H2 : ∀ m : List Nat, m.length = 32 → ValidBytes m →
    macW [] m = macW [] (List.replicate 16 3 ++ List.replicate 16 5) →
    m = List.replicate 16 3 ++ List.replicate 16 5 := by
  intro m hlen _ heq
  by_cases hm : m = List.replicate 16 3 ++ List.replicate 16 5
  · exact hm
  · exfalso
    have hm1 : m ≠ List.replicate 16 3 := by
      intro hc
      rw [hc] at hlen
      simp at hlen
    rw [macW] at heq
    simp only [if_neg hm1, if_neg hm] at heq
    rw [macW] at heq
    simp only [if_neg (by decide : ¬(List.replicate 16 3 ++ List.replicate 16 5
      = List.replicate 16 3)), if_pos rfl] at heq
    exact absurd heq (by decide)

/-- Witness for the amended C2 at a concrete MAC, key, identity, hash and
alteration positions. -/
theorem c2_witness :
    5 < (encodeToken macW [] (List.replicate 16 3)).length ∧
    (((∃ e, decodeToken macW ((encodeToken macW [] (List.replicate 16 3)).set 5 66) []
        = .error e) ∨
      decodeToken macW ((encodeToken macW [] (List.replicate 16 3)).set 5 66) []
        = .ok (List.replicate 16 3)) ∧
    ((∃ e, decodeETag macW
        ((encodeETag macW [] (List.replicate 16 3) (List.replicate 16 5)).set 7 55) []
        = .error e) ∨
      decodeETag macW
        ((encodeETag macW [] (List.replicate 16 3) (List.replicate 16 5)).set 7 55) []
        = .ok (List.replicate 16 3, List.replicate 16 5))) :=
  ⟨by decide,
    c2_tamper_amended macW [] (List.replicate 16 3) (List.replicate 16 5)
      macW_props (by simp) (by decide) (by simp) (by decide)
      macW_H1 macW_H2 5 66 (by decide) 7 55 (by decide)⟩

/-! ### The identity engine (`sheepcount.go`, `fingerprintRequest`) -/

/-- `blake2b.Size256` — the digest size `fingerprintRequest` requests. -/
def blake2bSize256 : Nat := 32

/-- An HTTP request as `fingerprintRequest` reads it: `r.RemoteAddr` and
`r.Header.Get`, both returning byte strings. -/
structure Request where
  remoteAddr : List Nat
  headerGet : String → List Nat

/-- `fingerprintRequest` (default path, no override hook): two keyed hashers
(`blake2b.New(blake2b.Size256, salt)`), fed the remote address and then each
configured header value in order; both digests are returned.  The hash is
abstract (`hash : key → message → digest`); the streamed writes are modelled
by accumulating the written bytes. -/
def fingerprintRequest (hash : MacFun) (saltCurrent saltPrevious : List Nat)
    (headersToHash : List String) (r : Request) : List Nat × List Nat :=
  let msg := headersToHash.foldl (fun acc h => acc ++ r.headerGet h) r.remoteAddr
  (hash saltCurrent msg, hash saltPrevious msg)

/-- `DefaultConfig().HeadersToHash`. -/
def defaultHeadersToHash : List String := ["User-Agent", "Accept-Encoding", "Accept-Language"]

theorem foldl_append_eq_join (get : String → List Nat) (hs : List String) :
    ∀ init : List Nat, hs.foldl (fun acc h => acc ++ get h) init = init ++ (hs.map get).join := by
  induction hs with
  | nil => intro init; simp
  | cons h t ih =>
    intro init
    simp only [List.foldl_cons, List.map_cons, List.join, ih]
    simp [List.append_assoc]

/-- A 32-byte digest function standing for BLAKE2b-256 in the C6 witness
and counterexample. -/
def hash32 : MacFun := fun _ _ => List.replicate 32 0

theorem hash32_len : ∀ k m : List Nat, (hash32 k m).length = blake2bSize256 := by
  intro k m
  simp [hash32, blake2bSize256]

/-- C6 counterexample: the default fingerprint function requests
`blake2b.Size256` digests, so each returned value is 256 bits (32 bytes),
not 128 bits (16 bytes) as claimed. -/
theorem c6_counterexample :
    (∀ k m : List Nat, (hash32 k m).length = blake2bSize256) ∧
    (fingerprintRequest hash32 [] [] defaultHeadersToHash ⟨[], fun _ => []⟩).1.length ≠ 16 := by
  exact ⟨hash32_len, by decide⟩

/-- C6 (amended): for every request, the default fingerprint function
returns two 256-bit (32-byte) values, each the keyed MAC — keyed by the
current resp. previous salt — of the byte string `remoteAddr` followed by
the configured header values concatenated in their declared order with no
delimiters; the default header list is
User-Agent, Accept-Encoding, Accept-Language. -/
theorem c6_fingerprint_amended (hash : MacFun)
    (hlen : ∀ k m : List Nat, (hash k m).length = blake2bSize256)
    (saltCurrent saltPrevious : List Nat) (headers : List String) (r : Request) :
    fingerprintRequest hash saltCurrent saltPrevious headers r =
      (hash saltCurrent (r.remoteAddr ++ (headers.map r.headerGet).join),
       hash saltPrevious (r.remoteAddr ++ (headers.map r.headerGet).join)) ∧
    (fingerprintRequest hash saltCurrent saltPrevious headers r).1.length = 32 ∧
    (fingerprintRequest hash saltCurrent saltPrevious headers r).2.length = 32 ∧
    defaultHeadersToHash = ["User-Agent", "Accept-Encoding", "Accept-Language"] := by
  refine ⟨?_, ?_, ?_, rfl⟩
  · rw [fingerprintRequest, foldl_append_eq_join]
  · simp [fingerprintRequest, hlen, blake2bSize256]
  · simp [fingerprintRequest, hlen, blake2bSize256]

/-- Witness for the amended C6. -/
theorem c6_witness :
    fingerprintRequest hash32 [1] [2] defaultHeadersToHash ⟨[9], fun _ => [7]⟩ =
      (hash32 [1] ([9] ++ (defaultHeadersToHash.map (fun _ => [7])).join),
       hash32 [2] ([9] ++ (defaultHeadersToHash.map (fun _ => [7])).join)) ∧
    (fingerprintRequest hash32 [1] [2] defaultHeadersToHash ⟨[9], fun _ => [7]⟩).1.length = 32 ∧
    (fingerprintRequest hash32 [1] [2] defaultHeadersToHash ⟨[9], fun _ => [7]⟩).2.length = 32 ∧
    defaultHeadersToHash = ["User-Agent", "Accept-Encoding", "Accept-Language"] :=
  c6_fingerprint_amended hash32 hash32_len [1] [2] defaultHeadersToHash ⟨[9], fun _ => [7]⟩

/-! ### The ingestion pipeline: batcher (`DatabaseWriter`, first goroutine) -/

/-- The batch-size threshold (`if len(hits) >= 256`). -/
def flushThreshold : Nat := 256

/-- The flush interval in seconds (`time.NewTicker(10 * time.Second)`);
real time is modelled by `tick` events. -/
def flushIntervalSeconds : Nat := 10

/-- The three things that can wake the batcher's `select`: the ticker, a
hit arriving on the inbound channel, and context cancellation. -/
inductive BatchEvent (α : Type)
  | tick
  | recv (h : α)
  | done

/-- One iteration of the batcher loop: given the accumulated batch, an
event yields the new accumulated batch and the batch emitted to the
committer, if any.  `tick` with an empty batch is `continue`; `recv`
appends and flushes at the threshold; `done` flushes any partial batch. -/
def batcherStep {α : Type} (hits : List α) : BatchEvent α → List α × Option (List α)
  | .tick => if hits.isEmpty then (hits, none) else ([], some hits)
  | .recv h =>
    let hits2 := hits ++ [h]
    if flushThreshold ≤ hits2.length then ([], some hits2) else (hits2, none)
  | .done => ([], if hits.isEmpty then none else some hits)

/-- A run of the batcher over a sequence of events, from the empty batch;
returns the final accumulated batch and the emitted batches in order. -/
def batcherRun {α : Type} (evs : List (BatchEvent α)) : List α × List (List α) :=
  evs.foldl (fun st ev =>
    match batcherStep st.1 ev with
    | (b2, none) => (b2, st.2)
    | (b2, some batch) => (b2, st.2 ++ [batch])) ([], [])

theorem batcherRun_invariant {α : Type} (evs : List (BatchEvent α)) :
    (batcherRun evs).1.length < flushThreshold ∧
    ∀ batch ∈ (batcherRun evs).2, batch ≠ [] ∧ batch.length ≤ flushThreshold := by
  suffices h : ∀ (b : List α) (out : List (List α)),
      b.length < flushThreshold → (∀ batch ∈ out, batch ≠ [] ∧ batch.length ≤ flushThreshold) →
      (evs.foldl (fun st ev =>
        match batcherStep st.1 ev with
        | (b2, none) => (b2, st.2)
        | (b2, some batch) => (b2, st.2 ++ [batch])) (b, out)).1.length < flushThreshold ∧
      ∀ batch ∈ (evs.foldl (fun st ev =>
        match batcherStep st.1 ev with
        | (b2, none) => (b2, st.2)
        | (b2, some batch) => (b2, st.2 ++ [batch])) (b, out)).2,
        batch ≠ [] ∧ batch.length ≤ flushThreshold by
    exact h [] [] (by simp [flushThreshold]) (by simp)
  induction evs with
  | nil => intro b out hb hout; exact ⟨hb, hout⟩
  | cons ev rest ih =>
    intro b out hb hout
    simp only [List.foldl_cons]
    rcases ev with _ | h | _
    · by_cases hbe : b.isEmpty
      · simp only [batcherStep, if_pos hbe]
        exact ih b out hb hout
      · simp only [batcherStep, if_neg hbe]
        apply ih [] (out ++ [b]) (by simp [flushThreshold])
        intro batch hbatch
        rcases List.mem_append.mp hbatch with hm | hm
        · exact hout batch hm
        · simp only [List.mem_singleton] at hm
          subst hm
          refine ⟨fun hc => hbe (by simp [hc]), by omega⟩
    · by_cases hth : flushThreshold ≤ (b ++ [h]).length
      · simp only [batcherStep, if_pos hth]
        apply ih [] (out ++ [b ++ [h]]) (by simp [flushThreshold])
        intro batch hbatch
        rcases List.mem_append.mp hbatch with hm | hm
        · exact hout batch hm
        · simp only [List.mem_singleton] at hm
          subst hm
          constructor
          · simp
          · simp only [List.length_append, List.length_singleton] at hth ⊢
            omega
      · simp only [batcherStep, if_neg hth]
        apply ih (b ++ [h]) out ?_ hout
        simp only [List.length_append, List.length_singleton] at hth ⊢
        omega
    · by_cases hbe : b.isEmpty
      · simp only [batcherStep, if_pos hbe]
        exact ih [] out (by simp [flushThreshold]) hout
      · simp only [batcherStep, if_neg hbe]
        apply ih [] (out ++ [b]) (by simp [flushThreshold])
        intro batch hbatch
        rcases List.mem_append.mp hbatch with hm | hm
        · exact hout batch hm
        · simp only [List.mem_singleton] at hm
          subst hm
          refine ⟨fun hc => hbe (by simp [hc]), by omega⟩

/-- C7: in every batcher run, every emitted batch is non-empty and holds at
most 256 hits; a hit arriving emits a batch exactly when the batch reaches
256 (and then the emitted batch is the full accumulated one, immediately);
a timer tick emits exactly when the accumulated batch is non-empty (and
then emits it whole). -/
theorem c7_batcher_flush (α : Type) (evs : List (BatchEvent α)) :
    (∀ batch ∈ (batcherRun evs).2, batch ≠ [] ∧ batch.length ≤ 256) ∧
    (∀ h : α, (batcherStep (batcherRun evs).1 (.recv h)).2 =
      (if (batcherRun evs).1.length + 1 = 256 then some ((batcherRun evs).1 ++ [h]) else none)) ∧
    ((batcherRun evs).1 = [] → (batcherStep (batcherRun evs).1 .tick).2 = none) ∧
    ((batcherRun evs).1 ≠ [] →
      (batcherStep (batcherRun evs).1 .tick).2 = some ((batcherRun evs).1)) := by
  obtain ⟨hlt, hout⟩ := batcherRun_invariant evs
  refine ⟨hout, ?_, ?_, ?_⟩
  · intro h
    by_cases hc : (batcherRun evs).1.length + 1 = 256
    · rw [if_pos hc]
      simp only [batcherStep]
      rw [if_pos (by simp only [List.length_append, List.length_singleton, flushThreshold]; omega)]
    · rw [if_neg hc]
      simp only [batcherStep]
      rw [if_neg ?_]
      simp only [List.length_append, List.length_singleton, flushThreshold]
      rw [flushThreshold] at hlt
      omega
  · intro hc
    simp [batcherStep, hc]
  · intro hc
    simp only [batcherStep]
    rw [if_neg (by simpa [List.isEmpty_iff] using hc)]

/-- Witness for C7 at a concrete run: after receiving one hit, a tick
emits exactly that one-hit batch. -/
theorem c7_witness :
    (batcherRun [BatchEvent.recv (1 : Nat)]).1 ≠ [] ∧
    (batcherStep (batcherRun [BatchEvent.recv (1 : Nat)]).1 .tick).2 =
      some ((batcherRun [BatchEvent.recv (1 : Nat)]).1) :=
  ⟨by decide, (c7_batcher_flush Nat [BatchEvent.recv 1]).2.2.2 (by decide)⟩

/-! ### The ingestion pipeline: committer (`DatabaseWriter`, second goroutine) -/

/-- One batch commit: a fresh transaction inserts every hit in order
(`dbInsertHit` abstracted as `insertHit` over an abstract database state);
the first failure aborts, and the deferred `tx.Rollback()` discards the
partial transaction, so an error leaves the database unchanged. -/
def commitBatch {δ ε η : Type} (insertHit : δ → η → Except ε δ) (db : δ)
    (hits : List η) : Except ε δ :=
  hits.foldlM insertHit db

/-- The committer loop (`for hits := range hitsC`): each batch runs in its
own transaction; on error the batch is dropped, the error is logged
(collected here), and the loop continues with the next batch. -/
def committerRun {δ ε η : Type} (insertHit : δ → η → Except ε δ) (db : δ) :
    List (List η) → δ × List ε
  | [] => (db, [])
  | batch :: rest =>
    match commitBatch insertHit db batch with
    | .ok db2 => committerRun insertHit db2 rest
    | .error e =>
      let r := committerRun insertHit db rest
      (r.1, e :: r.2)

/-- C8: if inserting any single hit of a batch fails, the whole batch's
transaction is rolled back — no hit of the batch reaches the database —
the error is logged, the batch is dropped without retry, and the committer
continues with the subsequent batches from the unchanged database state. -/
theorem c8_committer_batch_abort (δ ε η : Type) (insertHit : δ → η → Except ε δ)
    (db db2 : δ) (pre post : List η) (h : η) (e : ε) (rest : List (List η))
    (hpre : commitBatch insertHit db pre = .ok db2)
    (hfail : insertHit db2 h = .error e) :
    commitBatch insertHit db (pre ++ h :: post) = .error e ∧
    committerRun insertHit db ((pre ++ h :: post) :: rest) =
      ((committerRun insertHit db rest).1, e :: (committerRun insertHit db rest).2) := by
  have hbatch : commitBatch insertHit db (pre ++ h :: post) = .error e := by
    rw [commitBatch, List.foldlM_append]
    rw [commitBatch] at hpre
    rw [hpre]
    show (List.foldlM insertHit db2 (h :: post) : Except ε δ) = .error e
    rw [List.foldlM_cons, hfail]
    rfl
  refine ⟨hbatch, ?_⟩
  rw [committerRun, hbatch]

/-- Witness for C8 on a concrete database model (a running sum) and a
poison hit. -/
theorem c8_witness :
    commitBatch (fun d h => if h = 0 then .error 99 else .ok (d + h)) (5 : Nat) [1] = .ok 6 ∧
    commitBatch (fun d h => if h = 0 then .error 99 else .ok (d + h)) (5 : Nat) [1, 0, 2]
      = .error 99 ∧
    committerRun (fun d h => if h = 0 then .error 99 else .ok (d + h)) (5 : Nat) [[1, 0, 2], [3]]
      = ((committerRun (fun d h => if h = 0 then .error 99 else .ok (d + h)) (5 : Nat) [[3]]).1,
         99 :: (committerRun (fun d h => if h = 0 then .error 99 else .ok (d + h))
           (5 : Nat) [[3]]).2) := by
  have h := c8_committer_batch_abort Nat Nat Nat
    (fun d h => if h = 0 then .error 99 else .ok (d + h)) 5 6 [1] [2] 0 99 [[3]]
    rfl rfl
  exact ⟨rfl, h.1, h.2⟩

/-! ### The retention sweeper (`dbDeleteExpired` and the rotation loop) -/

/-- A row of the `users` table. -/
structure UserRow where
  user_id : Nat
  identifier : Option (List Nat)
  first_seen : Nat
  last_seen : Nat
deriving DecidableEq, Repr

/-- `dbDeleteExpired`: the single bulk update
`UPDATE users SET identifier = NULL WHERE identifier IS NOT NULL AND
last_seen + ? < CAST(strftime near-now AS INTEGER)`, committed in its own
transaction; returns the new table and `RowsAffected()`.  Durations are in
whole seconds (`deleteSince.Seconds()`). -/
def dbDeleteExpired (deleteSince now : Nat) (users : List UserRow) :
    List UserRow × Nat :=
  users.foldr (fun u acc =>
    if u.identifier ≠ none ∧ u.last_seen + deleteSince < now
    then ({ u with identifier := none } :: acc.1, acc.2 + 1)
    else (u :: acc.1, acc.2)) ([], 0)

/-- The rotation loop (`SheepCount.Run`) calls the sweeper with
`2 * SaltRotationDuration` after each rotation. -/
def retentionSweep (rotationDuration now : Nat) (users : List UserRow) :
    List UserRow × Nat :=
  dbDeleteExpired (2 * rotationDuration) now users

/-- Whether the sweeper expires a row: non-null identifier and a
`last_seen` more than twice the rotation interval in the past. -/
def expiredRow (rotationDuration now : Nat) (u : UserRow) : Prop :=
  u.identifier ≠ none ∧ u.last_seen + 2 * rotationDuration < now

instance (rotationDuration now : Nat) : DecidablePred (expiredRow rotationDuration now) :=
  fun u => instDecidableAnd

/-- C9: one sweep nulls the identifier of exactly the rows whose
identifier is non-null and whose `last_seen` lies more than twice the
rotation interval in the past; all other rows are unchanged, no row is
deleted (the table keeps its length, row by row), and the number of
affected rows is returned as an ordinary result. -/
theorem c9_retention_sweep (rotationDuration now : Nat) (users : List UserRow) :
    (retentionSweep rotationDuration now users).1 =
      users.map (fun u => if expiredRow rotationDuration now u
        then { u with identifier := none } else u) ∧
    (retentionSweep rotationDuration now users).2 =
      (users.filter (fun u => decide (expiredRow rotationDuration now u))).length ∧
    (retentionSweep rotationDuration now users).1.length = users.length := by
  rw [retentionSweep]
  induction users with
  | nil => exact ⟨rfl, rfl, rfl⟩
  | cons u rest ih =>
    obtain ⟨ih1, ih2, ih3⟩ := ih
    by_cases hc : expiredRow rotationDuration now u
    · have hc' : u.identifier ≠ none ∧ u.last_seen + 2 * rotationDuration < now := hc
      refine ⟨?_, ?_, ?_⟩
      · simp only [dbDeleteExpired, List.foldr_cons, List.map_cons, if_pos hc, if_pos hc']
        rw [dbDeleteExpired] at ih1
        simp [ih1]
      · simp only [dbDeleteExpired, List.foldr_cons, if_pos hc']
        rw [dbDeleteExpired] at ih2
        simp only [List.filter_cons, decide_eq_true hc, ih2]
        simp
      · simp only [dbDeleteExpired, List.foldr_cons, if_pos hc', List.length_cons]
        rw [dbDeleteExpired] at ih3
        simp [ih3]
    · have hc' : ¬(u.identifier ≠ none ∧ u.last_seen + 2 * rotationDuration < now) := hc
      refine ⟨?_, ?_, ?_⟩
      · simp only [dbDeleteExpired, List.foldr_cons, List.map_cons, if_neg hc, if_neg hc']
        rw [dbDeleteExpired] at ih1
        simp [ih1]
      · simp only [dbDeleteExpired, List.foldr_cons, if_neg hc']
        rw [dbDeleteExpired] at ih2
        simp only [List.filter_cons, decide_eq_false hc, ih2]
        simp
      · simp only [dbDeleteExpired, List.foldr_cons, if_neg hc', List.length_cons]
        rw [dbDeleteExpired] at ih3
        simp [ih3]

/-! ### Event validation (`hit.go`) and the event handler (`sheepcount.go`) -/

/-- `EventType`: `"l"`, `"v"`, `"h"`. -/
inductive EventKind
  | load
  | view
  | hide
deriving DecidableEq, Repr

/-- The error taxonomy of `hit.go` with its HTTP status mapping. -/
inductive SCError
  | badInput
  | notAuthorized
  | internal
deriving DecidableEq, Repr

/-- `StatusCode()` of each error type. -/
def SCError.statusCode : SCError → Nat
  | badInput => 400
  | notAuthorized => 403
  | internal => 500

/-- A decoded event body (`Event` in hit.go).  `PixelRatio` is a JSON
number, modelled as a rational (only its sign is ever tested). -/
structure EventIn where
  event : EventKind
  url : String
  referrer : String
  jsBot : Int
  screenHeight : Int
  screenWidth : Int
  pixelR : Rat

/-- The fields of `Hit` that `fromEvent` touches. -/
structure HitM where
  event : Option EventKind
  bot : Option Int
  domain : String
  path : String
  referrerDomain : Option String
  referrerPath : Option String
  screenHeight : Option Int
  screenWidth : Option Int
  pixelR : Option Rat
deriving Repr

/-- `Hit.fromEvent`: sets the event kind, runs `setPageAndReferrer`
(abstracted; every one of its error returns in the source constructs
`BadInput`, so its error type here is a bare token mapped to `badInput`),
applies the JS bot signal, then validates the three display fields,
rejecting any non-positive value with `BadInput`. -/
def fromEvent (setPR : HitM → String → String → Except Unit HitM)
    (isBotIsNot : Int → Bool) (hit : HitM) (ev : EventIn) : Except SCError HitM :=
  let hit0 := { hit with event := some ev.event }
  match setPR hit0 ev.url ev.referrer with
  | .error _ => .error .badInput
  | .ok hit1 =>
    let hit2 :=
      if ev.jsBot ≥ 150 ∧ (hit1.bot = none ∨ (hit1.bot ≠ none ∧ isBotIsNot ev.jsBot = true))
      then { hit1 with bot := some ev.jsBot } else hit1
    if ev.screenHeight > 0 then
      let hit3 := { hit2 with screenHeight := some ev.screenHeight }
      if ev.screenWidth > 0 then
        let hit4 := { hit3 with screenWidth := some ev.screenWidth }
        if ev.pixelR > 0 then
          .ok { hit4 with pixelR := some ev.pixelR }
        else .error .badInput
      else .error .badInput
    else .error .badInput

/-- `NewHit`: the request phase (JSON decode, fingerprinting,
`fromRequest`) abstracted as its outcome, followed by `fromEvent`. -/
def NewHit (requestPhase : Except SCError HitM)
    (setPR : HitM → String → String → Except Unit HitM)
    (isBotIsNot : Int → Bool) (ev : EventIn) : Except SCError HitM :=
  match requestPhase with
  | .error e => .error e
  | .ok hit => fromEvent setPR isBotIsNot hit ev

/-- `handleEvent` after the method check: on error, respond with the
error's status code and enqueue nothing; on success, enqueue the hit and
respond 204. -/
def handleEvent (newHitResult : Except SCError HitM) : Nat × Option HitM :=
  match newHitResult with
  | .error e => (e.statusCode, none)
  | .ok hit => (204, some hit)

/-- C10: an event with a non-positive screen height, screen width or pixel
ratio makes `NewHit` fail with `BadInput` (status 400) and the event is not
enqueued as a Hit; conversely an accepted event has all three display
fields stored as valid (non-null) values. -/
theorem c10_display_validation (setPR : HitM → String → String → Except Unit HitM)
    (isBotIsNot : Int → Bool) (hit : HitM) (ev : EventIn)
    (requestPhase : Except SCError HitM) (hreq : requestPhase = .ok hit) :
    ((ev.screenHeight ≤ 0 ∨ ev.screenWidth ≤ 0 ∨ ev.pixelR ≤ 0) →
      NewHit requestPhase setPR isBotIsNot ev = .error .badInput ∧
      handleEvent (NewHit requestPhase setPR isBotIsNot ev) = (400, none)) ∧
    (∀ hit2, NewHit requestPhase setPR isBotIsNot ev = .ok hit2 →
      hit2.screenHeight = some ev.screenHeight ∧
      hit2.screenWidth = some ev.screenWidth ∧
      hit2.pixelR = some ev.pixelR) := by
  subst hreq
  rw [NewHit]
  constructor
  · intro hbad
    have herr : fromEvent setPR isBotIsNot hit ev = .error .badInput := by
      rw [fromEvent]
      rcases setPR { hit with event := some ev.event } ev.url ev.referrer with _ | hit1
      · rfl
      · simp only []
        by_cases h1 : ev.screenHeight > 0
        · rw [if_pos h1]
          by_cases h2 : ev.screenWidth > 0
          · rw [if_pos h2]
            by_cases h3 : ev.pixelR > 0
            · exfalso
              rcases hbad with hb | hb | hb
              · omega
              · omega
              · exact absurd h3 (not_lt.mpr hb)
            · rw [if_neg h3]
          · rw [if_neg h2]
        · rw [if_neg h1]
    rw [herr]
    exact ⟨rfl, rfl⟩
  · intro hit2 hok
    rw [fromEvent] at hok
    rcases hsp : setPR { hit with event := some ev.event } ev.url ev.referrer with he | hit1
    · rw [hsp] at hok
      exact absurd hok (by simp)
    · rw [hsp] at hok
      simp only [] at hok
      by_cases h1 : ev.screenHeight > 0
      · rw [if_pos h1] at hok
        by_cases h2 : ev.screenWidth > 0
        · rw [if_pos h2] at hok
          by_cases h3 : ev.pixelR > 0
          · rw [if_pos h3] at hok
            simp only [Except.ok.injEq] at hok
            subst hok
            exact ⟨rfl, rfl, rfl⟩
          · rw [if_neg h3] at hok
            exact absurd hok (by simp)
        · rw [if_neg h2] at hok
          exact absurd hok (by simp)
      · rw [if_neg h1] at hok
        exact absurd hok (by simp)

/-- Witness for C10: a zero screen width is rejected with 400 and not
enqueued. -/
theorem c10_witness :
    NewHit (.ok ⟨none, none, "", "", none, none, none, none, none⟩)
        (fun h _ _ => .ok h) (fun _ => false)
        ⟨.load, "u", "", 0, 100, 0, 1⟩ = .error .badInput ∧
    handleEvent (NewHit (.ok ⟨none, none, "", "", none, none, none, none, none⟩)
        (fun h _ _ => .ok h) (fun _ => false)
        ⟨.load, "u", "", 0, 100, 0, 1⟩) = (400, none) :=
  (c10_display_validation (fun h _ _ => .ok h) (fun _ => false)
    ⟨none, none, "", "", none, none, none, none, none⟩
    ⟨.load, "u", "", 0, 100, 0, 1⟩ _ rfl).1 (by right; left; decide)

/-! ### The user resolver (`dbInsertUser`) -/

inductive DbErr
  | invariantViolation
  | constraintViolation
deriving DecidableEq, Repr

/-- `dbInsertUser`: one `SELECT user_id, identifier FROM users WHERE
identifier = ?curr OR identifier = ?prev` (a NULL identifier never
matches), then: no row → INSERT with the current fingerprint (the fresh
`user_id` stands for the SQLite rowid, and `first_seen`/`last_seen`
default to now); current match → bump `last_seen`; previous match →
rewrite the identifier and bump `last_seen`; anything else is the
source's `panic("this should not happen")`. -/
def dbInsertUser (now : Nat) (users : List UserRow)
    (currentIdentifier previousIdentifier : List Nat) :
    Except DbErr (Nat × List UserRow) :=
  match users.find? (fun u => u.identifier == some currentIdentifier
      || u.identifier == some previousIdentifier) with
  | none =>
    let uid := (users.foldr (fun u m => max u.user_id m) 0) + 1
    .ok (uid, users ++ [{ user_id := uid, identifier := some currentIdentifier,
                          first_seen := now, last_seen := now }])
  | some u =>
    if u.identifier = some currentIdentifier then
      .ok (u.user_id, users.map (fun x => if x.user_id = u.user_id
        then { x with last_seen := now } else x))
    else if u.identifier = some previousIdentifier then
      .ok (u.user_id, users.map (fun x => if x.user_id = u.user_id
        then { x with identifier := some currentIdentifier, last_seen := now } else x))
    else .error .invariantViolation

/-- C5: when some row matches the previous fingerprint and none matches
the current one, `dbInsertUser` rewrites that row's identifier to the
current fingerprint and bumps its `last_seen`, returns that row's
`user_id`, and creates no new row. -/
theorem c5_user_rollover (now : Nat) (users : List UserRow) (curr prev : List Nat)
    (hprev : ∃ u ∈ users, u.identifier = some prev)
    (hcurr : ∀ u ∈ users, u.identifier ≠ some curr) :
    ∃ u ∈ users, u.identifier = some prev ∧
      dbInsertUser now users curr prev =
        .ok (u.user_id, users.map (fun x => if x.user_id = u.user_id
          then { x with identifier := some curr, last_seen := now } else x)) ∧
      (users.map (fun x => if x.user_id = u.user_id
          then { x with identifier := some curr, last_seen := now } else x)).length
        = users.length := by
  have hfind : (users.find? (fun u => u.identifier == some curr
      || u.identifier == some prev)).isSome := by
    rw [List.find?_isSome]
    obtain ⟨u, hu, hid⟩ := hprev
    exact ⟨u, hu, by simp [hid]⟩
  rcases hfound : users.find? (fun u => u.identifier == some curr
      || u.identifier == some prev) with _ | u
  · rw [hfound] at hfind
    simp at hfind
  · have humem : u ∈ users := List.mem_of_find?_eq_some hfound
    have hpred := List.find?_some hfound
    simp only [Bool.or_eq_true, beq_iff_eq] at hpred
    have hup : u.identifier = some prev := by
      rcases hpred with h | h
      · exact absurd h (hcurr u humem)
      · exact h
    refine ⟨u, humem, hup, ?_, by simp⟩
    rw [dbInsertUser, hfound]
    simp only []
    rw [if_neg (hcurr u humem), if_pos hup]

/-- Witness for C5: one user row carrying the previous fingerprint is
rewritten to the current fingerprint. -/
theorem c5_witness :
    ∃ u ∈ [UserRow.mk 1 (some [9]) 0 0], u.identifier = some [9] ∧
      dbInsertUser 50 [UserRow.mk 1 (some [9]) 0 0] [7] [9] =
        .ok (u.user_id, [UserRow.mk 1 (some [9]) 0 0].map (fun x => if x.user_id = u.user_id
          then { x with identifier := some [7], last_seen := 50 } else x)) ∧
      ([UserRow.mk 1 (some [9]) 0 0].map (fun x => if x.user_id = u.user_id
          then { x with identifier := some [7], last_seen := 50 } else x)).length
        = [UserRow.mk 1 (some [9]) 0 0].length :=
  c5_user_rollover 50 [UserRow.mk 1 (some [9]) 0 0] [7] [9]
    (by decide) (by decide)

/-! ### The location dimension (`dbInsertLocation`) -/

/-- A row of the `locations` table.  The string-valued columns (country
code, subdivision, city, postal code) are modelled as abstract `Nat`
codes; SQL `NULL` is `none`. -/
structure LocRow where
  location_id : Nat
  parent_id : Option Nat
  country : Option Nat
  subdivision : Option Nat
  city : Option Nat
  postal : Option Nat
deriving DecidableEq, Repr

/-- The Go `Location` struct: four `sql.NullString` fields. -/
structure Location where
  country : Option Nat
  subdivision : Option Nat
  city : Option Nat
  postal : Option Nat
deriving DecidableEq, Repr

/-- SQL `=` under three-valued logic, as used in the CTE's WHERE clauses:
a comparison involving NULL is never satisfied. -/
def sqlEq (a b : Option Nat) : Bool :=
  match a, b with
  | some x, some y => x == y
  | _, _ => false

/-- SQL `CASE WHEN x IS NOT NULL THEN x ELSE y END`. -/
def sqlCoalesce (a b : Option Nat) : Option Nat :=
  match a with
  | some x => some x
  | none => b

/-- An accumulated row of the recursive CTE `l(location_id, parent_id,
country, subdivision, city, postal)`. -/
structure CteRow where
  location_id : Nat
  parent_id : Option Nat
  country : Option Nat
  subdivision : Option Nat
  city : Option Nat
  postal : Option Nat
deriving DecidableEq, Repr

/-- The CTE's base case (`SELECT ... FROM locations WHERE country =
:country`) selects a row's own columns. -/
def baseAccum (r : LocRow) : CteRow :=
  ⟨r.location_id, r.parent_id, r.country, r.subdivision, r.city, r.postal⟩

/-- The recursive step's WHERE clause: each of the row's own
subdivision/city/postal columns is NULL, or equals the requested value,
or the accumulated value already equals the requested value. -/
def stepOk (loc : Location) (r : LocRow) (l : CteRow) : Bool :=
  (r.subdivision.isNone || sqlEq r.subdivision loc.subdivision
      || sqlEq l.subdivision loc.subdivision)
    && (r.city.isNone || sqlEq r.city loc.city || sqlEq l.city loc.city)
    && (r.postal.isNone || sqlEq r.postal loc.postal || sqlEq l.postal loc.postal)

/-- The recursive step's SELECT list: the child row's id and parent, and
each dimension column coalesced with the accumulated one. -/
def stepAccum (r : LocRow) (l : CteRow) : CteRow :=
  ⟨r.location_id, r.parent_id,
   sqlCoalesce r.country l.country,
   sqlCoalesce r.subdivision l.subdivision,
   sqlCoalesce r.city l.city,
   sqlCoalesce r.postal l.postal⟩

/-- `FROM locations INNER JOIN l ON locations.parent_id = l.location_id
WHERE ...`, expanded for a single accumulated row. -/
def cteChildren (T : List LocRow) (loc : Location) (l : CteRow) : List CteRow :=
  (T.filter (fun r => r.parent_id == some l.location_id && stepOk loc r l)).map
    (fun r => stepAccum r l)

/-- The n-th iterate of the recursive CTE. -/
def cteLevel (T : List LocRow) (loc : Location) : Nat → List CteRow
  | 0 => (T.filter (fun r => sqlEq r.country loc.country)).map baseAccum
  | n + 1 => (cteLevel T loc n).bind (cteChildren T loc)

/-- Every row produced by the recursive CTE.  The SQL engine iterates
until no new rows appear; on the acyclic tables the schema maintains a
chain visits at most `T.length` distinct rows, so `T.length + 4` levels
exhaust the recursion. -/
def cteAll (T : List LocRow) (loc : Location) : List CteRow :=
  (List.range (T.length + 4)).bind (cteLevel T loc)

/-- One column of `ORDER BY x NULLS LAST`, as a strict comparison. -/
def optLt (a b : Option Nat) : Bool :=
  match a, b with
  | some x, some y => x < y
  | some _, none => true
  | none, _ => false

/-- `ORDER BY country NULLS LAST, subdivision NULLS LAST, city NULLS
LAST, postal NULLS LAST`: lexicographic; ids do not participate. -/
def cteRowLt (a b : CteRow) : Bool :=
  optLt a.country b.country
    || (a.country == b.country
      && (optLt a.subdivision b.subdivision
        || (a.subdivision == b.subdivision
          && (optLt a.city b.city
            || (a.city == b.city && optLt a.postal b.postal)))))

/-- `LIMIT 1` after the ORDER BY: the first minimal row (SQLite leaves
ties unspecified; the model keeps the earliest generated row). -/
def pickBest : List CteRow → Option CteRow
  | [] => none
  | x :: xs => some (xs.foldl (fun best r => if cteRowLt r best then r else best) x)

/-- `row.Scan` on `sql.ErrNoRows` leaves the scan targets at their zero
values, i.e. invalid (`NULL`): the scanned `location_id`. -/
def scanId : Option CteRow → Option Nat
  | none => none
  | some a => some a.location_id

/-- The scanned `country` column of the best CTE row (NULL on no rows). -/
def scanCountry : Option CteRow → Option Nat
  | none => none
  | some a => a.country

/-- The scanned `subdivision` column of the best CTE row. -/
def scanSub : Option CteRow → Option Nat
  | none => none
  | some a => a.subdivision

/-- The scanned `city` column of the best CTE row. -/
def scanCity : Option CteRow → Option Nat
  | none => none
  | some a => a.city

/-- The scanned `postal` column of the best CTE row. -/
def scanPostal : Option CteRow → Option Nat
  | none => none
  | some a => a.postal

/-- A fresh surrogate key for an inserted row (the SQLite rowid: larger
than every existing id). -/
def freshLocId (T : List LocRow) : Nat :=
  T.foldr (fun r m => max r.location_id m) 0 + 1

/-- The `locations` CHECK constraint (db/schema.sql, staged as the second
document of src/main.go): `CAST(country IS NOT NULL AS INTEGER) +
CAST(subdivision IS NOT NULL AS INTEGER) + CAST(city IS NOT NULL AS
INTEGER) + CAST(postal IS NOT NULL AS INTEGER) = 1` — each row holds
exactly one of the four dimension columns. -/
def rowKindOk (r : LocRow) : Bool :=
  match r.country, r.subdivision, r.city, r.postal with
  | some _, none, none, none => true
  | none, some _, none, none => true
  | none, none, some _, none => true
  | none, none, none, some _ => true
  | _, _, _, _ => false

/-- The `locations` CHECK constraint `CAST(parent_id IS NOT NULL AS
INTEGER) + CAST(country IS NOT NULL AS INTEGER) = 1` (db/schema.sql,
staged in src/main.go): a country has no parent and every other location
must have a parent. -/
def rootOk (r : LocRow) : Bool :=
  (r.country.isSome && r.parent_id.isNone) || (r.country.isNone && r.parent_id.isSome)

/-- The `locations` parent constraints (db/schema.sql, staged in
src/main.go): `CHECK(location_id != parent_id)`, the foreign key
`parent_id REFERENCES locations(location_id)`, and the
`valid_location_parent` trigger — a subdivision needs a country parent,
a city a country or subdivision parent, and a postal a city parent. -/
def parentKindOk (T : List LocRow) (r : LocRow) : Bool :=
  match r.parent_id with
  | none => true
  | some p =>
    (!(p == r.location_id))
      && match T.find? (fun x => x.location_id == p) with
         | none => false
         | some pr =>
           if r.subdivision.isSome then pr.country.isSome
           else if r.city.isSome then pr.country.isSome || pr.subdivision.isSome
           else if r.postal.isSome then pr.city.isSome
           else true

/-- The four partial unique indexes on `locations` (db/schema.sql,
staged in src/main.go): `idx_locations_country` on (country) and
`idx_locations_subdivision`/`_city`/`_postal` on (parent_id, field),
each `WHERE field IS NOT NULL` — `sqlEq` on the keyed column captures
that partial condition (NULL keys never conflict; keyed rows have
non-null parents by the root CHECK, so plain parent equality matches
SQL's).  Stated for a pair of rows: matching keys force matching ids. -/
def uniqPairOk (r x : LocRow) : Bool :=
  (!(sqlEq r.country x.country) || r.location_id == x.location_id)
    && (!(r.parent_id == x.parent_id && sqlEq r.subdivision x.subdivision)
        || r.location_id == x.location_id)
    && (!(r.parent_id == x.parent_id && sqlEq r.city x.city)
        || r.location_id == x.location_id)
    && (!(r.parent_id == x.parent_id && sqlEq r.postal x.postal)
        || r.location_id == x.location_id)

/-- The `locations` schema invariants from db/schema.sql (staged as the
second document of src/main.go): primary-key uniqueness of
`location_id`, the exactly-one-field and parent-xor-country CHECKs, the
parent foreign key with the `valid_location_parent` trigger, and the
four partial unique indexes. -/
def locWF (T : List LocRow) : Bool :=
  decide ((T.map (fun r => r.location_id)).Nodup)
    && T.all rowKindOk
    && T.all rootOk
    && T.all (parentKindOk T)
    && T.all (fun r => T.all (fun x => uniqPairOk r x))

/-- Embeds `INSERT INTO locations (country) VALUES (?) RETURNING
location_id` (src/db.go); the unique index `idx_locations_country` (db/schema.sql,
staged in src/main.go) makes a duplicate country insert fail, surfacing
as a Scan error. -/
def insertCountry (T : List LocRow) (c : Nat) : Except DbErr (Nat × List LocRow) :=
  if T.any (fun r => sqlEq r.country (some c)) then .error .constraintViolation
  else .ok (freshLocId T, T ++ [⟨freshLocId T, none, some c, none, none, none⟩])

/-- Embeds `INSERT INTO locations (parent_id, subdivision) VALUES (?, ?)
RETURNING location_id` (src/db.go); per db/schema.sql (staged in
src/main.go) the insert fails when the parent is NULL (root CHECK) or
missing (foreign key), when the parent is not a country row
(`valid_location_parent` trigger), or when a (parent_id, subdivision)
duplicate exists (`idx_locations_subdivision`). -/
def insertSubdivision (T : List LocRow) (parent : Option Nat) (s : Nat) :
    Except DbErr (Nat × List LocRow) :=
  match parent with
  | none => .error .constraintViolation
  | some p =>
    match T.find? (fun x => x.location_id == p) with
    | none => .error .constraintViolation
    | some pr =>
      if !pr.country.isSome then .error .constraintViolation
      else if T.any (fun x => x.parent_id == some p && sqlEq x.subdivision (some s)) then
        .error .constraintViolation
      else .ok (freshLocId T, T ++ [⟨freshLocId T, some p, none, some s, none, none⟩])

/-- Embeds `INSERT INTO locations (parent_id, city) VALUES (?, ?)
RETURNING location_id` (src/db.go); per db/schema.sql (staged in src/main.go) the
insert fails when the parent is NULL or missing, not a country or
subdivision row (`valid_location_parent` trigger), or a
(parent_id, city) duplicate exists (`idx_locations_city`). -/
def insertCity (T : List LocRow) (parent : Option Nat) (ci : Nat) :
    Except DbErr (Nat × List LocRow) :=
  match parent with
  | none => .error .constraintViolation
  | some p =>
    match T.find? (fun x => x.location_id == p) with
    | none => .error .constraintViolation
    | some pr =>
      if !(pr.country.isSome || pr.subdivision.isSome) then .error .constraintViolation
      else if T.any (fun x => x.parent_id == some p && sqlEq x.city (some ci)) then
        .error .constraintViolation
      else .ok (freshLocId T, T ++ [⟨freshLocId T, some p, none, none, some ci, none⟩])

/-- Embeds `INSERT INTO locations (parent_id, postal) VALUES (?, ?)
RETURNING location_id` (src/db.go); per db/schema.sql (staged in src/main.go) the
insert fails when the parent is NULL or missing, not a city row
(`valid_location_parent` trigger), or a (parent_id, postal) duplicate
exists (`idx_locations_postal`). -/
def insertPostal (T : List LocRow) (parent : Option Nat) (po : Nat) :
    Except DbErr (Nat × List LocRow) :=
  match parent with
  | none => .error .constraintViolation
  | some p =>
    match T.find? (fun x => x.location_id == p) with
    | none => .error .constraintViolation
    | some pr =>
      if !pr.city.isSome then .error .constraintViolation
      else if T.any (fun x => x.parent_id == some p && sqlEq x.postal (some po)) then
        .error .constraintViolation
      else .ok (freshLocId T, T ++ [⟨freshLocId T, some p, none, none, none, some po⟩])

/-- `if country != location.Country && location.Country.Valid { INSERT
INTO locations (country) ... }` (`location.Country` is `some c` on this
path, so the `Valid` conjunct holds). -/
def countryPhase (found : Option CteRow) (c : Nat) (T : List LocRow) :
    Except DbErr (Option Nat × List LocRow) :=
  if scanCountry found = some c then .ok (scanId found, T)
  else
    match insertCountry T c with
    | .error e => .error e
    | .ok (i, T') => .ok (some i, T')

/-- One of the three `if scanned != location.Field &&
location.Field.Valid { INSERT ... }` blocks, parameterized by the insert
statement; on a fired insert the running `locationId` becomes the
returned id. -/
def childPhase
    (ins : List LocRow → Option Nat → Nat → Except DbErr (Nat × List LocRow))
    (fval qval : Option Nat) (st : Option Nat × List LocRow) :
    Except DbErr (Option Nat × List LocRow) :=
  match qval with
  | none => .ok st
  | some v =>
    if fval = some v then .ok st
    else
      match ins st.2 st.1 v with
      | .error e => .error e
      | .ok (i, T') => .ok (some i, T')

/-- `dbInsertLocation`: return NULL for the unknown-location sentinel,
run the recursive best-match CTE, return the id on an exact match, and
otherwise insert the missing levels one at a time.  The two
`panic("locationId must be valid")` sites are modelled as
`.error .invariantViolation`. -/
def dbInsertLocation (T : List LocRow) (loc : Location) :
    Except DbErr (Option Nat × List LocRow) :=
  match loc.country with
  | none => .ok (none, T)
  | some c =>
    if scanCountry (pickBest (cteAll T loc)) = loc.country
        ∧ scanSub (pickBest (cteAll T loc)) = loc.subdivision
        ∧ scanCity (pickBest (cteAll T loc)) = loc.city
        ∧ scanPostal (pickBest (cteAll T loc)) = loc.postal then
      match pickBest (cteAll T loc) with
      | none => .error .invariantViolation
      | some a => .ok (some a.location_id, T)
    else
      match countryPhase (pickBest (cteAll T loc)) c T with
      | .error e => .error e
      | .ok st1 =>
        match childPhase insertSubdivision (scanSub (pickBest (cteAll T loc)))
            loc.subdivision st1 with
        | .error e => .error e
        | .ok st2 =>
          match childPhase insertCity (scanCity (pickBest (cteAll T loc)))
              loc.city st2 with
          | .error e => .error e
          | .ok st3 =>
            match childPhase insertPostal (scanPostal (pickBest (cteAll T loc)))
                loc.postal st3 with
            | .error e => .error e
            | .ok st4 =>
              match st4.1 with
              | none => .error .invariantViolation
              | some j => .ok (some j, st4.2)

/-- Membership in the recursive CTE, as an inductive chain relation. -/
inductive Reach (T : List LocRow) (loc : Location) : CteRow → Prop where
  | base (r : LocRow) (hr : r ∈ T) (hc : sqlEq r.country loc.country = true) :
      Reach T loc (baseAccum r)
  | step (r : LocRow) (hr : r ∈ T) (l : CteRow) (hl : Reach T loc l)
      (hp : r.parent_id = some l.location_id) (hok : stepOk loc r l = true) :
      Reach T loc (stepAccum r l)

theorem sqlEq_eq_true (a b : Option Nat) : sqlEq a b = true ↔ a = b ∧ a.isSome := by
  cases a <;> cases b <;> simp [sqlEq]

theorem sqlEq_refl_some (x : Nat) : sqlEq (some x) (some x) = true := by
  simp [sqlEq]

theorem sqlCoalesce_none (b : Option Nat) : sqlCoalesce none b = b := rfl

theorem sqlCoalesce_some (x : Nat) (b : Option Nat) :
    sqlCoalesce (some x) b = some x := rfl

theorem locWF_nodup {T : List LocRow} (h : locWF T = true) :
    (T.map (fun r => r.location_id)).Nodup := by
  simp only [locWF, Bool.and_eq_true, decide_eq_true_eq] at h
  exact h.1.1.1.1

theorem locWF_kind {T : List LocRow} (h : locWF T = true) {r : LocRow}
    (hr : r ∈ T) : rowKindOk r = true := by
  simp only [locWF, Bool.and_eq_true, List.all_eq_true] at h
  exact h.1.1.1.2 r hr

theorem locWF_root {T : List LocRow} (h : locWF T = true) {r : LocRow}
    (hr : r ∈ T) : rootOk r = true := by
  simp only [locWF, Bool.and_eq_true, List.all_eq_true] at h
  exact h.1.1.2 r hr

theorem locWF_parent {T : List LocRow} (h : locWF T = true) {r : LocRow}
    (hr : r ∈ T) : parentKindOk T r = true := by
  simp only [locWF, Bool.and_eq_true, List.all_eq_true] at h
  exact h.1.2 r hr

theorem locWF_uniq {T : List LocRow} (h : locWF T = true) {r x : LocRow}
    (hr : r ∈ T) (hx : x ∈ T) : uniqPairOk r x = true := by
  simp only [locWF, Bool.and_eq_true, List.all_eq_true] at h
  exact h.2 r hr x hx

theorem locWF_id_inj {T : List LocRow} (h : locWF T = true) {x y : LocRow}
    (hx : x ∈ T) (hy : y ∈ T) (hid : x.location_id = y.location_id) : x = y :=
  List.inj_on_of_nodup_map (locWF_nodup h) hx hy hid

theorem mem_foldr_max_le {T : List LocRow} {r : LocRow} (hr : r ∈ T) :
    r.location_id ≤ T.foldr (fun x m => max x.location_id m) 0 := by
  induction T with
  | nil => cases hr
  | cons a t ih =>
    rcases List.mem_cons.mp hr with h | h
    · subst h; exact le_max_left _ _
    · exact le_trans (ih h) (le_max_right _ _)

theorem freshLocId_gt {T : List LocRow} {r : LocRow} (hr : r ∈ T) :
    r.location_id < freshLocId T :=
  Nat.lt_succ_of_le (mem_foldr_max_le hr)

theorem locWF_find_id {T : List LocRow} (h : locWF T = true) {x : LocRow}
    (hx : x ∈ T) : T.find? (fun y => y.location_id == x.location_id) = some x := by
  have hex : (T.find? (fun y => y.location_id == x.location_id)).isSome := by
    rw [List.find?_isSome]
    exact ⟨x, hx, by simp⟩
  obtain ⟨y, hy⟩ := Option.isSome_iff_exists.mp hex
  have hmem : y ∈ T := List.mem_of_find?_eq_some hy
  have hpred := List.find?_some hy
  simp only [beq_iff_eq] at hpred
  rw [hy, locWF_id_inj h hmem hx hpred]

theorem cteLevel_append {T N : List LocRow} {loc : Location} :
    ∀ {n : Nat} {a : CteRow}, a ∈ cteLevel T loc n → a ∈ cteLevel (T ++ N) loc n := by
  intro n
  induction n with
  | zero =>
    intro a h
    simp only [cteLevel, List.mem_map] at h ⊢
    obtain ⟨r, hr, hra⟩ := h
    rw [List.mem_filter] at hr
    exact ⟨r, List.mem_filter.mpr ⟨List.mem_append_left _ hr.1, hr.2⟩, hra⟩
  | succ n ih =>
    intro a h
    simp only [cteLevel, List.mem_bind] at h ⊢
    obtain ⟨l, hl, hal⟩ := h
    refine ⟨l, ih hl, ?_⟩
    simp only [cteChildren, List.mem_map] at hal ⊢
    obtain ⟨r, hr, hra⟩ := hal
    rw [List.mem_filter] at hr
    exact ⟨r, List.mem_filter.mpr ⟨List.mem_append_left _ hr.1, hr.2⟩, hra⟩

theorem reach_of_cteLevel {T : List LocRow} {loc : Location} :
    ∀ {n : Nat} {a : CteRow}, a ∈ cteLevel T loc n → Reach T loc a := by
  intro n
  induction n with
  | zero =>
    intro a h
    simp only [cteLevel, List.mem_map] at h
    obtain ⟨r, hr, hra⟩ := h
    rw [List.mem_filter] at hr
    exact hra ▸ Reach.base r hr.1 hr.2
  | succ n ih =>
    intro a h
    simp only [cteLevel, List.mem_bind] at h
    obtain ⟨l, hl, hal⟩ := h
    simp only [cteChildren, List.mem_map] at hal
    obtain ⟨r, hr, hra⟩ := hal
    rw [List.mem_filter, Bool.and_eq_true] at hr
    have hp : r.parent_id = some l.location_id := beq_iff_eq.mp hr.2.1
    exact hra ▸ Reach.step r hr.1 l (ih hl) hp hr.2.2

theorem mem_cteAll_of_level {T : List LocRow} {loc : Location} {a : CteRow}
    {n : Nat} (h : a ∈ cteLevel T loc n) (hn : n < T.length + 4) :
    a ∈ cteAll T loc := by
  simp only [cteAll, List.mem_bind]
  exact ⟨n, List.mem_range.mpr hn, h⟩

theorem reach_of_mem_cteAll {T : List LocRow} {loc : Location} {a : CteRow}
    (h : a ∈ cteAll T loc) : Reach T loc a := by
  simp only [cteAll, List.mem_bind] at h
  obtain ⟨n, _, h⟩ := h
  exact reach_of_cteLevel h

theorem cteAll_level_exists {T : List LocRow} {loc : Location} {a : CteRow}
    (h : a ∈ cteAll T loc) : ∃ n, n < T.length + 4 ∧ a ∈ cteLevel T loc n := by
  simp only [cteAll, List.mem_bind] at h
  obtain ⟨n, hn, h⟩ := h
  exact ⟨n, List.mem_range.mp hn, h⟩

theorem optLt_irrefl (a : Option Nat) : optLt a a = false := by
  cases a <;> simp [optLt]

theorem optLt_trans {a b c : Option Nat} (h1 : optLt a b = true)
    (h2 : optLt b c = true) : optLt a c = true := by
  cases a <;> cases b <;> cases c <;> simp [optLt] at * <;> omega

theorem optLt_total {a b : Option Nat} (h : optLt a b = false) :
    a = b ∨ optLt b a = true := by
  cases a <;> cases b <;> simp [optLt] at * <;> omega

/-- The sort keys of a CTE row: the four dimension columns. -/
def cteKeys (a : CteRow) : Option Nat × Option Nat × Option Nat × Option Nat :=
  (a.country, a.subdivision, a.city, a.postal)

theorem cteRowLt_iff (a b : CteRow) :
    cteRowLt a b = true ↔
      optLt a.country b.country = true
        ∨ (a.country = b.country
          ∧ (optLt a.subdivision b.subdivision = true
            ∨ (a.subdivision = b.subdivision
              ∧ (optLt a.city b.city = true
                ∨ (a.city = b.city ∧ optLt a.postal b.postal = true))))) := by
  simp [cteRowLt, Bool.or_eq_true, Bool.and_eq_true]

theorem cteRowLt_irrefl (a : CteRow) : cteRowLt a a = false := by
  simp [cteRowLt, optLt_irrefl]

theorem cteRowLt_congr {a b : CteRow} (h : cteKeys a = cteKeys b) (c : CteRow) :
    cteRowLt a c = cteRowLt b c := by
  simp only [cteKeys, Prod.mk.injEq] at h
  simp only [cteRowLt, h.1, h.2.1, h.2.2.1, h.2.2.2]

theorem cteRowLt_trans {a b c : CteRow} (h1 : cteRowLt a b = true)
    (h2 : cteRowLt b c = true) : cteRowLt a c = true := by
  rw [cteRowLt_iff] at h1 h2 ⊢
  rcases h1 with h1 | ⟨hc1, h1⟩
  · rcases h2 with h2 | ⟨hc2, _⟩
    · exact Or.inl (optLt_trans h1 h2)
    · exact Or.inl (hc2 ▸ h1)
  · rcases h2 with h2 | ⟨hc2, h2⟩
    · exact Or.inl (hc1 ▸ h2)
    · refine Or.inr ⟨hc1.trans hc2, ?_⟩
      rcases h1 with h1 | ⟨hs1, h1⟩
      · rcases h2 with h2 | ⟨hs2, _⟩
        · exact Or.inl (optLt_trans h1 h2)
        · exact Or.inl (hs2 ▸ h1)
      · rcases h2 with h2 | ⟨hs2, h2⟩
        · exact Or.inl (hs1 ▸ h2)
        · refine Or.inr ⟨hs1.trans hs2, ?_⟩
          rcases h1 with h1 | ⟨hci1, h1⟩
          · rcases h2 with h2 | ⟨hci2, _⟩
            · exact Or.inl (optLt_trans h1 h2)
            · exact Or.inl (hci2 ▸ h1)
          · rcases h2 with h2 | ⟨hci2, h2⟩
            · exact Or.inl (hci1 ▸ h2)
            · exact Or.inr ⟨hci1.trans hci2, optLt_trans h1 h2⟩

theorem cteRowLt_total {a b : CteRow} (h : cteRowLt a b = false) :
    cteKeys a = cteKeys b ∨ cteRowLt b a = true := by
  by_cases hc : optLt a.country b.country = true
  · have hlt : cteRowLt a b = true := (cteRowLt_iff a b).mpr (Or.inl hc)
    rw [h] at hlt
    cases hlt
  · rcases optLt_total (Bool.eq_false_iff.mpr hc) with hceq | hclt
    · by_cases hs : optLt a.subdivision b.subdivision = true
      · have hlt : cteRowLt a b = true :=
          (cteRowLt_iff a b).mpr (Or.inr ⟨hceq, Or.inl hs⟩)
        rw [h] at hlt
        cases hlt
      · rcases optLt_total (Bool.eq_false_iff.mpr hs) with hseq | hslt
        · by_cases hci : optLt a.city b.city = true
          · have hlt : cteRowLt a b = true :=
              (cteRowLt_iff a b).mpr (Or.inr ⟨hceq, Or.inr ⟨hseq, Or.inl hci⟩⟩)
            rw [h] at hlt
            cases hlt
          · rcases optLt_total (Bool.eq_false_iff.mpr hci) with hcieq | hcilt
            · by_cases hp : optLt a.postal b.postal = true
              · have hlt : cteRowLt a b = true :=
                  (cteRowLt_iff a b).mpr
                    (Or.inr ⟨hceq, Or.inr ⟨hseq, Or.inr ⟨hcieq, hp⟩⟩⟩)
                rw [h] at hlt
                cases hlt
              · rcases optLt_total (Bool.eq_false_iff.mpr hp) with hpeq | hplt
                · exact Or.inl (by simp [cteKeys, hceq, hseq, hcieq, hpeq])
                · refine Or.inr ?_
                  rw [cteRowLt_iff]
                  exact Or.inr ⟨hceq.symm, Or.inr ⟨hseq.symm, Or.inr ⟨hcieq.symm, hplt⟩⟩⟩
            · refine Or.inr ?_
              rw [cteRowLt_iff]
              exact Or.inr ⟨hceq.symm, Or.inr ⟨hseq.symm, Or.inl hcilt⟩⟩
        · refine Or.inr ?_
          rw [cteRowLt_iff]
          exact Or.inr ⟨hceq.symm, Or.inl hslt⟩
    · refine Or.inr ?_
      rw [cteRowLt_iff]
      exact Or.inl hclt

theorem pickBest_mem {l : List CteRow} {b : CteRow} (h : pickBest l = some b) :
    b ∈ l := by
  cases l with
  | nil => cases h
  | cons x xs =>
    simp only [pickBest, Option.some.injEq] at h
    subst h
    suffices hgen : ∀ (xs : List CteRow) (x : CteRow),
        xs.foldl (fun best r => if cteRowLt r best then r else best) x ∈ x :: xs by
      exact hgen xs x
    intro xs
    induction xs with
    | nil => intro x; simp
    | cons y ys ih =>
      intro x
      simp only [List.foldl_cons]
      by_cases hlt : cteRowLt y x = true
      · rw [if_pos hlt]
        rcases List.mem_cons.mp (ih y) with h | h
        · rw [h]
          exact List.mem_cons_of_mem x (List.mem_cons_self y ys)
        · exact List.mem_cons_of_mem x (List.mem_cons_of_mem y h)
      · rw [if_neg hlt]
        rcases List.mem_cons.mp (ih x) with h | h
        · rw [h]
          exact List.mem_cons_self x (y :: ys)
        · exact List.mem_cons_of_mem x (List.mem_cons_of_mem y h)

theorem pickBest_min {l : List CteRow} {b : CteRow} (h : pickBest l = some b) :
    ∀ y ∈ l, cteRowLt y b = false := by
  cases l with
  | nil => cases h
  | cons x xs =>
    simp only [pickBest, Option.some.injEq] at h
    subst h
    suffices hgen : ∀ (xs : List CteRow) (x : CteRow), ∀ y ∈ x :: xs,
        cteRowLt y (xs.foldl (fun best r => if cteRowLt r best then r else best) x) = false by
      exact hgen xs x
    intro xs
    induction xs with
    | nil =>
      intro x y hy
      rcases List.mem_cons.mp hy with h | h
      · exact h ▸ cteRowLt_irrefl x
      · cases h
    | cons z zs ih =>
      intro x y hy
      simp only [List.foldl_cons]
      by_cases hzx : cteRowLt z x = true
      · rw [if_pos hzx]
        rcases List.mem_cons.mp hy with h | h
        · subst h
          have hz := ih z z (List.mem_cons_self z zs)
          by_contra hxr
          have hxr2 := Bool.eq_true_of_ne_false hxr
          have hzt := cteRowLt_trans hzx hxr2
          rw [hz] at hzt
          cases hzt
        · rcases List.mem_cons.mp h with h | h
          · exact h ▸ ih z z (List.mem_cons_self z zs)
          · exact ih z y (List.mem_cons_of_mem z h)
      · rw [if_neg hzx]
        rcases List.mem_cons.mp hy with h | h
        · exact h ▸ ih x x (List.mem_cons_self x zs)
        · rcases List.mem_cons.mp h with h | h
          · subst h
            have hx := ih x x (List.mem_cons_self x zs)
            by_contra hzr
            have hzr2 := Bool.eq_true_of_ne_false hzr
            rcases cteRowLt_total (Bool.eq_false_iff.mpr hzx) with hkeys | hxz
            · rw [cteRowLt_congr hkeys] at hzr2
              rw [hx] at hzr2
              cases hzr2
            · have hxt := cteRowLt_trans hxz hzr2
              rw [hx] at hxt
              cases hxt
          · exact ih x y (List.mem_cons_of_mem x h)

theorem sqlEq_none_left (b : Option Nat) : sqlEq none b = false := by
  cases b <;> rfl

theorem kind_of_country {r : LocRow} (h : rowKindOk r = true) {c : Nat}
    (hc : r.country = some c) :
    r.subdivision = none ∧ r.city = none ∧ r.postal = none := by
  unfold rowKindOk at h
  cases hs : r.subdivision <;> cases hci : r.city <;> cases hp : r.postal <;>
    simp_all

theorem kind_of_sub {r : LocRow} (h : rowKindOk r = true) {s : Nat}
    (hs : r.subdivision = some s) :
    r.country = none ∧ r.city = none ∧ r.postal = none := by
  unfold rowKindOk at h
  cases hc : r.country <;> cases hci : r.city <;> cases hp : r.postal <;>
    simp_all

theorem kind_of_city {r : LocRow} (h : rowKindOk r = true) {ci : Nat}
    (hci : r.city = some ci) :
    r.country = none ∧ r.subdivision = none ∧ r.postal = none := by
  unfold rowKindOk at h
  cases hc : r.country <;> cases hs : r.subdivision <;> cases hp : r.postal <;>
    simp_all

theorem kind_of_postal {r : LocRow} (h : rowKindOk r = true) {po : Nat}
    (hpo : r.postal = some po) :
    r.country = none ∧ r.subdivision = none ∧ r.city = none := by
  unfold rowKindOk at h
  cases hc : r.country <;> cases hs : r.subdivision <;> cases hci : r.city <;>
    simp_all

theorem kind_some_field {r : LocRow} (h : rowKindOk r = true) :
    r.country.isSome ∨ r.subdivision.isSome ∨ r.city.isSome ∨ r.postal.isSome := by
  unfold rowKindOk at h
  cases hc : r.country <;> cases hs : r.subdivision <;> cases hci : r.city <;>
    cases hp : r.postal <;> simp_all

theorem rootOk_parent_some {r : LocRow} (h : rootOk r = true) {p : Nat}
    (hp : r.parent_id = some p) : r.country = none := by
  unfold rootOk at h
  rw [hp] at h
  simp only [Option.isNone_some, Bool.and_false, Bool.false_or, Bool.and_eq_true,
    Option.isNone_iff_eq_none] at h
  exact h.1

theorem rootOk_country_some {r : LocRow} (h : rootOk r = true) {c : Nat}
    (hc : r.country = some c) : r.parent_id = none := by
  unfold rootOk at h
  rw [hc] at h
  cases hp : r.parent_id with
  | none => rfl
  | some p =>
    rw [hp] at h
    simp at h

theorem wf_uniq_country {T : List LocRow} (h : locWF T = true) {r x : LocRow}
    (hr : r ∈ T) (hx : x ∈ T) {c : Nat} (h1 : r.country = some c)
    (h2 : x.country = some c) : r.location_id = x.location_id := by
  have hu := locWF_uniq h hr hx
  simp only [uniqPairOk, Bool.and_eq_true, Bool.or_eq_true, Bool.not_eq_true',
    beq_iff_eq] at hu
  rcases hu.1.1.1 with h' | h'
  · rw [h1, h2] at h'
    simp [sqlEq] at h'
  · exact h'

theorem wf_uniq_sub {T : List LocRow} (h : locWF T = true) {r x : LocRow}
    (hr : r ∈ T) (hx : x ∈ T) (hpar : r.parent_id = x.parent_id) {s : Nat}
    (h1 : r.subdivision = some s) (h2 : x.subdivision = some s) :
    r.location_id = x.location_id := by
  have hu := locWF_uniq h hr hx
  simp only [uniqPairOk, Bool.and_eq_true, Bool.or_eq_true, Bool.not_eq_true',
    beq_iff_eq] at hu
  rcases hu.1.1.2 with h' | h'
  · rw [Bool.and_eq_false_iff] at h'
    rcases h' with h' | h'
    · rw [beq_eq_false_iff_ne] at h'
      exact absurd hpar h'
    · rw [h1, h2] at h'
      simp [sqlEq] at h'
  · exact h'

theorem wf_uniq_city {T : List LocRow} (h : locWF T = true) {r x : LocRow}
    (hr : r ∈ T) (hx : x ∈ T) (hpar : r.parent_id = x.parent_id) {ci : Nat}
    (h1 : r.city = some ci) (h2 : x.city = some ci) :
    r.location_id = x.location_id := by
  have hu := locWF_uniq h hr hx
  simp only [uniqPairOk, Bool.and_eq_true, Bool.or_eq_true, Bool.not_eq_true',
    beq_iff_eq] at hu
  rcases hu.1.2 with h' | h'
  · rw [Bool.and_eq_false_iff] at h'
    rcases h' with h' | h'
    · rw [beq_eq_false_iff_ne] at h'
      exact absurd hpar h'
    · rw [h1, h2] at h'
      simp [sqlEq] at h'
  · exact h'

theorem wf_uniq_postal {T : List LocRow} (h : locWF T = true) {r x : LocRow}
    (hr : r ∈ T) (hx : x ∈ T) (hpar : r.parent_id = x.parent_id) {po : Nat}
    (h1 : r.postal = some po) (h2 : x.postal = some po) :
    r.location_id = x.location_id := by
  have hu := locWF_uniq h hr hx
  simp only [uniqPairOk, Bool.and_eq_true, Bool.or_eq_true, Bool.not_eq_true',
    beq_iff_eq] at hu
  rcases hu.2 with h' | h'
  · rw [Bool.and_eq_false_iff] at h'
    rcases h' with h' | h'
    · rw [beq_eq_false_iff_ne] at h'
      exact absurd hpar h'
    · rw [h1, h2] at h'
      simp [sqlEq] at h'
  · exact h'

theorem parent_found {T : List LocRow} (h : locWF T = true) {r : LocRow}
    (hr : r ∈ T) {p : Nat} (hp : r.parent_id = some p) :
    ∃ pr ∈ T, pr.location_id = p ∧
      T.find? (fun x => x.location_id == p) = some pr := by
  have hpk := locWF_parent h hr
  unfold parentKindOk at hpk
  rw [hp] at hpk
  rw [Bool.and_eq_true] at hpk
  rcases hfind : T.find? (fun x => x.location_id == p) with _ | pr
  · rw [hfind] at hpk
    cases hpk.2
  · have hmem : pr ∈ T := List.mem_of_find?_eq_some hfind
    have hpred := List.find?_some hfind
    simp only [beq_iff_eq] at hpred
    exact ⟨pr, hmem, hpred, hfind⟩

theorem parent_of_sub {T : List LocRow} (h : locWF T = true) {r : LocRow}
    (hr : r ∈ T) {p : Nat} (hp : r.parent_id = some p) {s : Nat}
    (hs : r.subdivision = some s) :
    ∃ pr ∈ T, pr.location_id = p ∧ pr.country.isSome := by
  obtain ⟨pr, hmem, hid, hfind⟩ := parent_found h hr hp
  have hpk := locWF_parent h hr
  unfold parentKindOk at hpk
  rw [hp] at hpk
  rw [Bool.and_eq_true] at hpk
  have h2 := hpk.2
  rw [hfind] at h2
  simp only [] at h2
  rw [if_pos (by rw [hs]; rfl)] at h2
  exact ⟨pr, hmem, hid, h2⟩

theorem parent_of_city {T : List LocRow} (h : locWF T = true) {r : LocRow}
    (hr : r ∈ T) {p : Nat} (hp : r.parent_id = some p)
    (hsn : r.subdivision = none) {ci : Nat} (hci : r.city = some ci) :
    ∃ pr ∈ T, pr.location_id = p ∧ (pr.country.isSome ∨ pr.subdivision.isSome) := by
  obtain ⟨pr, hmem, hid, hfind⟩ := parent_found h hr hp
  have hpk := locWF_parent h hr
  unfold parentKindOk at hpk
  rw [hp] at hpk
  rw [Bool.and_eq_true] at hpk
  have h2 := hpk.2
  rw [hfind] at h2
  simp only [] at h2
  rw [if_neg (by rw [hsn]; simp), if_pos (by rw [hci]; rfl)] at h2
  rw [Bool.or_eq_true] at h2
  exact ⟨pr, hmem, hid, h2⟩

theorem parent_of_postal {T : List LocRow} (h : locWF T = true) {r : LocRow}
    (hr : r ∈ T) {p : Nat} (hp : r.parent_id = some p)
    (hsn : r.subdivision = none) (hcn : r.city = none) {po : Nat}
    (hpo : r.postal = some po) :
    ∃ pr ∈ T, pr.location_id = p ∧ pr.city.isSome := by
  obtain ⟨pr, hmem, hid, hfind⟩ := parent_found h hr hp
  have hpk := locWF_parent h hr
  unfold parentKindOk at hpk
  rw [hp] at hpk
  rw [Bool.and_eq_true] at hpk
  have h2 := hpk.2
  rw [hfind] at h2
  simp only [] at h2
  rw [if_neg (by rw [hsn]; simp), if_neg (by rw [hcn]; simp),
    if_pos (by rw [hpo]; rfl)] at h2
  exact ⟨pr, hmem, hid, h2⟩

/-- What a CTE accumulator can look like over a well-formed table: its
country is the requested one, and its last row together with the ancestor
chain that produced it matches one of the four legal chain shapes. -/
def GoodAcc (T : List LocRow) (loc : Location) (a : CteRow) : Prop :=
  (a.country = loc.country ∧ loc.country.isSome) ∧
  ((a.subdivision = none ∧ a.city = none ∧ a.postal = none ∧
      ∃ w ∈ T, w.location_id = a.location_id ∧ w.country = loc.country)
    ∨ (∃ s, loc.subdivision = some s ∧ a.subdivision = some s ∧ a.city = none ∧
        a.postal = none ∧
        ∃ w ∈ T, w.location_id = a.location_id ∧ w.subdivision = some s ∧
          ∃ p ∈ T, w.parent_id = some p.location_id ∧ p.country = loc.country)
    ∨ (∃ ci, loc.city = some ci ∧ a.city = some ci ∧ a.postal = none ∧
        ∃ w ∈ T, w.location_id = a.location_id ∧ w.city = some ci ∧
          ∃ p ∈ T, w.parent_id = some p.location_id ∧
            ((a.subdivision = none ∧ p.country = loc.country)
              ∨ (∃ s, loc.subdivision = some s ∧ a.subdivision = some s ∧
                  p.subdivision = some s ∧
                  ∃ g ∈ T, p.parent_id = some g.location_id ∧
                    g.country = loc.country)))
    ∨ (∃ po, loc.postal = some po ∧ a.postal = some po ∧
        ∃ ci, loc.city = some ci ∧ a.city = some ci ∧
        ∃ w ∈ T, w.location_id = a.location_id ∧ w.postal = some po ∧
          ∃ p ∈ T, w.parent_id = some p.location_id ∧ p.city = some ci ∧
            ∃ pp ∈ T, p.parent_id = some pp.location_id ∧
              ((a.subdivision = none ∧ pp.country = loc.country)
                ∨ (∃ s, loc.subdivision = some s ∧ a.subdivision = some s ∧
                    pp.subdivision = some s ∧
                    ∃ g ∈ T, pp.parent_id = some g.location_id ∧
                      g.country = loc.country))))

theorem goodAcc_of_reach {T : List LocRow} {loc : Location} (hwf : locWF T = true)
    {a : CteRow} (h : Reach T loc a) : GoodAcc T loc a := by
  induction h with
  | base r hr hc =>
    obtain ⟨hceq, hcsome⟩ := (sqlEq_eq_true _ _).mp hc
    obtain ⟨c, hc'⟩ := Option.isSome_iff_exists.mp hcsome
    obtain ⟨hs0, hci0, hpo0⟩ := kind_of_country (locWF_kind hwf hr) hc'
    have hacc : baseAccum r =
        ⟨r.location_id, r.parent_id, r.country, none, none, none⟩ := by
      simp [baseAccum, hs0, hci0, hpo0]
    rw [hacc]
    exact ⟨⟨hceq, hceq ▸ hcsome⟩, Or.inl ⟨rfl, rfl, rfl, r, hr, rfl, hceq⟩⟩
  | step r hr l hl hp hok ih =>
    obtain ⟨⟨hlc, hlsome⟩, hdisj⟩ := ih
    have hrc : r.country = none := rootOk_parent_some (locWF_root hwf hr) hp
    have hkind := locWF_kind hwf hr
    simp only [stepOk, Bool.and_eq_true, Bool.or_eq_true] at hok
    rcases hrs : r.subdivision with _ | s'
    · rcases hrci : r.city with _ | ci'
      · rcases hrpo : r.postal with _ | po'
        · rcases kind_some_field hkind with h' | h' | h' | h' <;>
            simp [hrc, hrs, hrci, hrpo] at h'
        · -- r is a postal row
          obtain ⟨hkc, hks, hkci⟩ := kind_of_postal hkind hrpo
          obtain ⟨pr, hprmem, hprid, hprci⟩ :=
            parent_of_postal hwf hr hp hrs hrci hrpo
          rcases hdisj with hA | hB | hC | hD
          · obtain ⟨hls, hlci, hlpo, w, hw, hwid, hwc⟩ := hA
            have hpw : pr = w := locWF_id_inj hwf hprmem hw (hprid.trans hwid.symm)
            obtain ⟨c, hc'⟩ := Option.isSome_iff_exists.mp (hwc ▸ hlsome)
            have := (kind_of_country (locWF_kind hwf hw) hc').2.1
            rw [hpw, this] at hprci
            simp at hprci
          · obtain ⟨s, hqs, hls, hlci, hlpo, w, hw, hwid, hws, pw, hpwm, hwpar, hpwc⟩ := hB
            have hpw : pr = w := locWF_id_inj hwf hprmem hw (hprid.trans hwid.symm)
            have := (kind_of_sub (locWF_kind hwf hw) hws).2.1
            rw [hpw, this] at hprci
            simp at hprci
          · obtain ⟨ci, hqci, hlci, hlpo, w, hw, hwid, hwci, pw, hpwm, hwpar, hbr⟩ := hC
            have hqpo : loc.postal = some po' := by
              rcases hok.2 with (h' | h') | h'
              · rw [hrpo] at h'
                simp at h'
              · have h2 := ((sqlEq_eq_true _ _).mp h').1
                rw [← h2, hrpo]
              · rw [hlpo] at h'
                simp [sqlEq] at h'
            have hacc : stepAccum r l =
                ⟨r.location_id, r.parent_id, l.country, l.subdivision, l.city,
                  some po'⟩ := by
              simp [stepAccum, hrc, hrs, hrci, hrpo, sqlCoalesce]
            rw [hacc]
            refine ⟨⟨hlc, hlsome⟩, Or.inr (Or.inr (Or.inr ?_))⟩
            refine ⟨po', hqpo, rfl, ci, hqci, hlci, r, hr, rfl, hrpo, w,
              hw, ?_, hwci, pw, hpwm, hwpar, ?_⟩
            · rw [hp, hwid]
            · rcases hbr with ⟨hlsub, hpwc⟩ | ⟨s, hqs, hlsub, hpws, g, hg, hpwpar, hgc⟩
              · exact Or.inl ⟨hlsub, hpwc⟩
              · exact Or.inr ⟨s, hqs, hlsub, hpws, g, hg, hpwpar, hgc⟩
          · obtain ⟨po, hqpo, hlpo, ci, hqci, hlci, w, hw, hwid, hwpo, rest⟩ := hD
            have hpw : pr = w := locWF_id_inj hwf hprmem hw (hprid.trans hwid.symm)
            have := (kind_of_postal (locWF_kind hwf hw) hwpo).2.2
            rw [hpw, this] at hprci
            simp at hprci
      · -- r is a city row
        obtain ⟨hkc, hks, hkpo⟩ := kind_of_city hkind hrci
        obtain ⟨pr, hprmem, hprid, hprcs⟩ := parent_of_city hwf hr hp hrs hrci
        rcases hdisj with hA | hB | hC | hD
        · obtain ⟨hls, hlci, hlpo, w, hw, hwid, hwc⟩ := hA
          have hqci : loc.city = some ci' := by
            rcases hok.1.2 with (h' | h') | h'
            · rw [hrci] at h'
              simp at h'
            · have h2 := ((sqlEq_eq_true _ _).mp h').1
              rw [← h2, hrci]
            · rw [hlci] at h'
              simp [sqlEq] at h'
          have hacc : stepAccum r l =
              ⟨r.location_id, r.parent_id, l.country, l.subdivision, some ci',
                l.postal⟩ := by
            simp [stepAccum, hrc, hrs, hrci, hkpo, sqlCoalesce]
          rw [hacc]
          refine ⟨⟨hlc, hlsome⟩, Or.inr (Or.inr (Or.inl ?_))⟩
          refine ⟨ci', hqci, rfl, hlpo, r, hr, rfl, hrci, w, hw, ?_, ?_⟩
          · rw [hp, hwid]
          · exact Or.inl ⟨hls, hwc⟩
        · obtain ⟨s, hqs, hls, hlci, hlpo, w, hw, hwid, hws, pw, hpwm, hwpar, hpwc⟩ := hB
          have hqci : loc.city = some ci' := by
            rcases hok.1.2 with (h' | h') | h'
            · rw [hrci] at h'
              simp at h'
            · have h2 := ((sqlEq_eq_true _ _).mp h').1
              rw [← h2, hrci]
            · rw [hlci] at h'
              simp [sqlEq] at h'
          have hacc : stepAccum r l =
              ⟨r.location_id, r.parent_id, l.country, l.subdivision, some ci',
                l.postal⟩ := by
            simp [stepAccum, hrc, hrs, hrci, hkpo, sqlCoalesce]
          rw [hacc]
          refine ⟨⟨hlc, hlsome⟩, Or.inr (Or.inr (Or.inl ?_))⟩
          refine ⟨ci', hqci, rfl, hlpo, r, hr, rfl, hrci, w, hw, ?_, ?_⟩
          · rw [hp, hwid]
          · exact Or.inr ⟨s, hqs, by rw [hls], hws, pw, hpwm, hwpar, hpwc⟩
        · obtain ⟨ci, hqci, hlci, hlpo, w, hw, hwid, hwci, rest⟩ := hC
          have hpw : pr = w := locWF_id_inj hwf hprmem hw (hprid.trans hwid.symm)
          obtain ⟨hwc0, hws0, _⟩ := kind_of_city (locWF_kind hwf hw) hwci
          rw [hpw, hwc0, hws0] at hprcs
          simp at hprcs
        · obtain ⟨po, hqpo, hlpo, ci, hqci, hlci, w, hw, hwid, hwpo, rest⟩ := hD
          have hpw : pr = w := locWF_id_inj hwf hprmem hw (hprid.trans hwid.symm)
          obtain ⟨hwc0, hws0, _⟩ := kind_of_postal (locWF_kind hwf hw) hwpo
          rw [hpw, hwc0, hws0] at hprcs
          simp at hprcs
    · -- r is a subdivision row
      obtain ⟨hkc, hkci, hkpo⟩ := kind_of_sub hkind hrs
      obtain ⟨pr, hprmem, hprid, hprc⟩ := parent_of_sub hwf hr hp hrs
      rcases hdisj with hA | hB | hC | hD
      · obtain ⟨hls, hlci, hlpo, w, hw, hwid, hwc⟩ := hA
        have hqs : loc.subdivision = some s' := by
          rcases hok.1.1 with (h' | h') | h'
          · rw [hrs] at h'
            simp at h'
          · have h2 := ((sqlEq_eq_true _ _).mp h').1
            rw [← h2, hrs]
          · rw [hls] at h'
            simp [sqlEq] at h'
        have hacc : stepAccum r l =
            ⟨r.location_id, r.parent_id, l.country, some s', l.city, l.postal⟩ := by
          simp [stepAccum, hrc, hrs, hkci, hkpo, sqlCoalesce]
        rw [hacc]
        refine ⟨⟨hlc, hlsome⟩, Or.inr (Or.inl ?_)⟩
        exact ⟨s', hqs, rfl, hlci, hlpo, r, hr, rfl, hrs, w, hw, by rw [hp, hwid], hwc⟩
      · obtain ⟨s, hqs, hls, hlci, hlpo, w, hw, hwid, hws, rest⟩ := hB
        have hpw : pr = w := locWF_id_inj hwf hprmem hw (hprid.trans hwid.symm)
        have := (kind_of_sub (locWF_kind hwf hw) hws).1
        rw [hpw, this] at hprc
        simp at hprc
      · obtain ⟨ci, hqci, hlci, hlpo, w, hw, hwid, hwci, rest⟩ := hC
        have hpw : pr = w := locWF_id_inj hwf hprmem hw (hprid.trans hwid.symm)
        have := (kind_of_city (locWF_kind hwf hw) hwci).1
        rw [hpw, this] at hprc
        simp at hprc
      · obtain ⟨po, hqpo, hlpo, ci, hqci, hlci, w, hw, hwid, hwpo, rest⟩ := hD
        have hpw : pr = w := locWF_id_inj hwf hprmem hw (hprid.trans hwid.symm)
        have := (kind_of_postal (locWF_kind hwf hw) hwpo).1
        rw [hpw, this] at hprc
        simp at hprc

theorem goodAcc_pattern {T : List LocRow} {loc : Location} {a : CteRow}
    (h : GoodAcc T loc a) :
    (a.subdivision = none ∨ a.subdivision = loc.subdivision)
      ∧ (a.city = none ∨ a.city = loc.city)
      ∧ (a.postal = none ∨ a.postal = loc.postal) := by
  obtain ⟨-, hdisj⟩ := h
  rcases hdisj with hA | hB | hC | hD
  · obtain ⟨h1, h2, h3, -⟩ := hA
    exact ⟨Or.inl h1, Or.inl h2, Or.inl h3⟩
  · obtain ⟨s, hqs, h1, h2, h3, -⟩ := hB
    exact ⟨Or.inr (h1.trans hqs.symm), Or.inl h2, Or.inl h3⟩
  · obtain ⟨ci, hqci, h1, h2, w, hw, hwid, hwci, p, hp, hpar, hbr⟩ := hC
    refine ⟨?_, Or.inr (h1.trans hqci.symm), Or.inl h2⟩
    rcases hbr with ⟨hsn, -⟩ | ⟨s, hqs, hsv, -⟩
    · exact Or.inl hsn
    · exact Or.inr (hsv.trans hqs.symm)
  · obtain ⟨po, hqpo, h1, ci, hqci, h2, w, hw, hwid, hwpo, p, hp, hpar, hpci,
      pp, hppm, hpppar, hbr⟩ := hD
    refine ⟨?_, Or.inr (h2.trans hqci.symm), Or.inr (h1.trans hqpo.symm)⟩
    rcases hbr with ⟨hsn, -⟩ | ⟨s, hqs, hsv, -⟩
    · exact Or.inl hsn
    · exact Or.inr (hsv.trans hqs.symm)

theorem goodAcc_row {T : List LocRow} {loc : Location} {a : CteRow}
    (h : GoodAcc T loc a) : ∃ w ∈ T, w.location_id = a.location_id := by
  obtain ⟨-, hdisj⟩ := h
  rcases hdisj with hA | hB | hC | hD
  · obtain ⟨-, -, -, w, hw, hwid, -⟩ := hA
    exact ⟨w, hw, hwid⟩
  · obtain ⟨s, -, -, -, -, w, hw, hwid, -⟩ := hB
    exact ⟨w, hw, hwid⟩
  · obtain ⟨ci, -, -, -, w, hw, hwid, -⟩ := hC
    exact ⟨w, hw, hwid⟩
  · obtain ⟨po, -, -, ci, -, -, w, hw, hwid, -⟩ := hD
    exact ⟨w, hw, hwid⟩

theorem goodAcc_unique {T : List LocRow} {loc : Location}
    (hwf : locWF T = true) {a b : CteRow} (ha : GoodAcc T loc a)
    (hb : GoodAcc T loc b) (hs : a.subdivision = b.subdivision)
    (hci : a.city = b.city) (hpo : a.postal = b.postal) :
    a.location_id = b.location_id := by
  obtain ⟨⟨hac, hcsome⟩, hadisj⟩ := ha
  obtain ⟨⟨hbc, -⟩, hbdisj⟩ := hb
  obtain ⟨c, hc⟩ := Option.isSome_iff_exists.mp hcsome
  rcases hadisj with hA | hB | hC | hD
  · obtain ⟨has, haci, hapo, wa, hwa, hwaid, hwac⟩ := hA
    rcases hbdisj with hA' | hB' | hC' | hD'
    · obtain ⟨-, -, -, wb, hwb, hwbid, hwbc⟩ := hA'
      rw [← hwaid, ← hwbid]
      exact wf_uniq_country hwf hwa hwb (hwac.trans hc) (hwbc.trans hc)
    · obtain ⟨s, -, hbs, -⟩ := hB'
      rw [← hs, has] at hbs
      cases hbs
    · obtain ⟨ci, -, hbci, -⟩ := hC'
      rw [← hci, haci] at hbci
      cases hbci
    · obtain ⟨po, -, hbpo, -⟩ := hD'
      rw [← hpo, hapo] at hbpo
      cases hbpo
  · obtain ⟨s, hqs, has, haci, hapo, wa, hwa, hwaid, hwas, pa, hpam, hwapar, hpac⟩ := hB
    rcases hbdisj with hA' | hB' | hC' | hD'
    · obtain ⟨hbs, -⟩ := hA'
      rw [← hs, has] at hbs
      cases hbs
    · obtain ⟨s2, hqs2, hbs, -, -, wb, hwb, hwbid, hwbs, pb, hpbm, hwbpar, hpbc⟩ := hB'
      have hs2 : s2 = s := by
        rw [hqs] at hqs2
        exact (Option.some.injEq _ _).mp hqs2.symm
      subst hs2
      have hpid : pa.location_id = pb.location_id :=
        wf_uniq_country hwf hpam hpbm (hpac.trans hc) (hpbc.trans hc)
      have hpar : wa.parent_id = wb.parent_id := by
        rw [hwapar, hwbpar, hpid]
      rw [← hwaid, ← hwbid]
      exact wf_uniq_sub hwf hwa hwb hpar hwas hwbs
    · obtain ⟨ci, -, hbci, -⟩ := hC'
      rw [← hci, haci] at hbci
      cases hbci
    · obtain ⟨po, -, hbpo, -⟩ := hD'
      rw [← hpo, hapo] at hbpo
      cases hbpo
  · obtain ⟨ci, hqci, haci, hapo, wa, hwa, hwaid, hwaci, pa, hpam, hwapar, hbra⟩ := hC
    rcases hbdisj with hA' | hB' | hC' | hD'
    · obtain ⟨-, hbci, -⟩ := hA'
      rw [← hci, haci] at hbci
      cases hbci
    · obtain ⟨s, -, -, hbci, -⟩ := hB'
      rw [← hci, haci] at hbci
      cases hbci
    · obtain ⟨ci2, hqci2, hbci, -, wb, hwb, hwbid, hwbci, pb, hpbm, hwbpar, hbrb⟩ := hC'
      have hci2 : ci2 = ci := by
        rw [hqci] at hqci2
        exact (Option.some.injEq _ _).mp hqci2.symm
      subst hci2
      have hpid : pa.location_id = pb.location_id := by
        rcases hbra with ⟨hasn, hpac⟩ | ⟨s, hqs, hasv, hpas, ga, hgam, hpapar, hgac⟩
        · rcases hbrb with ⟨-, hpbc⟩ | ⟨s, -, hbsv, -⟩
          · exact wf_uniq_country hwf hpam hpbm (hpac.trans hc) (hpbc.trans hc)
          · rw [← hs, hasn] at hbsv
            cases hbsv
        · rcases hbrb with ⟨hbsn, -⟩ | ⟨s2, hqs2, hbsv, hpbs, gb, hgbm, hpbpar, hgbc⟩
          · rw [← hs, hasv] at hbsn
            cases hbsn
          · have hs2 : s2 = s := by
              rw [hqs] at hqs2
              exact (Option.some.injEq _ _).mp hqs2.symm
            subst hs2
            have hgid : ga.location_id = gb.location_id :=
              wf_uniq_country hwf hgam hgbm (hgac.trans hc) (hgbc.trans hc)
            have hppar : pa.parent_id = pb.parent_id := by
              rw [hpapar, hpbpar, hgid]
            exact wf_uniq_sub hwf hpam hpbm hppar hpas hpbs
      have hpar : wa.parent_id = wb.parent_id := by
        rw [hwapar, hwbpar, hpid]
      rw [← hwaid, ← hwbid]
      exact wf_uniq_city hwf hwa hwb hpar hwaci hwbci
    · obtain ⟨po, -, hbpo, -⟩ := hD'
      rw [← hpo, hapo] at hbpo
      cases hbpo
  · obtain ⟨po, hqpo, hapo, ci, hqci, haci, wa, hwa, hwaid, hwapo, pa, hpam,
      hwapar, hpaci, ppa, hppam, hpapar, hbra⟩ := hD
    rcases hbdisj with hA' | hB' | hC' | hD'
    · obtain ⟨-, -, hbpo, -⟩ := hA'
      rw [← hpo, hapo] at hbpo
      cases hbpo
    · obtain ⟨s, -, -, -, hbpo, -⟩ := hB'
      rw [← hpo, hapo] at hbpo
      cases hbpo
    · obtain ⟨ci2, -, -, hbpo, -⟩ := hC'
      rw [← hpo, hapo] at hbpo
      cases hbpo
    · obtain ⟨po2, hqpo2, hbpo, ci2, hqci2, hbci, wb, hwb, hwbid, hwbpo, pb,
        hpbm, hwbpar, hpbci, ppb, hppbm, hpbpar, hbrb⟩ := hD'
      have hpo2 : po2 = po := by
        rw [hqpo] at hqpo2
        exact (Option.some.injEq _ _).mp hqpo2.symm
      subst hpo2
      have hci2 : ci2 = ci := by
        rw [hqci] at hqci2
        exact (Option.some.injEq _ _).mp hqci2.symm
      subst hci2
      have hppid : ppa.location_id = ppb.location_id := by
        rcases hbra with ⟨hasn, hppac⟩ | ⟨s, hqs, hasv, hppas, ga, hgam, hppapar, hgac⟩
        · rcases hbrb with ⟨-, hppbc⟩ | ⟨s, -, hbsv, -⟩
          · exact wf_uniq_country hwf hppam hppbm (hppac.trans hc) (hppbc.trans hc)
          · rw [← hs, hasn] at hbsv
            cases hbsv
        · rcases hbrb with ⟨hbsn, -⟩ | ⟨s2, hqs2, hbsv, hppbs, gb, hgbm, hppbpar, hgbc⟩
          · rw [← hs, hasv] at hbsn
            cases hbsn
          · have hs2 : s2 = s := by
              rw [hqs] at hqs2
              exact (Option.some.injEq _ _).mp hqs2.symm
            subst hs2
            have hgid : ga.location_id = gb.location_id :=
              wf_uniq_country hwf hgam hgbm (hgac.trans hc) (hgbc.trans hc)
            have hpppar : ppa.parent_id = ppb.parent_id := by
              rw [hppapar, hppbpar, hgid]
            exact wf_uniq_sub hwf hppam hppbm hpppar hppas hppbs
      have hppar : pa.parent_id = pb.parent_id := by
        rw [hpapar, hpbpar, hppid]
      have hpid : pa.location_id = pb.location_id :=
        wf_uniq_city hwf hpam hpbm hppar hpaci hpbci
      have hpar : wa.parent_id = wb.parent_id := by
        rw [hwapar, hwbpar, hpid]
      rw [← hwaid, ← hwbid]
      exact wf_uniq_postal hwf hwa hwb hpar hwapo hwbpo

theorem any_false_mem {α : Type} {l : List α} {p : α → Bool}
    (h : l.any p = false) {x : α} (hx : x ∈ l) : p x = false := by
  cases hpx : p x
  · rfl
  · have h2 : l.any p = true := List.any_eq_true.mpr ⟨x, hx, hpx⟩
    rw [h] at h2
    simp at h2

theorem optBeq_symm (a b : Option Nat) : (a == b) = (b == a) := by
  by_cases h : a = b
  · subst h
    rfl
  · rw [beq_eq_false_iff_ne.mpr h, beq_eq_false_iff_ne.mpr (Ne.symm h)]

theorem sqlEq_symm (a b : Option Nat) : sqlEq a b = sqlEq b a := by
  cases a <;> cases b <;> simp [sqlEq]
  omega

theorem uniqPairOk_of_id {r x : LocRow} (h : r.location_id = x.location_id) :
    uniqPairOk r x = true := by
  simp [uniqPairOk, h]

theorem uniqPairOk_of_keys {r x : LocRow} (hc : sqlEq r.country x.country = false)
    (hsb : (r.parent_id == x.parent_id && sqlEq r.subdivision x.subdivision) = false)
    (hcb : (r.parent_id == x.parent_id && sqlEq r.city x.city) = false)
    (hpb : (r.parent_id == x.parent_id && sqlEq r.postal x.postal) = false) :
    uniqPairOk r x = true := by
  simp [uniqPairOk, hc, hsb, hcb, hpb]

theorem parentKindOk_append {T : List LocRow} {nr : LocRow} {r : LocRow}
    (h : parentKindOk T r = true) : parentKindOk (T ++ [nr]) r = true := by
  unfold parentKindOk at h ⊢
  cases hp : r.parent_id with
  | none => rfl
  | some p =>
    rw [hp] at h
    rw [Bool.and_eq_true] at h ⊢
    refine ⟨h.1, ?_⟩
    have h2 := h.2
    rcases hfind : T.find? (fun x => x.location_id == p) with _ | pr
    · rw [hfind] at h2
      cases h2
    · rw [hfind] at h2
      rw [List.find?_append, hfind]
      exact h2

/-- Appending a fresh, key-disjoint, parent-valid row preserves the
schema invariants. -/
theorem locWF_append {T : List LocRow} (hwf : locWF T = true) {nr : LocRow}
    (hfresh : ∀ r ∈ T, r.location_id ≠ nr.location_id)
    (hkind : rowKindOk nr = true) (hroot : rootOk nr = true)
    (hparent : parentKindOk (T ++ [nr]) nr = true)
    (hunc : ∀ x ∈ T, sqlEq nr.country x.country = false)
    (huns : ∀ x ∈ T,
      (nr.parent_id == x.parent_id && sqlEq nr.subdivision x.subdivision) = false)
    (hunci : ∀ x ∈ T,
      (nr.parent_id == x.parent_id && sqlEq nr.city x.city) = false)
    (hunpo : ∀ x ∈ T,
      (nr.parent_id == x.parent_id && sqlEq nr.postal x.postal) = false) :
    locWF (T ++ [nr]) = true := by
  have hnodup : ((T ++ [nr]).map (fun r => r.location_id)).Nodup := by
    rw [List.map_append]
    refine List.Nodup.append (locWF_nodup hwf) (List.nodup_singleton _) ?_
    intro x hx hx'
    simp only [List.map_cons, List.map_nil, List.mem_singleton] at hx'
    simp only [List.mem_map] at hx
    obtain ⟨r, hr, hrid⟩ := hx
    exact hfresh r hr (hrid ▸ hx')
  simp only [locWF, Bool.and_eq_true, List.all_eq_true, decide_eq_true_eq]
  refine ⟨⟨⟨⟨hnodup, ?_⟩, ?_⟩, ?_⟩, ?_⟩
  · intro r hr
    rcases List.mem_append.mp hr with h | h
    · exact locWF_kind hwf h
    · rw [List.mem_singleton.mp h]
      exact hkind
  · intro r hr
    rcases List.mem_append.mp hr with h | h
    · exact locWF_root hwf h
    · rw [List.mem_singleton.mp h]
      exact hroot
  · intro r hr
    rcases List.mem_append.mp hr with h | h
    · exact parentKindOk_append (locWF_parent hwf h)
    · rw [List.mem_singleton.mp h]
      exact hparent
  · intro r hr x hx
    rcases List.mem_append.mp hr with h | h
    · rcases List.mem_append.mp hx with h' | h'
      · exact locWF_uniq hwf h h'
      · rw [List.mem_singleton.mp h']
        refine uniqPairOk_of_keys ?_ ?_ ?_ ?_
        · rw [sqlEq_symm]
          exact hunc r h
        · rw [optBeq_symm, sqlEq_symm]
          exact huns r h
        · rw [optBeq_symm, sqlEq_symm]
          exact hunci r h
        · rw [optBeq_symm, sqlEq_symm]
          exact hunpo r h
    · rw [List.mem_singleton.mp h]
      rcases List.mem_append.mp hx with h' | h'
      · exact uniqPairOk_of_keys (hunc x h') (huns x h') (hunci x h') (hunpo x h')
      · rw [List.mem_singleton.mp h']
        exact uniqPairOk_of_id rfl

theorem insertCountry_ok {T : List LocRow} {c i : Nat} {T' : List LocRow}
    (h : insertCountry T c = .ok (i, T')) :
    (∀ x ∈ T, sqlEq x.country (some c) = false) ∧ i = freshLocId T ∧
      T' = T ++ [⟨freshLocId T, none, some c, none, none, none⟩] := by
  unfold insertCountry at h
  cases hany : T.any (fun r => sqlEq r.country (some c)) with
  | true =>
    rw [hany] at h
    simp at h
  | false =>
    rw [hany] at h
    simp only [Bool.false_eq_true, if_false, Except.ok.injEq, Prod.mk.injEq] at h
    exact ⟨fun x hx => any_false_mem hany hx, h.1.symm, h.2.symm⟩

theorem insertCountry_wf {T : List LocRow} {c i : Nat} {T' : List LocRow}
    (hwf : locWF T = true) (h : insertCountry T c = .ok (i, T')) :
    locWF T' = true := by
  obtain ⟨hnone, hi, hT⟩ := insertCountry_ok h
  subst hT
  refine locWF_append hwf ?_ rfl rfl rfl ?_ ?_ ?_ ?_
  · intro r hr
    exact Nat.ne_of_lt (freshLocId_gt hr)
  · intro x hx
    rw [sqlEq_symm]
    exact hnone x hx
  · intro x hx
    simp [sqlEq]
  · intro x hx
    simp [sqlEq]
  · intro x hx
    simp [sqlEq]

theorem insertSubdivision_ok {T : List LocRow} {parent : Option Nat} {s i : Nat}
    {T' : List LocRow} (h : insertSubdivision T parent s = .ok (i, T')) :
    ∃ p pr, parent = some p ∧ pr ∈ T ∧
      T.find? (fun x => x.location_id == p) = some pr ∧ pr.location_id = p ∧
      pr.country.isSome = true ∧
      (∀ x ∈ T, (x.parent_id == some p && sqlEq x.subdivision (some s)) = false) ∧
      i = freshLocId T ∧
      T' = T ++ [⟨freshLocId T, some p, none, some s, none, none⟩] := by
  rcases parent with _ | p
  · simp [insertSubdivision] at h
  · simp only [insertSubdivision] at h
    rcases hfind : T.find? (fun x => x.location_id == p) with _ | pr
    · rw [hfind] at h
      simp at h
    · rw [hfind] at h
      simp only [] at h
      cases hc : pr.country.isSome with
      | false =>
        rw [hc] at h
        simp at h
      | true =>
        rw [hc] at h
        cases hany : T.any (fun x => x.parent_id == some p && sqlEq x.subdivision (some s)) with
        | true =>
          rw [hany] at h
          simp at h
        | false =>
          rw [hany] at h
          simp only [Bool.not_true, Bool.false_eq_true, if_false,
            Except.ok.injEq, Prod.mk.injEq] at h
          have hmem : pr ∈ T := List.mem_of_find?_eq_some hfind
          have hid : pr.location_id = p := by
            have := List.find?_some hfind
            simpa using this
          exact ⟨p, pr, rfl, hmem, hfind, hid, hc,
            fun x hx => any_false_mem hany hx, h.1.symm, h.2.symm⟩

theorem insertSubdivision_wf {T : List LocRow} {parent : Option Nat} {s i : Nat}
    {T' : List LocRow} (hwf : locWF T = true)
    (h : insertSubdivision T parent s = .ok (i, T')) : locWF T' = true := by
  obtain ⟨p, pr, hpar, hmem, hfind, hid, hc, hnodup2, hi, hT⟩ := insertSubdivision_ok h
  subst hT
  have hne : p ≠ freshLocId T := hid ▸ Nat.ne_of_lt (freshLocId_gt hmem)
  refine locWF_append hwf ?_ rfl rfl ?_ ?_ ?_ ?_ ?_
  · intro r hr
    exact Nat.ne_of_lt (freshLocId_gt hr)
  · show parentKindOk _ _ = true
    unfold parentKindOk
    simp only [List.find?_append, hfind]
    rw [Bool.and_eq_true]
    constructor
    · simp [hne]
    · simp [hc]
  · intro x hx
    simp [sqlEq]
  · intro x hx
    rw [optBeq_symm, sqlEq_symm]
    exact hnodup2 x hx
  · intro x hx
    simp [sqlEq]
  · intro x hx
    simp [sqlEq]

theorem insertCity_ok {T : List LocRow} {parent : Option Nat} {ci i : Nat}
    {T' : List LocRow} (h : insertCity T parent ci = .ok (i, T')) :
    ∃ p pr, parent = some p ∧ pr ∈ T ∧
      T.find? (fun x => x.location_id == p) = some pr ∧ pr.location_id = p ∧
      (pr.country.isSome || pr.subdivision.isSome) = true ∧
      (∀ x ∈ T, (x.parent_id == some p && sqlEq x.city (some ci)) = false) ∧
      i = freshLocId T ∧
      T' = T ++ [⟨freshLocId T, some p, none, none, some ci, none⟩] := by
  rcases parent with _ | p
  · simp [insertCity] at h
  · simp only [insertCity] at h
    rcases hfind : T.find? (fun x => x.location_id == p) with _ | pr
    · rw [hfind] at h
      simp at h
    · rw [hfind] at h
      simp only [] at h
      cases hc : pr.country.isSome || pr.subdivision.isSome with
      | false =>
        rw [hc] at h
        simp at h
      | true =>
        rw [hc] at h
        cases hany : T.any (fun x => x.parent_id == some p && sqlEq x.city (some ci)) with
        | true =>
          rw [hany] at h
          simp at h
        | false =>
          rw [hany] at h
          simp only [Bool.not_true, Bool.false_eq_true, if_false,
            Except.ok.injEq, Prod.mk.injEq] at h
          have hmem : pr ∈ T := List.mem_of_find?_eq_some hfind
          have hid : pr.location_id = p := by
            have := List.find?_some hfind
            simpa using this
          exact ⟨p, pr, rfl, hmem, hfind, hid, hc,
            fun x hx => any_false_mem hany hx, h.1.symm, h.2.symm⟩

theorem insertCity_wf {T : List LocRow} {parent : Option Nat} {ci i : Nat}
    {T' : List LocRow} (hwf : locWF T = true)
    (h : insertCity T parent ci = .ok (i, T')) : locWF T' = true := by
  obtain ⟨p, pr, hpar, hmem, hfind, hid, hc, hnodup2, hi, hT⟩ := insertCity_ok h
  subst hT
  have hne : p ≠ freshLocId T := hid ▸ Nat.ne_of_lt (freshLocId_gt hmem)
  refine locWF_append hwf ?_ rfl rfl ?_ ?_ ?_ ?_ ?_
  · intro r hr
    exact Nat.ne_of_lt (freshLocId_gt hr)
  · show parentKindOk _ _ = true
    unfold parentKindOk
    simp only [List.find?_append, hfind]
    rw [Bool.and_eq_true]
    constructor
    · simp [hne]
    · simp [hc]
  · intro x hx
    simp [sqlEq]
  · intro x hx
    simp [sqlEq]
  · intro x hx
    rw [optBeq_symm, sqlEq_symm]
    exact hnodup2 x hx
  · intro x hx
    simp [sqlEq]

theorem insertPostal_ok {T : List LocRow} {parent : Option Nat} {po i : Nat}
    {T' : List LocRow} (h : insertPostal T parent po = .ok (i, T')) :
    ∃ p pr, parent = some p ∧ pr ∈ T ∧
      T.find? (fun x => x.location_id == p) = some pr ∧ pr.location_id = p ∧
      pr.city.isSome = true ∧
      (∀ x ∈ T, (x.parent_id == some p && sqlEq x.postal (some po)) = false) ∧
      i = freshLocId T ∧
      T' = T ++ [⟨freshLocId T, some p, none, none, none, some po⟩] := by
  rcases parent with _ | p
  · simp [insertPostal] at h
  · simp only [insertPostal] at h
    rcases hfind : T.find? (fun x => x.location_id == p) with _ | pr
    · rw [hfind] at h
      simp at h
    · rw [hfind] at h
      simp only [] at h
      cases hc : pr.city.isSome with
      | false =>
        rw [hc] at h
        simp at h
      | true =>
        rw [hc] at h
        cases hany : T.any (fun x => x.parent_id == some p && sqlEq x.postal (some po)) with
        | true =>
          rw [hany] at h
          simp at h
        | false =>
          rw [hany] at h
          simp only [Bool.not_true, Bool.false_eq_true, if_false,
            Except.ok.injEq, Prod.mk.injEq] at h
          have hmem : pr ∈ T := List.mem_of_find?_eq_some hfind
          have hid : pr.location_id = p := by
            have := List.find?_some hfind
            simpa using this
          exact ⟨p, pr, rfl, hmem, hfind, hid, hc,
            fun x hx => any_false_mem hany hx, h.1.symm, h.2.symm⟩

theorem insertPostal_wf {T : List LocRow} {parent : Option Nat} {po i : Nat}
    {T' : List LocRow} (hwf : locWF T = true)
    (h : insertPostal T parent po = .ok (i, T')) : locWF T' = true := by
  obtain ⟨p, pr, hpar, hmem, hfind, hid, hc, hnodup2, hi, hT⟩ := insertPostal_ok h
  subst hT
  have hne : p ≠ freshLocId T := hid ▸ Nat.ne_of_lt (freshLocId_gt hmem)
  refine locWF_append hwf ?_ rfl rfl ?_ ?_ ?_ ?_ ?_
  · intro r hr
    exact Nat.ne_of_lt (freshLocId_gt hr)
  · show parentKindOk _ _ = true
    unfold parentKindOk
    simp only [List.find?_append, hfind]
    rw [Bool.and_eq_true]
    constructor
    · simp [hne]
    · simp [hc]
  · intro x hx
    simp [sqlEq]
  · intro x hx
    simp [sqlEq]
  · intro x hx
    simp [sqlEq]
  · intro x hx
    rw [optBeq_symm, sqlEq_symm]
    exact hnodup2 x hx

theorem cteLevel_base {T : List LocRow} {loc : Location} {r : LocRow}
    (hr : r ∈ T) (hc : sqlEq r.country loc.country = true) :
    baseAccum r ∈ cteLevel T loc 0 := by
  simp only [cteLevel, List.mem_map]
  exact ⟨r, List.mem_filter.mpr ⟨hr, hc⟩, rfl⟩

theorem cteLevel_step {T : List LocRow} {loc : Location} {l : CteRow} {n : Nat}
    (hl : l ∈ cteLevel T loc n) {r : LocRow} (hr : r ∈ T)
    (hp : r.parent_id = some l.location_id) (hok : stepOk loc r l = true) :
    stepAccum r l ∈ cteLevel T loc (n + 1) := by
  simp only [cteLevel, List.mem_bind]
  refine ⟨l, hl, ?_⟩
  simp only [cteChildren, List.mem_map]
  refine ⟨r, List.mem_filter.mpr ⟨hr, ?_⟩, rfl⟩
  rw [Bool.and_eq_true]
  exact ⟨by simp [hp], hok⟩

theorem countryPhase_ok {T : List LocRow} {loc : Location} {c : Nat}
    (hwf : locWF T = true) (hqc : loc.country = some c)
    {found : Option CteRow} (hfound : pickBest (cteAll T loc) = found)
    {st1 : Option Nat × List LocRow}
    (h : countryPhase found c T = .ok st1) :
    locWF st1.2 = true ∧
    ∃ a n, st1.1 = some a.location_id ∧ a ∈ cteLevel st1.2 loc n ∧
      n < st1.2.length + 4 ∧ a.country = loc.country ∧
      a.subdivision = scanSub found ∧ a.city = scanCity found ∧
      a.postal = scanPostal found := by
  unfold countryPhase at h
  by_cases hcond : scanCountry found = some c
  · rw [if_pos hcond] at h
    rcases found with _ | a0
    · simp [scanCountry] at hcond
    · injection h with h
      subst h
      obtain ⟨n, hn, hlev⟩ := cteAll_level_exists (pickBest_mem hfound)
      exact ⟨hwf, a0, n, rfl, hlev, hn, hcond.trans hqc.symm, rfl, rfl, rfl⟩
  · rw [if_neg hcond] at h
    rcases hins : insertCountry T c with e | p2
    · rw [hins] at h
      cases h
    · obtain ⟨i, T'⟩ := p2
      rw [hins] at h
      simp only [] at h
      injection h with h
      subst h
      obtain ⟨hnone, hi, hT⟩ := insertCountry_ok hins
      have hfnone : found = none := by
        rcases found with _ | a0
        · rfl
        · have hg := goodAcc_of_reach hwf
            (reach_of_mem_cteAll (pickBest_mem hfound))
          exact absurd (by simp [scanCountry, hg.1.1, hqc]) hcond
      subst hfnone
      subst hT
      subst hi
      refine ⟨insertCountry_wf hwf hins,
        baseAccum ⟨freshLocId T, none, some c, none, none, none⟩, 0, rfl, ?_,
        by simp, hqc.symm, rfl, rfl, rfl⟩
      exact cteLevel_base (List.mem_append_right _ (List.mem_singleton_self _))
        (by rw [hqc]; exact sqlEq_refl_some c)

theorem childPhaseSub_ok {loc : Location} {st : Option Nat × List LocRow}
    (hpre : locWF st.2 = true) {a : CteRow} {n : Nat}
    (hid : st.1 = some a.location_id) (hlev : a ∈ cteLevel st.2 loc n)
    (hn : n < st.2.length + 4) (hac : a.country = loc.country)
    {fsub : Option Nat} (hasub : a.subdivision = fsub)
    {st2 : Option Nat × List LocRow}
    (h : childPhase insertSubdivision fsub loc.subdivision st = .ok st2) :
    locWF st2.2 = true ∧
    ∃ a2 n2, st2.1 = some a2.location_id ∧ a2 ∈ cteLevel st2.2 loc n2 ∧
      n2 < st2.2.length + 4 ∧ a2.country = loc.country ∧
      (loc.subdivision.isSome → a2.subdivision = loc.subdivision) ∧
      (loc.subdivision = none → a2.subdivision = fsub) ∧
      a2.city = a.city ∧ a2.postal = a.postal := by
  unfold childPhase at h
  rcases hqs : loc.subdivision with _ | s
  · rw [hqs] at h
    injection h with h
    subst h
    refine ⟨hpre, a, n, hid, hlev, hn, hac, ?_, fun _ => hasub, rfl, rfl⟩
    intro hs
    simp at hs
  · rw [hqs] at h
    simp only [] at h
    by_cases hcond : fsub = some s
    · rw [if_pos hcond] at h
      injection h with h
      subst h
      refine ⟨hpre, a, n, hid, hlev, hn, hac, ?_, ?_, rfl, rfl⟩
      · intro _
        rw [hasub, hcond]
      · intro h'
        exact Option.noConfusion h'
    · rw [if_neg hcond] at h
      rcases hins : insertSubdivision st.2 st.1 s with e | p2
      · rw [hins] at h
        cases h
      · obtain ⟨i, T2⟩ := p2
        rw [hins] at h
        simp only [] at h
        injection h with h
        subst h
        obtain ⟨p, pr, hpar, hmem, hfind, hprid, hprc, hnodup2, hi, hT⟩ :=
          insertSubdivision_ok hins
        have hpa : p = a.location_id := by
          rw [hid] at hpar
          exact (Option.some.injEq _ _).mp hpar.symm
        subst hpa
        subst hT
        subst hi
        set nr : LocRow :=
          ⟨freshLocId st.2, some a.location_id, none, some s, none, none⟩ with hnr
        have hstep : stepOk loc nr a = true := by
          simp [stepOk, hqs, sqlEq, hnr]
        have hlev2 : stepAccum nr a ∈ cteLevel (st.2 ++ [nr]) loc (n + 1) :=
          cteLevel_step (cteLevel_append hlev)
            (List.mem_append_right _ (List.mem_singleton_self _)) rfl hstep
        refine ⟨insertSubdivision_wf hpre hins, stepAccum nr a, n + 1, rfl,
          hlev2, ?_, ?_, ?_, ?_, rfl, rfl⟩
        · simp only [List.length_append, List.length_singleton]
          omega
        · show sqlCoalesce nr.country a.country = loc.country
          rw [hnr]
          exact hac
        · intro _
          show sqlCoalesce nr.subdivision a.subdivision = some s
          rw [hnr]
          rfl
        · intro h'
          exact Option.noConfusion h'

theorem childPhaseCity_ok {loc : Location} {st : Option Nat × List LocRow}
    (hpre : locWF st.2 = true) {a : CteRow} {n : Nat}
    (hid : st.1 = some a.location_id) (hlev : a ∈ cteLevel st.2 loc n)
    (hn : n < st.2.length + 4) (hac : a.country = loc.country)
    {fcity : Option Nat} (hacity : a.city = fcity)
    {st2 : Option Nat × List LocRow}
    (h : childPhase insertCity fcity loc.city st = .ok st2) :
    locWF st2.2 = true ∧
    ∃ a2 n2, st2.1 = some a2.location_id ∧ a2 ∈ cteLevel st2.2 loc n2 ∧
      n2 < st2.2.length + 4 ∧ a2.country = loc.country ∧
      (loc.city.isSome → a2.city = loc.city) ∧
      (loc.city = none → a2.city = fcity) ∧
      a2.subdivision = a.subdivision ∧ a2.postal = a.postal := by
  unfold childPhase at h
  rcases hqci : loc.city with _ | ci
  · rw [hqci] at h
    injection h with h
    subst h
    refine ⟨hpre, a, n, hid, hlev, hn, hac, ?_, fun _ => hacity, rfl, rfl⟩
    intro hs
    simp at hs
  · rw [hqci] at h
    simp only [] at h
    by_cases hcond : fcity = some ci
    · rw [if_pos hcond] at h
      injection h with h
      subst h
      refine ⟨hpre, a, n, hid, hlev, hn, hac, ?_, ?_, rfl, rfl⟩
      · intro _
        rw [hacity, hcond]
      · intro h'
        exact Option.noConfusion h'
    · rw [if_neg hcond] at h
      rcases hins : insertCity st.2 st.1 ci with e | p2
      · rw [hins] at h
        cases h
      · obtain ⟨i, T2⟩ := p2
        rw [hins] at h
        simp only [] at h
        injection h with h
        subst h
        obtain ⟨p, pr, hpar, hmem, hfind, hprid, hprc, hnodup2, hi, hT⟩ :=
          insertCity_ok hins
        have hpa : p = a.location_id := by
          rw [hid] at hpar
          exact (Option.some.injEq _ _).mp hpar.symm
        subst hpa
        subst hT
        subst hi
        set nr : LocRow :=
          ⟨freshLocId st.2, some a.location_id, none, none, some ci, none⟩ with hnr
        have hstep : stepOk loc nr a = true := by
          simp [stepOk, hqci, sqlEq, hnr]
        have hlev2 : stepAccum nr a ∈ cteLevel (st.2 ++ [nr]) loc (n + 1) :=
          cteLevel_step (cteLevel_append hlev)
            (List.mem_append_right _ (List.mem_singleton_self _)) rfl hstep
        refine ⟨insertCity_wf hpre hins, stepAccum nr a, n + 1, rfl,
          hlev2, ?_, ?_, ?_, ?_, ?_, ?_⟩
        · simp only [List.length_append, List.length_singleton]
          omega
        · show sqlCoalesce nr.country a.country = loc.country
          rw [hnr]
          exact hac
        · intro _
          show sqlCoalesce nr.city a.city = some ci
          rw [hnr]
          rfl
        · intro h'
          exact Option.noConfusion h'
        · show sqlCoalesce nr.subdivision a.subdivision = a.subdivision
          rw [hnr]
          rfl
        · show sqlCoalesce nr.postal a.postal = a.postal
          rw [hnr]
          rfl

theorem childPhasePostal_ok {loc : Location} {st : Option Nat × List LocRow}
    (hpre : locWF st.2 = true) {a : CteRow} {n : Nat}
    (hid : st.1 = some a.location_id) (hlev : a ∈ cteLevel st.2 loc n)
    (hn : n < st.2.length + 4) (hac : a.country = loc.country)
    {fpostal : Option Nat} (hapostal : a.postal = fpostal)
    {st2 : Option Nat × List LocRow}
    (h : childPhase insertPostal fpostal loc.postal st = .ok st2) :
    locWF st2.2 = true ∧
    ∃ a2 n2, st2.1 = some a2.location_id ∧ a2 ∈ cteLevel st2.2 loc n2 ∧
      n2 < st2.2.length + 4 ∧ a2.country = loc.country ∧
      (loc.postal.isSome → a2.postal = loc.postal) ∧
      (loc.postal = none → a2.postal = fpostal) ∧
      a2.subdivision = a.subdivision ∧ a2.city = a.city := by
  unfold childPhase at h
  rcases hqpo : loc.postal with _ | po
  · rw [hqpo] at h
    injection h with h
    subst h
    refine ⟨hpre, a, n, hid, hlev, hn, hac, ?_, fun _ => hapostal, rfl, rfl⟩
    intro hs
    simp at hs
  · rw [hqpo] at h
    simp only [] at h
    by_cases hcond : fpostal = some po
    · rw [if_pos hcond] at h
      injection h with h
      subst h
      refine ⟨hpre, a, n, hid, hlev, hn, hac, ?_, ?_, rfl, rfl⟩
      · intro _
        rw [hapostal, hcond]
      · intro h'
        exact Option.noConfusion h'
    · rw [if_neg hcond] at h
      rcases hins : insertPostal st.2 st.1 po with e | p2
      · rw [hins] at h
        cases h
      · obtain ⟨i, T2⟩ := p2
        rw [hins] at h
        simp only [] at h
        injection h with h
        subst h
        obtain ⟨p, pr, hpar, hmem, hfind, hprid, hprc, hnodup2, hi, hT⟩ :=
          insertPostal_ok hins
        have hpa : p = a.location_id := by
          rw [hid] at hpar
          exact (Option.some.injEq _ _).mp hpar.symm
        subst hpa
        subst hT
        subst hi
        set nr : LocRow :=
          ⟨freshLocId st.2, some a.location_id, none, none, none, some po⟩ with hnr
        have hstep : stepOk loc nr a = true := by
          simp [stepOk, hqpo, sqlEq, hnr]
        have hlev2 : stepAccum nr a ∈ cteLevel (st.2 ++ [nr]) loc (n + 1) :=
          cteLevel_step (cteLevel_append hlev)
            (List.mem_append_right _ (List.mem_singleton_self _)) rfl hstep
        refine ⟨insertPostal_wf hpre hins, stepAccum nr a, n + 1, rfl,
          hlev2, ?_, ?_, ?_, ?_, ?_, ?_⟩
        · simp only [List.length_append, List.length_singleton]
          omega
        · show sqlCoalesce nr.country a.country = loc.country
          rw [hnr]
          exact hac
        · intro _
          show sqlCoalesce nr.postal a.postal = some po
          rw [hnr]
          rfl
        · intro h'
          exact Option.noConfusion h'
        · show sqlCoalesce nr.subdivision a.subdivision = a.subdivision
          rw [hnr]
          rfl
        · show sqlCoalesce nr.city a.city = a.city
          rw [hnr]
          rfl

theorem pickBest_none {l : List CteRow} (h : pickBest l = none) : l = [] := by
  cases l with
  | nil => rfl
  | cons x xs => simp [pickBest] at h

theorem dbInsertLocation_exact {T1 : List LocRow} {loc : Location} {c : Nat}
    (hwf : locWF T1 = true) (hqc : loc.country = some c) {af : CteRow}
    (hmem : af ∈ cteAll T1 loc) (hafc : af.country = loc.country)
    (hafs : af.subdivision = loc.subdivision) (hafci : af.city = loc.city)
    (hafpo : af.postal = loc.postal) :
    dbInsertLocation T1 loc = .ok (some af.location_id, T1) := by
  rcases hpb : pickBest (cteAll T1 loc) with _ | b
  · rw [pickBest_none hpb] at hmem
    cases hmem
  · have hb := pickBest_mem hpb
    have hGb := goodAcc_of_reach hwf (reach_of_mem_cteAll hb)
    have hGa := goodAcc_of_reach hwf (reach_of_mem_cteAll hmem)
    have hmin := pickBest_min hpb af hmem
    have hbc : b.country = loc.country := hGb.1.1
    have hceq : af.country = b.country := hafc.trans hbc.symm
    obtain ⟨hbs, hbci, hbpo⟩ := goodAcc_pattern hGb
    have hseq : af.subdivision = b.subdivision := by
      rcases hqs : loc.subdivision with _ | s
      · rcases hbs with h' | h'
        · rw [hafs, hqs, h']
        · rw [hafs, hqs, h', hqs]
      · rcases hbs with h' | h'
        · exfalso
          have hlt : cteRowLt af b = true := by
            rw [cteRowLt_iff]
            refine Or.inr ⟨hceq, Or.inl ?_⟩
            rw [hafs, hqs, h']
            rfl
          rw [hmin] at hlt
          cases hlt
        · rw [hafs, h']
    have hcieq : af.city = b.city := by
      rcases hqci : loc.city with _ | ci
      · rcases hbci with h' | h'
        · rw [hafci, hqci, h']
        · rw [hafci, hqci, h', hqci]
      · rcases hbci with h' | h'
        · exfalso
          have hlt : cteRowLt af b = true := by
            rw [cteRowLt_iff]
            refine Or.inr ⟨hceq, Or.inr ⟨hseq, Or.inl ?_⟩⟩
            rw [hafci, hqci, h']
            rfl
          rw [hmin] at hlt
          cases hlt
        · rw [hafci, h']
    have hpoeq : af.postal = b.postal := by
      rcases hqpo : loc.postal with _ | po
      · rcases hbpo with h' | h'
        · rw [hafpo, hqpo, h']
        · rw [hafpo, hqpo, h', hqpo]
      · rcases hbpo with h' | h'
        · exfalso
          have hlt : cteRowLt af b = true := by
            rw [cteRowLt_iff]
            refine Or.inr ⟨hceq, Or.inr ⟨hseq, Or.inr ⟨hcieq, ?_⟩⟩⟩
            rw [hafpo, hqpo, h']
            rfl
          rw [hmin] at hlt
          cases hlt
        · rw [hafpo, h']
    have hids : af.location_id = b.location_id :=
      goodAcc_unique hwf hGa hGb hseq hcieq hpoeq
    unfold dbInsertLocation
    rw [hqc]
    simp only []
    rw [hpb]
    have hcondtrue : (scanCountry (some b) = some c ∧
        scanSub (some b) = loc.subdivision ∧ scanCity (some b) = loc.city ∧
        scanPostal (some b) = loc.postal) := by
      refine ⟨?_, ?_, ?_, ?_⟩
      · show b.country = some c
        rw [hbc, hqc]
      · show b.subdivision = loc.subdivision
        rw [← hseq, hafs]
      · show b.city = loc.city
        rw [← hcieq, hafci]
      · show b.postal = loc.postal
        rw [← hpoeq, hafpo]
    rw [if_pos hcondtrue]
    simp only []
    rw [hids]

/-- C3: location get-or-insert is idempotent.  Over a table satisfying the
schema invariants, if `dbInsertLocation` succeeds and returns id `i` and
table `T1`, then calling it again with the same tuple returns the same id
`i` and leaves the table unchanged (no second insert). -/
theorem c3_location_idempotent (T T1 : List LocRow) (loc : Location) (i : Nat)
    (hwf : locWF T = true) (hok : dbInsertLocation T loc = .ok (some i, T1)) :
    dbInsertLocation T1 loc = .ok (some i, T1) := by
  have hok0 := hok
  rcases hqc : loc.country with _ | c
  · unfold dbInsertLocation at hok
    rw [hqc] at hok
    simp only [] at hok
    injection hok with hok
    have := congrArg Prod.fst hok
    simp at this
  · unfold dbInsertLocation at hok
    rw [hqc] at hok
    simp only [] at hok
    by_cases hex : scanCountry (pickBest (cteAll T loc)) = some c ∧
        scanSub (pickBest (cteAll T loc)) = loc.subdivision ∧
        scanCity (pickBest (cteAll T loc)) = loc.city ∧
        scanPostal (pickBest (cteAll T loc)) = loc.postal
    · rw [if_pos hex] at hok
      rcases hpb : pickBest (cteAll T loc) with _ | a0
      · rw [hpb] at hok
        cases hok
      · rw [hpb] at hok
        simp only [] at hok
        injection hok with hok
        have hT1 : T = T1 := congrArg Prod.snd hok
        rw [← hT1]
        rw [← hT1] at hok0
        exact hok0
    · rw [if_neg hex] at hok
      rcases hp1 : countryPhase (pickBest (cteAll T loc)) c T with e | st1
      · rw [hp1] at hok
        cases hok
      · rw [hp1] at hok
        simp only [] at hok
        obtain ⟨hwf1, a1, n1, hid1, hlev1, hn1, hac1, hs1, hci1, hpo1⟩ :=
          countryPhase_ok hwf hqc rfl hp1
        rcases hp2 : childPhase insertSubdivision
            (scanSub (pickBest (cteAll T loc))) loc.subdivision st1 with e | st2
        · rw [hp2] at hok
          cases hok
        · rw [hp2] at hok
          simp only [] at hok
          obtain ⟨hwf2, a2, n2, hid2, hlev2, hn2, hac2, hs2some, hs2none,
            hci2, hpo2⟩ := childPhaseSub_ok hwf1 hid1 hlev1 hn1 hac1 hs1 hp2
          rcases hp3 : childPhase insertCity
              (scanCity (pickBest (cteAll T loc))) loc.city st2 with e | st3
          · rw [hp3] at hok
            cases hok
          · rw [hp3] at hok
            simp only [] at hok
            obtain ⟨hwf3, a3, n3, hid3, hlev3, hn3, hac3, hci3some, hci3none,
              hs3, hpo3⟩ := childPhaseCity_ok hwf2 hid2 hlev2 hn2 hac2
                (hci2.trans hci1) hp3
            rcases hp4 : childPhase insertPostal
                (scanPostal (pickBest (cteAll T loc))) loc.postal st3 with e | st4
            · rw [hp4] at hok
              cases hok
            · rw [hp4] at hok
              simp only [] at hok
              obtain ⟨hwf4, a4, n4, hid4, hlev4, hn4, hac4, hpo4some, hpo4none,
                hs4, hci4⟩ := childPhasePostal_ok hwf3 hid3 hlev3 hn3 hac3
                  (hpo3.trans (hpo2.trans hpo1)) hp4
              rw [hid4] at hok
              simp only [] at hok
              injection hok with hok
              have hi : a4.location_id = i := by
                have := congrArg Prod.fst hok
                simpa using this
              have hT1 : st4.2 = T1 := congrArg Prod.snd hok
              have hscan : ∀ g : Option Nat,
                  (∀ a0, pickBest (cteAll T loc) = some a0 →
                    GoodAcc T loc a0 → True) → True := fun _ _ => trivial
              have hGfound : ∀ a0, pickBest (cteAll T loc) = some a0 →
                  GoodAcc T loc a0 := fun a0 hpb =>
                goodAcc_of_reach hwf (reach_of_mem_cteAll (pickBest_mem hpb))
              have hsub4 : a4.subdivision = loc.subdivision := by
                rcases hqs : loc.subdivision with _ | s
                · rw [hs4, hs3, hs2none hqs]
                  rcases hpb : pickBest (cteAll T loc) with _ | a0
                  · rfl
                  · have hp := (goodAcc_pattern (hGfound a0 hpb)).1
                    rcases hp with h' | h'
                    · exact h'
                    · show a0.subdivision = none
                      rw [h']
                      exact hqs
                · rw [hs4, hs3]
                  rw [hqs] at hs2some
                  exact hs2some rfl
              have hcity4 : a4.city = loc.city := by
                rcases hqci : loc.city with _ | ci
                · rw [hci4, hci3none hqci]
                  rcases hpb : pickBest (cteAll T loc) with _ | a0
                  · rfl
                  · have hp := (goodAcc_pattern (hGfound a0 hpb)).2.1
                    rcases hp with h' | h'
                    · exact h'
                    · show a0.city = none
                      rw [h']
                      exact hqci
                · rw [hci4]
                  rw [hqci] at hci3some
                  exact hci3some rfl
              have hpostal4 : a4.postal = loc.postal := by
                rcases hqpo : loc.postal with _ | po
                · rw [hpo4none hqpo]
                  rcases hpb : pickBest (cteAll T loc) with _ | a0
                  · rfl
                  · have hp := (goodAcc_pattern (hGfound a0 hpb)).2.2
                    rcases hp with h' | h'
                    · exact h'
                    · show a0.postal = none
                      rw [h']
                      exact hqpo
                · rw [hqpo] at hpo4some
                  exact hpo4some rfl
              have hmem4 : a4 ∈ cteAll T1 loc := by
                rw [← hT1]
                exact mem_cteAll_of_level hlev4 hn4
              rw [← hi]
              rw [← hT1] at *
              exact dbInsertLocation_exact hwf4 hqc hmem4 hac4 hsub4
                hcity4 hpostal4

/-- Witness for C3: inserting (1,2,3,4) into the empty table creates the
four-level chain with ids 1-4; re-inserting returns id 4 again and leaves
the table unchanged. -/
theorem c3_witness :
    dbInsertLocation
      [⟨1, none, some 1, none, none, none⟩,
       ⟨2, some 1, none, some 2, none, none⟩,
       ⟨3, some 2, none, none, some 3, none⟩,
       ⟨4, some 3, none, none, none, some 4⟩]
      ⟨some 1, some 2, some 3, some 4⟩ =
      .ok (some 4,
        [⟨1, none, some 1, none, none, none⟩,
         ⟨2, some 1, none, some 2, none, none⟩,
         ⟨3, some 2, none, none, some 3, none⟩,
         ⟨4, some 3, none, none, none, some 4⟩]) :=
  c3_location_idempotent []
    [⟨1, none, some 1, none, none, none⟩,
     ⟨2, some 1, none, some 2, none, none⟩,
     ⟨3, some 2, none, none, some 3, none⟩,
     ⟨4, some 3, none, none, none, some 4⟩]
    ⟨some 1, some 2, some 3, some 4⟩ 4 (by decide) (by rfl)

/-- C4 counterexample: with a well-formed table holding the country node
(code 10, id 1) and a city node (code 30, id 2) directly under it,
requesting (10, 20, 30, 40) makes the best-match CTE return the deeper
city node; the subdivision insert then targets the city node as parent
and the schema rejects it, so `dbInsertLocation` errors instead of
inserting one row per missing level. -/
theorem c4_counterexample :
    locWF [⟨1, none, some 10, none, none, none⟩,
           ⟨2, some 1, none, none, some 30, none⟩] = true ∧
    dbInsertLocation
      [⟨1, none, some 10, none, none, none⟩,
       ⟨2, some 1, none, none, some 30, none⟩]
      ⟨some 10, some 20, some 30, some 40⟩ = .error DbErr.constraintViolation :=
  ⟨by decide, by rfl⟩

theorem nodup_all_eq_singleton {α : Type} {l : List α} (hnd : l.Nodup) {a : α}
    (ha : a ∈ l) (hall : ∀ x ∈ l, x = a) : l = [a] := by
  cases l with
  | nil => cases ha
  | cons x xs =>
    have hx : x = a := hall x (List.mem_cons_self x xs)
    subst hx
    cases xs with
    | nil => rfl
    | cons y ys =>
      have hy : y = x := hall y (by simp)
      rw [List.nodup_cons] at hnd
      have hmem : x ∈ y :: ys := by
        rw [hy]
        exact List.mem_cons_self x ys
      exact absurd hmem hnd.1

theorem bind_cons_eq {α β : Type} (x : α) (xs : List α) (f : α → List β) :
    (x :: xs).bind f = f x ++ xs.bind f := List.cons_bind x xs f

theorem bind_nil_of_all {α β : Type} {l : List α} {f : α → List β}
    (h : ∀ x ∈ l, f x = []) : l.bind f = [] := by
  induction l with
  | nil => rfl
  | cons x xs ih =>
    rw [bind_cons_eq, h x (List.mem_cons_self x xs),
      ih (fun y hy => h y (List.mem_cons_of_mem x hy))]
    rfl

theorem cteAll_singleton {T : List LocRow} {loc : Location} {b0 : CteRow}
    (h0 : cteLevel T loc 0 = [b0])
    (h1 : ∀ n, cteLevel T loc (n + 1) = []) : cteAll T loc = [b0] := by
  unfold cteAll
  rw [show T.length + 4 = (T.length + 3) + 1 from rfl, List.range_succ_eq_map,
    bind_cons_eq, h0]
  rw [bind_nil_of_all (f := cteLevel T loc)]
  · rfl
  · intro x hx
    simp only [List.mem_map] at hx
    obtain ⟨n, hn, hnx⟩ := hx
    rw [← hnx]
    exact h1 n

theorem insertSubdivision_fires {T : List LocRow} {p s : Nat} {pr : LocRow}
    (hfind : T.find? (fun x => x.location_id == p) = some pr)
    (hc : pr.country.isSome = true)
    (hnodup : T.any (fun x => x.parent_id == some p && sqlEq x.subdivision (some s))
      = false) :
    insertSubdivision T (some p) s =
      .ok (freshLocId T, T ++ [⟨freshLocId T, some p, none, some s, none, none⟩]) := by
  simp only [insertSubdivision]
  rw [hfind]
  simp only []
  rw [hc, hnodup]
  simp

theorem insertCity_fires {T : List LocRow} {p ci : Nat} {pr : LocRow}
    (hfind : T.find? (fun x => x.location_id == p) = some pr)
    (hc : (pr.country.isSome || pr.subdivision.isSome) = true)
    (hnodup : T.any (fun x => x.parent_id == some p && sqlEq x.city (some ci))
      = false) :
    insertCity T (some p) ci =
      .ok (freshLocId T, T ++ [⟨freshLocId T, some p, none, none, some ci, none⟩]) := by
  simp only [insertCity]
  rw [hfind]
  simp only []
  rw [hc, hnodup]
  simp

theorem insertPostal_fires {T : List LocRow} {p po : Nat} {pr : LocRow}
    (hfind : T.find? (fun x => x.location_id == p) = some pr)
    (hc : pr.city.isSome = true)
    (hnodup : T.any (fun x => x.parent_id == some p && sqlEq x.postal (some po))
      = false) :
    insertPostal T (some p) po =
      .ok (freshLocId T, T ++ [⟨freshLocId T, some p, none, none, none, some po⟩]) := by
  simp only [insertPostal]
  rw [hfind]
  simp only []
  rw [hc, hnodup]
  simp

theorem any_false_of_all {α : Type} {l : List α} {p : α → Bool}
    (h : ∀ x ∈ l, p x = false) : l.any p = false := by
  cases hl : l.any p
  · rfl
  · obtain ⟨x, hx, hpx⟩ := List.any_eq_true.mp hl
    rw [h x hx] at hpx
    cases hpx

theorem countryPhase_skip {found : Option CteRow} {c : Nat} {T : List LocRow}
    (h : scanCountry found = some c) :
    countryPhase found c T = .ok (scanId found, T) := by
  unfold countryPhase
  rw [if_pos h]

theorem childPhase_fire
    {ins : List LocRow → Option Nat → Nat → Except DbErr (Nat × List LocRow)}
    {fval : Option Nat} {v : Nat} (hne : fval ≠ some v)
    {st : Option Nat × List LocRow} {i : Nat} {T' : List LocRow}
    (hins : ins st.2 st.1 v = .ok (i, T')) :
    childPhase ins fval (some v) st = .ok (some i, T') := by
  unfold childPhase
  simp only []
  rw [if_neg hne, hins]

theorem dbInsertLocation_phases {T : List LocRow} {loc : Location} {c : Nat}
    (hqc : loc.country = some c)
    (hnotexact : ¬(scanCountry (pickBest (cteAll T loc)) = some c ∧
      scanSub (pickBest (cteAll T loc)) = loc.subdivision ∧
      scanCity (pickBest (cteAll T loc)) = loc.city ∧
      scanPostal (pickBest (cteAll T loc)) = loc.postal))
    {st1 st2 st3 st4 : Option Nat × List LocRow}
    (h1 : countryPhase (pickBest (cteAll T loc)) c T = .ok st1)
    (h2 : childPhase insertSubdivision (scanSub (pickBest (cteAll T loc)))
      loc.subdivision st1 = .ok st2)
    (h3 : childPhase insertCity (scanCity (pickBest (cteAll T loc)))
      loc.city st2 = .ok st3)
    (h4 : childPhase insertPostal (scanPostal (pickBest (cteAll T loc)))
      loc.postal st3 = .ok st4)
    {j : Nat} (hj : st4.1 = some j) :
    dbInsertLocation T loc = .ok (some j, st4.2) := by
  unfold dbInsertLocation
  rw [hqc]
  simp only []
  rw [if_neg hnotexact, h1]
  simp only []
  rw [h2]
  simp only []
  rw [h3]
  simp only []
  rw [h4]
  simp only []
  rw [hj]


theorem any_parent_ne_false {T : List LocRow} {j : Nat}
    (h : ∀ x ∈ T, x.parent_id ≠ some j) (q : LocRow → Bool) :
    T.any (fun x => x.parent_id == some j && q x) = false :=
  any_false_of_all (fun x hx => by
    rw [beq_eq_false_iff_ne.mpr (h x hx), Bool.false_and])

/-- C4 (amended): over a well-formed table in which the requested country
node exists and has no children yet, requesting a full
(country, subdivision, city, postal) tuple inserts exactly one new row
per missing level, each new row's parent_id referencing the previously
found or inserted node's id, and returns the id of the deepest inserted
row; the country node is not duplicated.  (Without the no-children
hypothesis the claim fails: see the counterexample, where a deeper
off-prefix match wins the CTE's ordering and the insert is rejected.) -/
theorem c4_hierarchy_amended (T : List LocRow) (c s ci po : Nat) (gb : LocRow)
    (hwf : locWF T = true) (hgb : gb ∈ T) (hgbc : gb.country = some c)
    (hnochild : ∀ r ∈ T, r.parent_id ≠ some gb.location_id) :
    ∃ i1 i2 i3,
      dbInsertLocation T ⟨some c, some s, some ci, some po⟩ =
        .ok (some i3,
          T ++ [⟨i1, some gb.location_id, none, some s, none, none⟩,
                ⟨i2, some i1, none, none, some ci, none⟩,
                ⟨i3, some i2, none, none, none, some po⟩]) := by
  obtain ⟨hgbs, hgbci, hgbpo⟩ := kind_of_country (locWF_kind hwf hgb) hgbc
  have hTnd : T.Nodup := (locWF_nodup hwf).of_map _
  have hbase : cteLevel T ⟨some c, some s, some ci, some po⟩ 0 = [baseAccum gb] := by
    show (T.filter (fun r =>
      sqlEq r.country (Location.mk (some c) (some s) (some ci) (some po)).country)).map
        baseAccum = [baseAccum gb]
    have hfil : T.filter (fun r =>
        sqlEq r.country (Location.mk (some c) (some s) (some ci) (some po)).country)
        = [gb] := by
      apply nodup_all_eq_singleton (List.Nodup.filter _ hTnd)
      · refine List.mem_filter.mpr ⟨hgb, ?_⟩
        rw [hgbc]
        exact sqlEq_refl_some c
      · intro x hx
        rw [List.mem_filter] at hx
        have hxc : x.country = some c := ((sqlEq_eq_true _ _).mp hx.2).1
        exact locWF_id_inj hwf hx.1 hgb
          (wf_uniq_country hwf hx.1 hgb hxc hgbc)
    rw [hfil]
    rfl
  have hlev1 : ∀ n, cteLevel T ⟨some c, some s, some ci, some po⟩ (n + 1) = [] := by
    intro n
    induction n with
    | zero =>
      show (cteLevel T ⟨some c, some s, some ci, some po⟩ 0).bind
        (cteChildren T ⟨some c, some s, some ci, some po⟩) = []
      rw [hbase, bind_cons_eq]
      have hch : cteChildren T ⟨some c, some s, some ci, some po⟩ (baseAccum gb)
          = [] := by
        unfold cteChildren
        rw [List.filter_eq_nil.mpr ?_]
        · rfl
        · intro r hr hc2
          rw [Bool.and_eq_true] at hc2
          have hpid : r.parent_id = some gb.location_id := by
            have h2 := hc2.1
            rw [beq_iff_eq] at h2
            exact h2
          exact hnochild r hr hpid
      rw [hch]
      rfl
    | succ n ih =>
      show (cteLevel T ⟨some c, some s, some ci, some po⟩ (n + 1)).bind
        (cteChildren T ⟨some c, some s, some ci, some po⟩) = []
      rw [ih]
      rfl
  have hall : cteAll T ⟨some c, some s, some ci, some po⟩ = [baseAccum gb] :=
    cteAll_singleton hbase hlev1
  have hpb : pickBest (cteAll T ⟨some c, some s, some ci, some po⟩)
      = some (baseAccum gb) := by
    rw [hall]
    rfl
  have hgblt : gb.location_id < freshLocId T := freshLocId_gt hgb
  have hparent_lt : ∀ x ∈ T, ∀ j, x.parent_id = some j → j < freshLocId T := by
    intro x hx j hj
    obtain ⟨pr, hprm, hprid, -⟩ := parent_found hwf hx hj
    have := freshLocId_gt hprm
    omega
  -- first insert: the subdivision row under the country node
  have hfind1 : T.find? (fun x => x.location_id == gb.location_id) = some gb :=
    locWF_find_id hwf hgb
  have hany1 : T.any (fun x => x.parent_id == some gb.location_id
      && sqlEq x.subdivision (some s)) = false :=
    any_parent_ne_false hnochild _
  set i1 : Nat := freshLocId T with hi1
  set r1 : LocRow := ⟨i1, some gb.location_id, none, some s, none, none⟩ with hr1
  set T1 : List LocRow := T ++ [r1] with hT1
  have hins1 : insertSubdivision T (some gb.location_id) s = .ok (i1, T1) :=
    insertSubdivision_fires hfind1 (by rw [hgbc]; rfl) hany1
  have hr1mem : r1 ∈ T1 := List.mem_append_right _ (List.mem_singleton_self _)
  have hfr1 : i1 < freshLocId T1 := freshLocId_gt hr1mem
  -- second insert: the city row under the new subdivision row
  have hfindT1 : T.find? (fun x => x.location_id == i1) = none := by
    refine List.find?_eq_none.mpr (fun x hx => ?_)
    intro hc
    rw [beq_iff_eq] at hc
    have := freshLocId_gt hx
    omega
  have hfind2 : T1.find? (fun x => x.location_id == i1) = some r1 := by
    rw [hT1, List.find?_append, hfindT1]
    simp [List.find?, hr1]
  have hne2 : ∀ x ∈ T1, x.parent_id ≠ some i1 := by
    intro x hx
    rcases List.mem_append.mp hx with h | h
    · intro hc2
      have := hparent_lt x h i1 hc2
      omega
    · rw [List.mem_singleton.mp h, hr1]
      intro hc2
      rw [Option.some.injEq] at hc2
      omega
  have hany2 : T1.any (fun x => x.parent_id == some i1
      && sqlEq x.city (some ci)) = false := any_parent_ne_false hne2 _
  set i2 : Nat := freshLocId T1 with hi2
  set r2 : LocRow := ⟨i2, some i1, none, none, some ci, none⟩ with hr2
  set T2 : List LocRow := T1 ++ [r2] with hT2
  have hins2 : insertCity T1 (some i1) ci = .ok (i2, T2) :=
    insertCity_fires hfind2 (by rw [hr1]; rfl) hany2
  have hr2mem : r2 ∈ T2 := List.mem_append_right _ (List.mem_singleton_self _)
  have hfr2 : i2 < freshLocId T2 := freshLocId_gt hr2mem
  -- third insert: the postal row under the new city row
  have hfindT2 : T1.find? (fun x => x.location_id == i2) = none := by
    rw [hT1, List.find?_append]
    have ha : T.find? (fun x => x.location_id == i2) = none := by
      refine List.find?_eq_none.mpr (fun x hx => ?_)
      intro hc
      rw [beq_iff_eq] at hc
      have := freshLocId_gt hx
      omega
    have hb : [r1].find? (fun x => x.location_id == i2) = none := by
      simp only [List.find?, hr1]
      rw [show ((i1 : Nat) == i2) = false from beq_eq_false_iff_ne.mpr
        (Nat.ne_of_lt hfr1)]
    rw [ha, hb]
    rfl
  have hfind3 : T2.find? (fun x => x.location_id == i2) = some r2 := by
    rw [hT2, List.find?_append, hfindT2]
    simp [List.find?, hr2]
  have hne3 : ∀ x ∈ T2, x.parent_id ≠ some i2 := by
    intro x hx
    rcases List.mem_append.mp hx with h | h
    · rcases List.mem_append.mp h with h' | h'
      · intro hc2
        have := hparent_lt x h' i2 hc2
        omega
      · rw [List.mem_singleton.mp h', hr1]
        intro hc2
        rw [Option.some.injEq] at hc2
        omega
    · rw [List.mem_singleton.mp h, hr2]
      intro hc2
      rw [Option.some.injEq] at hc2
      omega
  have hany3 : T2.any (fun x => x.parent_id == some i2
      && sqlEq x.postal (some po)) = false := any_parent_ne_false hne3 _
  set i3 : Nat := freshLocId T2 with hi3
  set r3 : LocRow := ⟨i3, some i2, none, none, none, some po⟩ with hr3
  set T3 : List LocRow := T2 ++ [r3] with hT3
  have hins3 : insertPostal T2 (some i2) po = .ok (i3, T3) :=
    insertPostal_fires hfind3 (by rw [hr2]; rfl) hany3
  -- assemble the four phases
  have h1 : countryPhase (pickBest (cteAll T ⟨some c, some s, some ci, some po⟩))
      c T = .ok (some gb.location_id, T) := by
    rw [hpb]
    exact countryPhase_skip (show gb.country = some c from hgbc)
  have h2 : childPhase insertSubdivision
      (scanSub (pickBest (cteAll T ⟨some c, some s, some ci, some po⟩)))
      (some s) (some gb.location_id, T) = .ok (some i1, T1) := by
    rw [hpb]
    refine childPhase_fire ?_ hins1
    show gb.subdivision ≠ some s
    rw [hgbs]
    exact Option.noConfusion
  have h3 : childPhase insertCity
      (scanCity (pickBest (cteAll T ⟨some c, some s, some ci, some po⟩)))
      (some ci) (some i1, T1) = .ok (some i2, T2) := by
    rw [hpb]
    refine childPhase_fire ?_ hins2
    show gb.city ≠ some ci
    rw [hgbci]
    exact Option.noConfusion
  have h4 : childPhase insertPostal
      (scanPostal (pickBest (cteAll T ⟨some c, some s, some ci, some po⟩)))
      (some po) (some i2, T2) = .ok (some i3, T3) := by
    rw [hpb]
    refine childPhase_fire ?_ hins3
    show gb.postal ≠ some po
    rw [hgbpo]
    exact Option.noConfusion
  have hnotexact : ¬(scanCountry (pickBest (cteAll T ⟨some c, some s, some ci,
      some po⟩)) = some c ∧
      scanSub (pickBest (cteAll T ⟨some c, some s, some ci, some po⟩)) = some s ∧
      scanCity (pickBest (cteAll T ⟨some c, some s, some ci, some po⟩)) = some ci ∧
      scanPostal (pickBest (cteAll T ⟨some c, some s, some ci, some po⟩))
        = some po) := by
    intro hcond
    have h2' := hcond.2.1
    rw [hpb] at h2'
    rw [show scanSub (some (baseAccum gb)) = gb.subdivision from rfl, hgbs] at h2'
    exact Option.noConfusion h2'
  have hres : dbInsertLocation T ⟨some c, some s, some ci, some po⟩
      = .ok (some i3, T3) :=
    dbInsertLocation_phases rfl hnotexact h1 h2 h3 h4 rfl
  refine ⟨i1, i2, i3, ?_⟩
  rw [hres, hT3, hT2, hT1]
  simp [List.append_assoc]

/-- Witness for the amended C4: with only the country node (code 10,
id 1) present, requesting (10, 20, 30, 40) inserts exactly the three
missing levels with chained parent ids and returns the deepest id. -/
theorem c4_witness :
    ∃ i1 i2 i3,
      dbInsertLocation [⟨1, none, some 10, none, none, none⟩]
        ⟨some 10, some 20, some 30, some 40⟩ =
        .ok (some i3,
          [(⟨1, none, some 10, none, none, none⟩ : LocRow)] ++
            [⟨i1, some 1, none, some 20, none, none⟩,
             ⟨i2, some i1, none, none, some 30, none⟩,
             ⟨i3, some i2, none, none, none, some 40⟩]) :=
  c4_hierarchy_amended [⟨1, none, some 10, none, none, none⟩] 10 20 30 40
    ⟨1, none, some 10, none, none, none⟩ (by decide) (by decide) rfl
    (by decide)
